import Mathlib

/-!
Shallow embedding of the doodlelizer image-to-SVG pipeline
(src/lib/image-processor.ts, src/lib/utils/math-utils.ts,
src/lib/utils/svg-utils.ts, src/lib/processors/*.ts) and proofs about it.

JavaScript `number` values are modelled as `ℚ` (all arithmetic appearing in
the modelled code paths is exact decimal/rational arithmetic; `Math.round`,
`Math.floor` and comparisons are modelled exactly).  Loop indices and array
lengths are modelled as `ℕ`.  Fallible code paths (JavaScript exceptions)
are modelled with `Option`.
-/

namespace Doodle

/-- JavaScript `Math.round`: rounds half-way cases toward positive infinity,
i.e. `Math.round x = ⌊x + 1/2⌋` for every finite `x`. -/
def jsRound (q : ℚ) : ℤ := ⌊q + 1/2⌋

/-- Source: math-utils.ts `ensureEvenDensity`.  `density % 2 === 0` for a
positive JS number `d` means `d - 2*⌊d/2⌋ = 0` (JS `%` is a remainder whose
sign follows the dividend; here the dividend is positive). -/
def ensureEvenDensity (density : ℚ) : ℚ :=
  if density ≤ 0 then 0
  else if density - 2 * ⌊density / 2⌋ = 0 then density else density - 1

/-- Processing mode enum from types.ts. -/
inductive ProcessingMode where
  | grayscale
  | posterize
  | cmyk
  | monochrome
deriving DecidableEq, Repr

/-- Settings from types.ts.  `visiblePaths` is a JS object used as a map from
color-group key to boolean; a lookup of an absent key yields `undefined`,
modelled as `none`.  `colorsAmt`, `rowsCount` and `columnsCount` are used as
loop/element counts by the code, so they are modelled as `ℕ`.
The nested `curveControls` object only affects Bézier control-point
coordinates inside emitted path strings, which the claims never inspect, so
it is not modelled. -/
structure Settings where
  gridSize : ℚ
  gridSizeX : ℚ
  gridSizeY : ℚ
  brightnessThreshold : ℚ
  minDensity : ℚ
  maxDensity : ℚ
  rowsCount : ℕ
  columnsCount : ℕ
  invert : Bool
  continuousPaths : Bool
  curvedPaths : Bool
  pathDistanceThreshold : ℚ
  processingMode : ProcessingMode
  colorsAmt : ℕ
  monochromeColor : String
  visiblePaths : String → Option Bool

/-- PixelData from types.ts.  `x`/`y` are sampling-grid indices (the sampler
creates them from loop counters, and the processors use them to index a
`height × width` grid), so they are modelled as `ℕ`. -/
structure PixelData where
  x : ℕ
  y : ℕ
  brightness : ℚ
  r : ℚ
  g : ℚ
  b : ℚ
  a : ℚ
deriving DecidableEq, Repr

/-- PathPoint from types.ts. -/
structure PathPoint where
  x : ℚ
  y : ℚ
  width : ℚ
  height : ℚ
  density : ℚ
  row : ℕ
  direction : ℤ
deriving DecidableEq, Repr

/-- ColorGroup from types.ts (the optional `pathData`, `hue` and `brightness`
presentation fields are not consumed by any modelled code path). -/
structure ColorGroup where
  color : String
  displayName : String
  points : List PathPoint
deriving DecidableEq, Repr

/-- ImageData from types.ts.  `colorGroups` is a JS object keyed by
color-group key; it is modelled as an association list in insertion order
(the order `Object.entries` enumerates). -/
structure ImageDataM where
  width : ℕ
  height : ℕ
  pixels : List PixelData
  originalWidth : ℚ
  originalHeight : ℚ
  resizedWidth : ℚ
  resizedHeight : ℚ
  outputWidth : ℚ
  outputHeight : ℚ
  columnsCount : ℕ
  rowsCount : ℕ
  tileWidth : ℚ
  tileHeight : ℚ
  colorGroups : List (String × ColorGroup)

/-- Result record of image-processor.ts `calculateResizeDimensions`. -/
structure ResizeDimensions where
  resizedWidth : ℚ
  resizedHeight : ℚ
  columnsCount : ℕ
  rowsCount : ℕ
  gridSizeX : ℚ
  gridSizeY : ℚ
  outputWidth : ℚ
  outputHeight : ℚ
deriving DecidableEq, Repr

/-- Source: image-processor.ts `calculateResizeDimensions` (lines 492-535).
`MAX_DIMENSION = 560`; the branch on `aspectRatio = w/h` compares with 1. -/
def calculateResizeDimensions (originalWidth originalHeight : ℚ)
    (columnsCount rowsCount : ℕ) : ResizeDimensions :=
  let aspectRatio := originalWidth / originalHeight
  let out : ℚ × ℚ :=
    if aspectRatio < 1 then
      (560, (jsRound (560 / aspectRatio) : ℚ))
    else if 1 < aspectRatio then
      ((jsRound (560 * aspectRatio) : ℚ), 560)
    else
      (560, 560)
  { resizedWidth := (columnsCount : ℚ)
    resizedHeight := (rowsCount : ℚ)
    columnsCount := columnsCount
    rowsCount := rowsCount
    gridSizeX := out.1 / (columnsCount : ℚ)
    gridSizeY := out.2 / (rowsCount : ℚ)
    outputWidth := out.1
    outputHeight := out.2 }

/-- Row-major enumeration `(y, x)` of the sampling grid, matching the nested
`for (y …) for (x …)` loops used throughout the processors. -/
def cellsRowMajor (width height : ℕ) : List (ℕ × ℕ) :=
  (List.range height).flatMap fun y => (List.range width).map fun x => (y, x)

/-- Brightness formula of the sampler (image-processor.ts lines 92-97):
`Math.round((r*0.299 + g*0.587 + b*0.114) * a)` with `a` the alpha byte
normalized by 255. -/
def lumaBrightness (r g b alphaByte : ℚ) : ℤ :=
  jsRound ((r * 0.299 + g * 0.587 + b * 0.114) * (alphaByte / 255))

/-- Sampling of one grid cell (the body of the pixel-extraction loop of
image-processor.ts `processImage`, lines 84-122): computes the luma-weighted
brightness, inverts it when `settings.invert` is set, and keeps the cell
iff the mode is cmyk or the brightness passes the threshold comparison,
whose direction also follows `settings.invert`. -/
def sampleCell (settings : Settings) (data : ℕ → ℕ → ℚ × ℚ × ℚ × ℚ)
    (x y : ℕ) : Option PixelData :=
  let rgba := data x y
  let r := rgba.1
  let g := rgba.2.1
  let b := rgba.2.2.1
  let brightness0 : ℤ := lumaBrightness r g b rgba.2.2.2
  let brightness : ℚ := if settings.invert then 255 - brightness0 else (brightness0 : ℚ)
  if settings.processingMode = ProcessingMode.cmyk ∨
      (if settings.invert then settings.brightnessThreshold ≤ brightness
       else brightness ≤ settings.brightnessThreshold) then
    some { x := x, y := y, brightness := brightness, r := r, g := g, b := b,
           a := (jsRound (rgba.2.2.2 / 255 * 255) : ℚ) }
  else none

/-- Source: image-processor.ts `processImage`, pixel-extraction loop
(lines 84-122).  The canvas read-back `imageData.data` is modelled as a
function from grid coordinates to the four channel bytes `(r, g, b, alpha)`. -/
def samplePixels (gridWidth gridHeight : ℕ) (settings : Settings)
    (data : ℕ → ℕ → ℚ × ℚ × ℚ × ℚ) : List PixelData :=
  (cellsRowMajor gridWidth gridHeight).filterMap fun yx =>
    sampleCell settings data yx.2 yx.1

/-- Pixel-grid lookup.  Each processor builds `pixelGrid[y][x]` by writing
every pixel of the list at its coordinates (later writes win) and then reads
it back, which for a lookup is: the last pixel of the list carrying those
coordinates. -/
def pixelAt (pixels : List PixelData) (x y : ℕ) : Option PixelData :=
  (pixels.filter fun p => p.x = x ∧ p.y = y).getLast?

/-- Shared point-construction literal appearing verbatim in every processor:
`x: y % 2 === 0 ? x * gridSizeX : (x + 1) * gridSizeX`, `y: y * gridSizeY`,
tile size from the grid sizes, `row: y`, `direction: y % 2 === 0 ? 1 : -1`. -/
def mkPathPoint (settings : Settings) (x y : ℕ) (density : ℚ) : PathPoint :=
  { x := if y % 2 = 0 then (x : ℚ) * settings.gridSizeX
         else ((x : ℚ) + 1) * settings.gridSizeX
    y := (y : ℚ) * settings.gridSizeY
    width := settings.gridSizeX
    height := settings.gridSizeY
    density := density
    row := y
    direction := if y % 2 = 0 then 1 else -1 }

/-- Shared density interpolation literal
`Math.round(minDensity + nb * (maxDensity - minDensity))`. -/
def interpDensity (minDensity maxDensity nb : ℚ) : ℤ :=
  jsRound (minDensity + nb * (maxDensity - minDensity))

/-- CMYKValues from types.ts. -/
structure CMYKValues where
  cyan : ℚ
  magenta : ℚ
  yellow : ℚ
  black : ℚ
deriving DecidableEq, Repr

/-- Source: image-processor.ts `rgbToCMYK` (lines 461-489). -/
def rgbToCMYK (r g b : ℚ) : CMYKValues :=
  let rn := r / 255
  let gn := g / 255
  let bn := b / 255
  let k := 1 - max rn (max gn bn)
  let cmy : ℚ × ℚ × ℚ :=
    if k < 1 then
      let ik := 1 / (1 - k)
      ((1 - rn - k) * ik, (1 - gn - k) * ik, (1 - bn - k) * ik)
    else (0, 0, 0)
  { cyan := (jsRound (cmy.1 * 255) : ℚ)
    magenta := (jsRound (cmy.2.1 * 255) : ℚ)
    yellow := (jsRound (cmy.2.2 * 255) : ℚ)
    black := (jsRound (k * 255) : ℚ) }

/-- Channel enumeration order of `Object.entries(cmyk)`, which follows the
property insertion order of the `CMYKValues` literal in `rgbToCMYK`. -/
def cmykEntries (v : CMYKValues) : List (String × ℚ) :=
  [("cyan", v.cyan), ("magenta", v.magenta), ("yellow", v.yellow), ("black", v.black)]

/-- Value of a named CMYK channel (the record field selected by the
`Object.entries` key). -/
def cmykChannelValue (v : CMYKValues) (channel : String) : ℚ :=
  (((cmykEntries v).find? fun e => e.1 = channel).map Prod.snd).getD 0

/-- Source: image-processor.ts `processCMYK` (lines 380-458), point list of a
single channel group: a pixel contributes a point to `channel` iff its
converted channel value is `> 0`; the density interpolates the normalized
channel value. -/
def processCMYKPointsFor (imageData : ImageDataM) (settings : Settings)
    (channel : String) : List PathPoint :=
  (cellsRowMajor imageData.width imageData.height).filterMap fun yx =>
    match pixelAt imageData.pixels yx.2 yx.1 with
    | none => none
    | some p =>
      let v := cmykChannelValue (rgbToCMYK p.r p.g p.b) channel
      if 0 < v then
        some (mkPathPoint settings yx.2 yx.1
          ((interpDensity settings.minDensity settings.maxDensity (v / 255) : ℚ)))
      else none

/-- Source: image-processor.ts `processCMYK`, the four fixed channel groups in
insertion order. -/
def processCMYK (imageData : ImageDataM) (settings : Settings) :
    List (String × ColorGroup) :=
  [("cyan",    { color := "#00FFFF", displayName := "Cyan",
                 points := processCMYKPointsFor imageData settings "cyan" }),
   ("magenta", { color := "#FF00FF", displayName := "Magenta",
                 points := processCMYKPointsFor imageData settings "magenta" }),
   ("yellow",  { color := "#FFFF00", displayName := "Yellow",
                 points := processCMYKPointsFor imageData settings "yellow" }),
   ("black",   { color := "#000000", displayName := "Black",
                 points := processCMYKPointsFor imageData settings "black" })]

/-- Source: image-processor.ts `processMonochrome` (lines 978-1034), the point
list of the single `monochrome` group. -/
def processMonochromePoints (imageData : ImageDataM) (settings : Settings) :
    List PathPoint :=
  (cellsRowMajor imageData.width imageData.height).filterMap fun yx =>
    (pixelAt imageData.pixels yx.2 yx.1).map fun p =>
      mkPathPoint settings yx.2 yx.1
        ((interpDensity settings.minDensity settings.maxDensity
          ((255 - p.brightness) / 255) : ℚ))

/-- Source: image-processor.ts `processMonochrome`, full result record. -/
def processMonochrome (imageData : ImageDataM) (settings : Settings) :
    List (String × ColorGroup) :=
  [("monochrome", { color := settings.monochromeColor,
                    displayName := "Monochrome",
                    points := processMonochromePoints imageData settings })]

/-- Source: grayscale-processor.ts `processGrayscale`, brightness-range scan
(lines 23-34): fold over the grid, starting from `minBright = 255`,
`maxBright = 0`. -/
def brightnessRange (pixels : List PixelData) (width height : ℕ) : ℚ × ℚ :=
  (cellsRowMajor width height).foldl
    (fun mm yx =>
      match pixelAt pixels yx.2 yx.1 with
      | some p => (min mm.1 p.brightness, max mm.2 p.brightness)
      | none => mm)
    (255, 0)

/-- Source: grayscale-processor.ts `processGrayscale`, gray-level construction
(lines 36-42): `Math.round(minBright + (i / (colorsAmt - 1)) * (maxBright -
minBright))` for `i < colorsAmt`.  Caveat: for `colorsAmt = 1` the JS code
divides `0/0 = NaN`; all theorems below therefore assume `2 ≤ colorsAmt`,
where the JS and rational arithmetic agree. -/
def grayLevels (colorsAmt : ℕ) (minB maxB : ℚ) : List ℚ :=
  (List.range colorsAmt).map fun i : ℕ =>
    ((jsRound (minB + ((i : ℚ) / ((colorsAmt : ℚ) - 1)) * (maxB - minB)) : ℤ) : ℚ)

/-- Source: grayscale-processor.ts `processGrayscale`, nearest-level reduce
(lines 67-72): `grayLevels.reduce((prev, curr) => |curr - b| < |prev - b| ?
curr : prev)`.  JS `reduce` without initial value throws on an empty array;
the modelled `0` for `[]` is never reached under the theorems' hypotheses
(`colorsAmt ≥ 2` gives a nonempty level list). -/
def nearestStep (b prev curr : ℚ) : ℚ :=
  if |curr - b| < |prev - b| then curr else prev

def nearestGray (levels : List ℚ) (b : ℚ) : ℚ :=
  match levels with
  | [] => 0
  | l :: ls => ls.foldl (nearestStep b) l

/-- Color-group key of a gray level: `gray-<grayValue>`. -/
def grayKey (grayValue : ℤ) : String := "gray-" ++ toString grayValue

/-- Source: grayscale-processor.ts `processGrayscale`, density computation
(lines 77-83): `ensureEvenDensity(Math.round(minDensity +
((255 - grayValue) / 255) * (maxDensity - minDensity)))`. -/
def grayDensity (settings : Settings) (grayValue : ℤ) : ℚ :=
  ensureEvenDensity
    ((interpDensity settings.minDensity settings.maxDensity
      ((255 - (grayValue : ℚ)) / 255) : ℚ))

/-- Assigned (rounded) gray value of one pixel given the level list:
`Math.round(nearestGray)`. -/
def assignedGray (levels : List ℚ) (p : PixelData) : ℤ :=
  jsRound (nearestGray levels p.brightness)

/-- Source: grayscale-processor.ts `processGrayscale`, point list pushed into
the group of key `key` (pixel loop, lines 60-99): the pixels are visited in
row-major grid order and each contributes one point to the group of its
assigned gray value. -/
def grayscalePointsFor (imageData : ImageDataM) (settings : Settings)
    (levels : List ℚ) (key : String) : List PathPoint :=
  (cellsRowMajor imageData.width imageData.height).filterMap fun yx =>
    match pixelAt imageData.pixels yx.2 yx.1 with
    | none => none
    | some p =>
      if grayKey (assignedGray levels p) = key then
        some (mkPathPoint settings yx.2 yx.1
          (grayDensity settings (assignedGray levels p)))
      else none

/-- Every point produced by `processGrayscale`, across all groups (same loop,
without the key filter). -/
def processGrayscalePoints (imageData : ImageDataM) (settings : Settings) :
    List PathPoint :=
  let mm := brightnessRange imageData.pixels imageData.width imageData.height
  let levels := grayLevels settings.colorsAmt mm.1 mm.2
  (cellsRowMajor imageData.width imageData.height).filterMap fun yx =>
    (pixelAt imageData.pixels yx.2 yx.1).map fun p =>
      mkPathPoint settings yx.2 yx.1 (grayDensity settings (assignedGray levels p))

/-- JS-object key list: first occurrence wins, later duplicate insertions keep
the original position.  Models the key set of `Record<string, …>` built by
repeated `obj[key] = …` writes. -/
def jsObjectKeys (ks : List String) : List String :=
  ks.foldl (fun acc k => if k ∈ acc then acc else acc ++ [k]) []

/-- Source: grayscale-processor.ts `processGrayscale`, whole result: one group
per distinct rounded gray level (duplicate levels collapse onto one record
key), each holding the points of the pixels assigned to it. -/
def processGrayscale (imageData : ImageDataM) (settings : Settings) :
    List (String × ColorGroup) :=
  let mm := brightnessRange imageData.pixels imageData.width imageData.height
  let levels := grayLevels settings.colorsAmt mm.1 mm.2
  (jsObjectKeys (levels.map fun l => grayKey (jsRound l))).map fun key =>
    (key, { color := "", displayName := "",
            points := grayscalePointsFor imageData settings levels key })

/-- Squared Euclidean distance between two points.  Source
`calculateDistance` (math-utils.ts lines 149-156) returns
`Math.sqrt` of this value; every use compares the distance against a
threshold, which is equivalent to the square-free comparison used below
(see `distanceExceeds_iff_sqrt`). -/
def distSq (x1 y1 x2 y2 : ℚ) : ℚ := (x2 - x1) ^ 2 + (y2 - y1) ^ 2

/-- Comparison `calculateDistance(x1,y1,x2,y2) > t` from
svg-utils.ts `generateContinuousPath` (line 89), expressed without the square
root: for `t < 0` the nonnegative root always exceeds `t`; otherwise both
sides may be squared. -/
def distanceExceeds (x1 y1 x2 y2 t : ℚ) : Bool :=
  decide (t < 0 ∨ t ^ 2 < distSq x1 y1 x2 y2)

/-- Comparator order of the serpentine sort in `generateContinuousPath`
(svg-utils.ts lines 62-66): by row, then by `x` ascending on even rows and
descending on odd rows.  `serpentineLE a b` holds when the JS comparator
returns a value `≤ 0` on `(a, b)`. -/
def serpentineLE (a b : PathPoint) : Bool :=
  decide (a.row < b.row ∨
    (a.row = b.row ∧ (if a.row % 2 = 0 then a.x ≤ b.x else b.x ≤ a.x)))

/-- Stable insertion into a sorted list: `a` is placed before the first
element `b` with `le a b` (so elements comparing equal to `a` that are
already present stay in front of it, as in a stable sort). -/
def insertSorted (le : PathPoint → PathPoint → Bool) (a : PathPoint) :
    List PathPoint → List PathPoint
  | [] => [a]
  | b :: bs => if le a b then a :: b :: bs else b :: insertSorted le a bs

/-- Stable sort by a JS comparator.  `Array.prototype.sort` is specified only
as a stable sort consistent with the comparator; insertion sort realizes
exactly that specification. -/
def sortPoints (le : PathPoint → PathPoint → Bool) : List PathPoint → List PathPoint
  | [] => []
  | a :: as => insertSorted le a (sortPoints le as)

/-- Source: svg-utils.ts `generateContinuousPath` main loop (lines 76-252),
abstracted to the partition of the (sorted) points into emitted `<path>`
elements: zero-density points are skipped; a kept point starts a new path
when it is the first kept point or its distance to the previous kept point
exceeds the threshold; otherwise it extends the current path.  `last` is the
`lastPoint` variable, `curr` the points already serialized into `pathData`. -/
def pathRunsAux (t : ℚ) : List PathPoint → Option PathPoint → List PathPoint →
    List (List PathPoint)
  | [], _, curr => if curr = [] then [] else [curr]
  | p :: rest, last, curr =>
    if p.density ≤ 0 then pathRunsAux t rest last curr
    else
      match last with
      | none => pathRunsAux t rest (some p) [p]
      | some lp =>
        if distanceExceeds lp.x lp.y p.x p.y t then
          curr :: pathRunsAux t rest (some p) [p]
        else
          pathRunsAux t rest (some p) (curr ++ [p])

/-- Emitted `<path>` elements of one color group in continuous mode, each
represented by the list of tile points serialized into it, in order. -/
def generateContinuousPathRuns (points : List PathPoint) (settings : Settings) :
    List (List PathPoint) :=
  pathRunsAux settings.pathDistanceThreshold (sortPoints serpentineLE points) none []

/-- Source: svg-utils.ts `generateIndividualPaths` together with
`generateSerpentinePath` (which emits nothing for `density ≤ 0`): each
positive-density point becomes its own single-tile `<path>`. -/
def generateIndividualPathRuns (points : List PathPoint) : List (List PathPoint) :=
  points.filterMap fun p => if p.density ≤ 0 then none else some [p]

/-- One `<g>` element of the generated SVG document: its `id`, `data-color`
and `data-name` attributes and its `<path>` children (each abstracted to the
tile points it serializes). -/
structure SvgGroupEl where
  id : String
  dataColor : String
  dataName : String
  paths : List (List PathPoint)
deriving DecidableEq

/-- Source: svg-utils.ts `generateSVG` (lines 10-51), abstracted to the list
of `<g>` elements of the produced document: groups are emitted in
`Object.entries(colorGroups)` order, skipping those with
`visiblePaths[key] === false`, with id `"${index + 1}color-group-${key}"`
(note the ordinal prefixed to the id). -/
def generateSVGGroups (imageData : ImageDataM) (settings : Settings) :
    List SvgGroupEl :=
  (imageData.colorGroups.enum.filterMap fun entryIdx =>
    let index := entryIdx.1
    let colorKey := entryIdx.2.1
    let group := entryIdx.2.2
    if settings.visiblePaths colorKey = some false then none
    else
      some { id := toString (index + 1) ++ "color-group-" ++ colorKey
             dataColor := group.color
             dataName := group.displayName
             paths := if settings.continuousPaths then
                        generateContinuousPathRuns group.points settings
                      else
                        generateIndividualPathRuns group.points })

/-- Browser `Document.getElementById` on the parsed document, restricted to
the `<g>` elements the generator emits (the only elements carrying ids). -/
def getElementById (doc : List SvgGroupEl) (id : String) : Option SvgGroupEl :=
  doc.find? fun g => g.id = id

/-- Source: svg-utils.ts `extractColorGroupSVG` (lines 761-827).  The input
string is parsed by `DOMParser`; an unparsable input yields an error document
in which the id lookup finds nothing, and any thrown error is caught and
turned into `null` — both modelled by the `none` document.  On success the
function looks up `color-group-<key>` and returns a fresh SVG document
containing exactly that one group (modelled by the group element itself). -/
def extractColorGroupSVG (doc : Option (List SvgGroupEl)) (colorKey : String) :
    Option SvgGroupEl :=
  match doc with
  | none => none
  | some d =>
    match getElementById d ("color-group-" ++ colorKey) with
    | none => none
    | some g => some g

/-- Source: svg-utils.ts `extractAllColorGroups` (lines 829-858): selects the
elements whose id starts with `color-group-`, strips that marker from the id
to obtain the key, extracts each, and drops failed extractions; parse
failures and caught errors yield the empty record. -/
def extractAllColorGroups (doc : Option (List SvgGroupEl)) :
    List (String × SvgGroupEl) :=
  match doc with
  | none => []
  | some d =>
    (d.filter fun g => g.id.startsWith "color-group-").filterMap fun g =>
      let colorKey := (g.id.drop "color-group-".length)
      match extractColorGroupSVG (some d) colorKey with
      | none => none
      | some e => some (colorKey, e)

/-- RGB color triple `[r, g, b]` from math-utils.ts. -/
abbrev Color := ℚ × ℚ × ℚ

/-- Squared Euclidean RGB distance.  Source `colorDistance`
(math-utils.ts lines 105-115) returns `Math.sqrt` of this value; it is only
ever used in `<` comparisons between distances, on which the square root is
strictly monotone, so all comparisons below are performed on squares. -/
def colorDistanceSq (c1 c2 : Color) : ℚ :=
  (c1.1 - c2.1) ^ 2 + (c1.2.1 - c2.2.1) ^ 2 + (c1.2.2 - c2.2.2) ^ 2

/-- Source: math-utils.ts `findNearestCentroidIndex` (lines 78-94):
`minDist` starts at `+∞` (modelled by `none`) and an index is taken only on a
strictly smaller distance, so the first index attaining the minimum wins.
The fold state is `(minDist, nearestIndex, runningIndex)`. -/
def findNearestStep (color : Color) (st : Option ℚ × ℕ × ℕ) (cent : Color) :
    Option ℚ × ℕ × ℕ :=
  let d := colorDistanceSq color cent
  match st.1 with
  | none => (some d, st.2.2, st.2.2 + 1)
  | some m =>
    if d < m then (some d, st.2.2, st.2.2 + 1)
    else (st.1, st.2.1, st.2.2 + 1)

def findNearestCentroidIndex (color : Color) (centroids : List Color) : ℕ :=
  (centroids.foldl (findNearestStep color) ((none : Option ℚ), 0, 0)).2.1

/-- Source: math-utils.ts `findNearestCentroid` (lines 97-102):
`centroids[findNearestCentroidIndex(color, centroids)]`.  The index is always
in range when `centroids` is nonempty; on the empty list the JS expression
yields `undefined` and the caller crashes, which `processPosterize` below
models explicitly. -/
def findNearestCentroid (color : Color) (centroids : List Color) : Color :=
  centroids.getD (findNearestCentroidIndex color centroids) (0, 0, 0)

/-- Source: math-utils.ts `averageColor` (lines 118-132).  Callers guard
against the empty list (JS would produce `NaN`; Lean division by zero gives
`0`; neither case is reachable below). -/
def averageColor (colors : List Color) : Color :=
  ((colors.map Prod.fst).sum / colors.length,
   (colors.map (fun c => c.2.1)).sum / colors.length,
   (colors.map (fun c => c.2.2)).sum / colors.length)

/-- Source: math-utils.ts `centroidsEqual` (lines 135-146): equal lengths and
every componentwise difference strictly below 1. -/
def centroidsEqualQ (c1 c2 : List Color) : Bool :=
  c1.length = c2.length &&
    (List.zip c1 c2).all fun p =>
      decide (|p.1.1 - p.2.1| < 1 ∧ |p.1.2.1 - p.2.2.1| < 1 ∧ |p.1.2.2 - p.2.2.2| < 1)

/-- Cluster-array update `clusters[i].push(color)`. -/
def clusterAppend (clusters : List (List Color)) (i : ℕ) (c : Color) :
    List (List Color) :=
  clusters.set i (clusters.getD i [] ++ [c])

/-- Source: kMeansClustering cluster-assignment pass (math-utils.ts lines
48-55): distribute every color to the cluster of its nearest centroid. -/
def assignClusters (cols : List Color) (k : ℕ) (centroids : List Color) :
    List (List Color) :=
  cols.foldl (fun clusters c =>
    clusterAppend clusters (findNearestCentroidIndex c centroids) c)
    (List.replicate k [])

/-- Source: kMeansClustering centroid-update pass (math-utils.ts lines
57-61): an empty cluster keeps the previous centroid, a nonempty one is
replaced by its average. -/
def updateCentroids (cols : List Color) (k : ℕ) (centroids : List Color) :
    List Color :=
  (assignClusters cols k centroids).enum.map fun ic =>
    if ic.2 = [] then centroids.getD ic.1 (0, 0, 0) else averageColor ic.2

/-- Source: kMeansClustering iteration loop (math-utils.ts lines 38-64):
`while (iterations < maxIterations && !centroidsEqual(centroids, old))`.
The fuel argument is `maxIterations - iterations`, starting at 10. -/
def kMeansLoop (cols : List Color) (k : ℕ) :
    ℕ → List Color → List Color → List Color
  | 0, cents, _ => cents
  | fuel + 1, cents, old =>
    if centroidsEqualQ cents old then cents
    else kMeansLoop cols k fuel (updateCentroids cols k cents) cents

/-- Source: kMeansClustering initial random pick (math-utils.ts lines 22-31).
`Math.floor(Math.random() * copy.length)` is a uniformly random index below
`copy.length`; the randomness is made explicit as an oracle `rand`, reduced
into range with `% copy.length` (which reaches exactly the same indices).
The picked element is removed (`splice`) before the next draw. -/
def pickLoop (rand : ℕ → ℕ) : ℕ → ℕ → List Color → List Color
  | _, 0, _ => []
  | i, fuel + 1, copy =>
    if copy.isEmpty then []
    else
      let idx := rand i % copy.length
      copy.getD idx (0, 0, 0) :: pickLoop rand (i + 1) fuel (copy.eraseIdx idx)

/-- Source: kMeansClustering padding loop (math-utils.ts lines 33-36):
`while (centroids.length < k) centroids.push([...centroids[last]])`.
When the pick loop produced nothing (empty input and `k ≥ 1`), the JS code
spreads `undefined` and throws a `TypeError`, modelled by `none`. -/
def padCentroids (k : ℕ) (c : List Color) : Option (List Color) :=
  if k ≤ c.length then some c
  else
    match c.getLast? with
    | none => none
    | some last => some (c ++ List.replicate (k - c.length) last)

/-- Source: kMeansClustering performance subsampling (math-utils.ts lines
8-19): with more than 10000 colors, keep indices `0, step, 2·step, …` with
`step = ⌊length / 10000⌋`. -/
def sampleColors (colors : List Color) : List Color :=
  if 10000 < colors.length then
    let step := colors.length / 10000
    (List.range ((colors.length + step - 1) / step)).filterMap fun j =>
      colors.get? (j * step)
  else colors

/-- Source: math-utils.ts `kMeansClustering` (lines 4-75), with the random
index draws supplied by the oracle `rand`.  The returned centroids are
componentwise `Math.round`ed. -/
def kMeansClustering (colors : List Color) (k : ℕ) (rand : ℕ → ℕ) :
    Option (List Color) :=
  let cols := sampleColors colors
  (padCentroids k (pickLoop rand 0 k cols)).map fun init =>
    (kMeansLoop cols k 10 init []).map fun c =>
      ((jsRound c.1 : ℚ), (jsRound c.2.1 : ℚ), (jsRound c.2.2 : ℚ))

/-- Source: posterize-processor.ts `processPosterize`, unique-color collection
(lines 30-44): grid scan in row-major order, keeping the first occurrence of
each distinct RGB triple. -/
def uniqueColors (pixels : List PixelData) (width height : ℕ) : List Color :=
  (cellsRowMajor width height).foldl
    (fun acc yx =>
      match pixelAt pixels yx.2 yx.1 with
      | some p => if (p.r, p.g, p.b) ∈ acc then acc else acc ++ [(p.r, p.g, p.b)]
      | none => acc)
    []

/-- Decimal rendering of a JS number that happens to be an integer (the only
case arising below: centroid components are `Math.round` results). -/
def jsNumToString (q : ℚ) : String :=
  if q.den = 1 then toString q.num else toString q

/-- Color-group key of a centroid: `color-<r>-<g>-<b>`. -/
def centroidKey (c : Color) : String :=
  "color-" ++ jsNumToString c.1 ++ "-" ++ jsNumToString c.2.1 ++ "-" ++
    jsNumToString c.2.2

/-- Source: posterize-processor.ts pixel-assignment loop, point list pushed
into the group of key `key`: each pixel contributes one point to its nearest
centroid's group, with density interpolated from the centroid's luma
brightness (the density formula is the plain interpolation of
image-processor.ts `processPosterize`, lines 353-358). -/
def posterizePointsFor (imageData : ImageDataM) (settings : Settings)
    (centroids : List Color) (key : String) : List PathPoint :=
  (cellsRowMajor imageData.width imageData.height).filterMap fun yx =>
    match pixelAt imageData.pixels yx.2 yx.1 with
    | none => none
    | some p =>
      let cent := findNearestCentroid (p.r, p.g, p.b) centroids
      if centroidKey cent = key then
        let brightness := cent.1 * 0.299 + cent.2.1 * 0.587 + cent.2.2 * 0.114
        some (mkPathPoint settings yx.2 yx.1
          ((interpDensity settings.minDensity settings.maxDensity
            ((255 - brightness) / 255) : ℚ)))
      else none

/-- Source: processPosterize (posterize-processor.ts lines 13-111 and
image-processor.ts lines 287-377): the group record keyed by centroid key in
insertion order (duplicate keys collapse onto one record entry).  `none`
models the two crashing paths: the padding `TypeError` inside
`kMeansClustering` (no pixels, `colorsAmt ≥ 1`), and the destructuring of
`undefined` in the pixel loop when there are no centroids at all.  The final
hue/brightness presentation sort of the posterize-processor variant
(`calculateHueAndBrightness`, whose module is not part of src/) reorders and
annotates the groups but does not add or remove any, so it is not modelled;
no claim below depends on group order. -/
def processPosterize (imageData : ImageDataM) (settings : Settings)
    (rand : ℕ → ℕ) : Option (List (String × ColorGroup)) :=
  let uc := uniqueColors imageData.pixels imageData.width imageData.height
  match kMeansClustering uc settings.colorsAmt rand with
  | none => none
  | some centroids =>
    if centroids = [] ∧ uc ≠ [] then none
    else
      some ((jsObjectKeys (centroids.map centroidKey)).map fun key =>
        (key, { color := "", displayName := "",
                points := posterizePointsFor imageData settings centroids key }))

/-- Predicate: the grid cell holds a pixel whose converted CMYK value on
`channel` is positive. -/
def cmykCellQualifies (pixels : List PixelData) (channel : String)
    (yx : ℕ × ℕ) : Bool :=
  match pixelAt pixels yx.2 yx.1 with
  | some p => decide (0 < cmykChannelValue (rgbToCMYK p.r p.g p.b) channel)
  | none => false

/-- Two consecutive tile points of one emitted path are within the distance
threshold (squared form). -/
def withinThreshold (t : ℚ) (a b : PathPoint) : Prop :=
  distSq a.x a.y b.x b.y ≤ t ^ 2

/-- All components of an RGB triple lie in the byte range. -/
def colorInRange (c : Color) : Prop :=
  0 ≤ c.1 ∧ c.1 ≤ 255 ∧ 0 ≤ c.2.1 ∧ c.2.1 ≤ 255 ∧ 0 ≤ c.2.2 ∧ c.2.2 ≤ 255

/-- Value of a digit-character list read in base 10 (accumulator form),
used to invert `Nat.repr` when proving centroid keys injective. -/
def digitsVal (l : List Char) (acc : ℕ) : ℕ :=
  l.foldl (fun a c => 10 * a + (c.toNat - 48)) acc

/-- Five distinct integer colors of the posterize collapse scenario
(claim C8): with `colorsAmt = 2` and initial centroids (2,1,0), (1,0,0) the
k-means run converges to (1, 4/3, 0) and (1/2, 1/2, 0), which both round to
(1, 1, 0), merging the two color groups into one. -/
def c8cxColors : List Color := [(0, 1, 0), (0, 2, 0), (1, 0, 0), (1, 1, 0), (2, 1, 0)]

/-- Random-index oracle steering the initial pick of the collapse scenario to
centroids (2,1,0) then (1,0,0). -/
def c8cxRand : ℕ → ℕ := fun i => if i = 0 then 4 else 2

/-- 5×1 image whose row-major pixels carry the five collapse-scenario
colors. -/
def c8cxImage : ImageDataM :=
  { width := 5, height := 1,
    pixels :=
      [{ x := 0, y := 0, brightness := 0, r := 0, g := 1, b := 0, a := 255 },
       { x := 1, y := 0, brightness := 0, r := 0, g := 2, b := 0, a := 255 },
       { x := 2, y := 0, brightness := 0, r := 1, g := 0, b := 0, a := 255 },
       { x := 3, y := 0, brightness := 0, r := 1, g := 1, b := 0, a := 255 },
       { x := 4, y := 0, brightness := 0, r := 2, g := 1, b := 0, a := 255 }],
    originalWidth := 5, originalHeight := 1, resizedWidth := 5,
    resizedHeight := 1, outputWidth := 560, outputHeight := 112,
    columnsCount := 5, rowsCount := 1, tileWidth := 112, tileHeight := 112,
    colorGroups := [] }

/-- Posterize settings with `colorsAmt = 2` for the collapse scenario. -/
def c8cxSettings : Settings :=
  { gridSize := 10, gridSizeX := 112, gridSizeY := 112,
    brightnessThreshold := 255, minDensity := 2, maxDensity := 5,
    rowsCount := 1, columnsCount := 5, invert := false,
    continuousPaths := true, curvedPaths := false,
    pathDistanceThreshold := 10,
    processingMode := ProcessingMode.posterize, colorsAmt := 2,
    monochromeColor := "#000000", visiblePaths := fun _ => none }

/-! Basic facts about `jsRound`. -/

theorem jsRound_intCast (n : ℤ) : jsRound (n : ℚ) = n := by
  unfold jsRound
  rw [Int.floor_eq_iff]
  constructor <;> [push_cast; push_cast] <;> linarith

theorem jsRound_mono {p q : ℚ} (h : p ≤ q) : jsRound p ≤ jsRound q := by
  unfold jsRound
  exact Int.floor_le_floor (by linarith)

theorem le_jsRound_of_le {n : ℤ} {q : ℚ} (h : (n : ℚ) ≤ q) : n ≤ jsRound q := by
  have := jsRound_mono h
  rwa [jsRound_intCast] at this

theorem jsRound_le_of_le {n : ℤ} {q : ℚ} (h : q ≤ (n : ℚ)) : jsRound q ≤ n := by
  have := jsRound_mono h
  rwa [jsRound_intCast] at this

/-! Claim C2: `calculateResizeDimensions`. -/

/-- Claim C2, counterexample.  For a 100×200 (portrait) image the longer
image axis is the height, so the claim predicts `outputHeight = 560`; the
code instead fixes the *shorter* axis (the width) to 560 and scales the
height up to `round(560 · 200/100) = 1120`. -/
theorem c2_resize_counterexample :
    (calculateResizeDimensions 100 200 10 10).outputWidth = 560 ∧
    (calculateResizeDimensions 100 200 10 10).outputHeight = 1120 ∧
    (calculateResizeDimensions 100 200 10 10).outputHeight ≠ 560 := by
  refine ⟨?_, ?_, ?_⟩ <;> norm_num [calculateResizeDimensions, jsRound]

/-- Claim C2 as amended: for positive original dimensions, the *shorter*
image axis of the output canvas equals the fixed dimension 560 while the
other axis is scaled by the aspect ratio (so it is ≥ 560, rounded), a square
gives 560×560, and the per-tile sizes are `outputWidth / columnsCount` and
`outputHeight / rowsCount`. -/
theorem c2_resize_shorter_axis_fixed (w h : ℚ) (cols rows : ℕ)
    (hw : 0 < w) (hh : 0 < h) :
    (w < h →
      (calculateResizeDimensions w h cols rows).outputWidth = 560 ∧
      (calculateResizeDimensions w h cols rows).outputHeight =
        (jsRound (560 * h / w) : ℚ)) ∧
    (h < w →
      (calculateResizeDimensions w h cols rows).outputHeight = 560 ∧
      (calculateResizeDimensions w h cols rows).outputWidth =
        (jsRound (560 * w / h) : ℚ)) ∧
    (w = h →
      (calculateResizeDimensions w h cols rows).outputWidth = 560 ∧
      (calculateResizeDimensions w h cols rows).outputHeight = 560) ∧
    min (calculateResizeDimensions w h cols rows).outputWidth
        (calculateResizeDimensions w h cols rows).outputHeight = 560 ∧
    (calculateResizeDimensions w h cols rows).gridSizeX =
      (calculateResizeDimensions w h cols rows).outputWidth / (cols : ℚ) ∧
    (calculateResizeDimensions w h cols rows).gridSizeY =
      (calculateResizeDimensions w h cols rows).outputHeight / (rows : ℚ) := by
  have hw0 : w ≠ 0 := ne_of_gt hw
  have hh0 : h ≠ 0 := ne_of_gt hh
  have hout : ∀ cc rr : ℕ,
      ((calculateResizeDimensions w h cc rr).outputWidth,
       (calculateResizeDimensions w h cc rr).outputHeight) =
      (if w / h < 1 then ((560 : ℚ), ((jsRound (560 / (w / h)) : ℤ) : ℚ))
       else if 1 < w / h then (((jsRound (560 * (w / h)) : ℤ) : ℚ), (560 : ℚ))
       else ((560 : ℚ), (560 : ℚ))) := fun _ _ => rfl
  have hdiv : 560 / (w / h) = 560 * h / w := by field_simp
  have hdiv2 : (560 : ℚ) * (w / h) = 560 * w / h := by ring
  rcases lt_trichotomy w h with hlt | heq | hgt
  · have ha : w / h < 1 := (div_lt_one hh).mpr hlt
    have hpair := hout cols rows
    rw [if_pos ha, hdiv] at hpair
    have hW : (calculateResizeDimensions w h cols rows).outputWidth = 560 :=
      congrArg Prod.fst hpair
    have hH : (calculateResizeDimensions w h cols rows).outputHeight =
        ((jsRound (560 * h / w) : ℤ) : ℚ) := congrArg Prod.snd hpair
    have hge : (560 : ℚ) ≤ ((jsRound (560 * h / w) : ℤ) : ℚ) := by
      have h1 : (560 : ℚ) ≤ 560 * h / w := by
        rw [le_div_iff₀ hw]; nlinarith
      have h2 : (560 : ℤ) ≤ jsRound (560 * h / w) :=
        le_jsRound_of_le (by push_cast; linarith)
      exact_mod_cast h2
    refine ⟨fun _ => ⟨hW, hH⟩, fun hc => absurd hc (not_lt.mpr hlt.le),
      fun hc => absurd hc (ne_of_lt hlt), ?_, rfl, rfl⟩
    rw [hW, hH]; exact min_eq_left hge
  · have ha : ¬ w / h < 1 := by rw [heq, div_self hh0]; exact lt_irrefl 1
    have hb : ¬ (1 : ℚ) < w / h := by rw [heq, div_self hh0]; exact lt_irrefl 1
    have hpair := hout cols rows
    rw [if_neg ha, if_neg hb] at hpair
    have hW : (calculateResizeDimensions w h cols rows).outputWidth = 560 :=
      congrArg Prod.fst hpair
    have hH : (calculateResizeDimensions w h cols rows).outputHeight = 560 :=
      congrArg Prod.snd hpair
    refine ⟨fun hc => absurd hc (by rw [heq]; exact lt_irrefl h),
      fun hc => absurd hc (by rw [heq]; exact lt_irrefl h),
      fun _ => ⟨hW, hH⟩, ?_, rfl, rfl⟩
    rw [hW, hH]; simp
  · have ha : ¬ w / h < 1 := not_lt.mpr ((one_le_div hh).mpr hgt.le)
    have hb : (1 : ℚ) < w / h := (one_lt_div hh).mpr hgt
    have hpair := hout cols rows
    rw [if_neg ha, if_pos hb, hdiv2] at hpair
    have hW : (calculateResizeDimensions w h cols rows).outputWidth =
        ((jsRound (560 * w / h) : ℤ) : ℚ) := congrArg Prod.fst hpair
    have hH : (calculateResizeDimensions w h cols rows).outputHeight = 560 :=
      congrArg Prod.snd hpair
    have hge : (560 : ℚ) ≤ ((jsRound (560 * w / h) : ℤ) : ℚ) := by
      have h1 : (560 : ℚ) ≤ 560 * w / h := by
        rw [le_div_iff₀ hh]; nlinarith
      have h2 : (560 : ℤ) ≤ jsRound (560 * w / h) :=
        le_jsRound_of_le (by push_cast; linarith)
      exact_mod_cast h2
    refine ⟨fun hc => absurd hc (not_lt.mpr hgt.le), fun _ => ⟨hH, hW⟩,
      fun hc => absurd hc (ne_of_gt hgt), ?_, rfl, rfl⟩
    rw [hW, hH]; exact min_eq_right hge

/-- Claim C2 witness: the amended theorem applied to the concrete 100×200
portrait input. -/
theorem c2_resize_witness :
    (100 : ℚ) < 200 ∧
    (calculateResizeDimensions 100 200 10 10).outputWidth = 560 ∧
    (calculateResizeDimensions 100 200 10 10).outputHeight =
      (jsRound ((560 : ℚ) * 200 / 100) : ℚ) :=
  ⟨by norm_num,
   ((c2_resize_shorter_axis_fixed 100 200 10 10 (by norm_num) (by norm_num)).1
     (by norm_num)).1,
   ((c2_resize_shorter_axis_fixed 100 200 10 10 (by norm_num) (by norm_num)).1
     (by norm_num)).2⟩

/-! Claim C3: the pixel sampler. -/

theorem mem_cellsRowMajor {w h y x : ℕ} :
    (y, x) ∈ cellsRowMajor w h ↔ y < h ∧ x < w := by
  unfold cellsRowMajor
  simp only [List.mem_flatMap, List.mem_map, List.mem_range]
  constructor
  · rintro ⟨y0, hy0, x0, hx0, heq⟩
    obtain ⟨h1, h2⟩ := Prod.mk.injEq _ _ _ _ ▸ heq
    cases heq
    exact ⟨hy0, hx0⟩
  · rintro ⟨hy, hx⟩
    exact ⟨y, hy, x, hx, rfl⟩

/-- Claim C3, counterexample.  With `invert = true` the sampler neither
stores the claimed brightness `round((0.299R+0.587G+0.114B)·(a/255))` nor
uses the claimed inclusion rule: a uniform gray (100,100,100,255) cell with
threshold 50 in monochrome mode is *excluded* by the claim's rule
(`100 ≤ 50` is false and the mode is not cmyk), yet the code includes it,
recording brightness 155. -/
theorem c3_sampler_counterexample :
    ¬ (Settings.processingMode
        { gridSize := 10, gridSizeX := 10, gridSizeY := 10,
          brightnessThreshold := 50, minDensity := 2, maxDensity := 5,
          rowsCount := 1, columnsCount := 1, invert := true,
          continuousPaths := true, curvedPaths := false,
          pathDistanceThreshold := 10,
          processingMode := ProcessingMode.monochrome, colorsAmt := 2,
          monochromeColor := "#000000", visiblePaths := fun _ => none } =
          ProcessingMode.cmyk ∨
       ((lumaBrightness 100 100 100 255 : ℤ) : ℚ) ≤ 50) ∧
    (samplePixels 1 1
      { gridSize := 10, gridSizeX := 10, gridSizeY := 10,
        brightnessThreshold := 50, minDensity := 2, maxDensity := 5,
        rowsCount := 1, columnsCount := 1, invert := true,
        continuousPaths := true, curvedPaths := false,
        pathDistanceThreshold := 10,
        processingMode := ProcessingMode.monochrome, colorsAmt := 2,
        monochromeColor := "#000000", visiblePaths := fun _ => none }
      (fun _ _ => (100, 100, 100, 255))).map PixelData.brightness = [155] := by
  constructor
  · rintro (hmode | hbr)
    · exact ProcessingMode.noConfusion hmode
    · rw [show lumaBrightness 100 100 100 255 = 100 from by
        norm_num [lumaBrightness, jsRound]] at hbr
      norm_num at hbr
  · norm_num [samplePixels, cellsRowMajor, sampleCell, lumaBrightness, jsRound,
      List.range_succ]
    simp [List.filterMap_cons]

/-- Claim C3 as amended: when `settings.invert` is false, each sampled grid
cell's brightness is `round((0.299R + 0.587G + 0.114B) · (a/255))`, an
integer in `[0, 255]` (for byte-range channel data), and the cell is included
in the pixel list iff the mode is cmyk or that brightness is at most the
threshold.  (When `invert` is true the code stores `255 - brightness` and
flips the comparison, which the counterexample shows diverges from the
claim.) -/
theorem c3_sampler_amended (gridWidth gridHeight : ℕ) (settings : Settings)
    (data : ℕ → ℕ → ℚ × ℚ × ℚ × ℚ) (hinv : settings.invert = false)
    (hdata : ∀ x y : ℕ,
      0 ≤ (data x y).1 ∧ (data x y).1 ≤ 255 ∧
      0 ≤ (data x y).2.1 ∧ (data x y).2.1 ≤ 255 ∧
      0 ≤ (data x y).2.2.1 ∧ (data x y).2.2.1 ≤ 255 ∧
      0 ≤ (data x y).2.2.2 ∧ (data x y).2.2.2 ≤ 255) :
    ∀ x y : ℕ, x < gridWidth → y < gridHeight →
      (0 ≤ lumaBrightness (data x y).1 (data x y).2.1 (data x y).2.2.1 (data x y).2.2.2 ∧
       lumaBrightness (data x y).1 (data x y).2.1 (data x y).2.2.1 (data x y).2.2.2 ≤ 255) ∧
      ((∃ p ∈ samplePixels gridWidth gridHeight settings data, p.x = x ∧ p.y = y) ↔
        (settings.processingMode = ProcessingMode.cmyk ∨
         ((lumaBrightness (data x y).1 (data x y).2.1 (data x y).2.2.1
            (data x y).2.2.2 : ℤ) : ℚ) ≤ settings.brightnessThreshold)) ∧
      (∀ p ∈ samplePixels gridWidth gridHeight settings data, p.x = x → p.y = y →
        p.brightness =
          ((lumaBrightness (data x y).1 (data x y).2.1 (data x y).2.2.1
            (data x y).2.2.2 : ℤ) : ℚ)) := by
  intro x y hx hy
  obtain ⟨hr0, hr1, hg0, hg1, hb0, hb1, ha0, ha1⟩ := hdata x y
  set r := (data x y).1
  set g := (data x y).2.1
  set b := (data x y).2.2.1
  set al := (data x y).2.2.2
  have hbounds : 0 ≤ lumaBrightness r g b al ∧ lumaBrightness r g b al ≤ 255 := by
    constructor
    · exact le_jsRound_of_le (by push_cast; nlinarith)
    · exact jsRound_le_of_le (by push_cast; nlinarith)
  have hcell : sampleCell settings data x y =
      if settings.processingMode = ProcessingMode.cmyk ∨
          ((lumaBrightness r g b al : ℤ) : ℚ) ≤ settings.brightnessThreshold then
        some { x := x, y := y, brightness := ((lumaBrightness r g b al : ℤ) : ℚ),
               r := r, g := g, b := b, a := (jsRound (al / 255 * 255) : ℚ) }
      else none := by
    unfold sampleCell
    rw [hinv]
    simp only [Bool.false_eq_true, if_false]
  refine ⟨hbounds, ?_, ?_⟩
  · constructor
    · rintro ⟨p, hp, hpx, hpy⟩
      obtain ⟨yx, hyx, hsome⟩ := List.mem_filterMap.mp hp
      by_cases hc : settings.processingMode = ProcessingMode.cmyk ∨
          ((lumaBrightness (data yx.2 yx.1).1 (data yx.2 yx.1).2.1
            (data yx.2 yx.1).2.2.1 (data yx.2 yx.1).2.2.2 : ℤ) : ℚ) ≤
            settings.brightnessThreshold
      · have hcell2 : sampleCell settings data yx.2 yx.1 =
            some { x := yx.2, y := yx.1,
                   brightness := ((lumaBrightness (data yx.2 yx.1).1 (data yx.2 yx.1).2.1
                     (data yx.2 yx.1).2.2.1 (data yx.2 yx.1).2.2.2 : ℤ) : ℚ),
                   r := (data yx.2 yx.1).1, g := (data yx.2 yx.1).2.1,
                   b := (data yx.2 yx.1).2.2.1,
                   a := (jsRound ((data yx.2 yx.1).2.2.2 / 255 * 255) : ℚ) } := by
          unfold sampleCell
          rw [hinv]
          simp only [Bool.false_eq_true, if_false]
          rw [if_pos hc]
        rw [hcell2] at hsome
        have hpeq := Option.some.inj hsome
        have hx2 : yx.2 = x := by rw [← hpx, ← hpeq]
        have hy2 : yx.1 = y := by rw [← hpy, ← hpeq]
        rw [hx2, hy2] at hc
        exact hc
      · have hcell2 : sampleCell settings data yx.2 yx.1 = none := by
          unfold sampleCell
          rw [hinv]
          simp only [Bool.false_eq_true, if_false]
          rw [if_neg hc]
        rw [hcell2] at hsome
        exact Option.noConfusion hsome
    · intro hc
      refine ⟨{ x := x, y := y, brightness := ((lumaBrightness r g b al : ℤ) : ℚ),
                r := r, g := g, b := b, a := (jsRound (al / 255 * 255) : ℚ) },
              List.mem_filterMap.mpr ⟨(y, x), mem_cellsRowMajor.mpr ⟨hy, hx⟩, ?_⟩,
              rfl, rfl⟩
      rw [hcell, if_pos hc]
  · intro p hp hpx hpy
    obtain ⟨yx, hyx, hsome⟩ := List.mem_filterMap.mp hp
    by_cases hc : settings.processingMode = ProcessingMode.cmyk ∨
        ((lumaBrightness (data yx.2 yx.1).1 (data yx.2 yx.1).2.1
          (data yx.2 yx.1).2.2.1 (data yx.2 yx.1).2.2.2 : ℤ) : ℚ) ≤
          settings.brightnessThreshold
    · have hcell2 : sampleCell settings data yx.2 yx.1 =
          some { x := yx.2, y := yx.1,
                 brightness := ((lumaBrightness (data yx.2 yx.1).1 (data yx.2 yx.1).2.1
                   (data yx.2 yx.1).2.2.1 (data yx.2 yx.1).2.2.2 : ℤ) : ℚ),
                 r := (data yx.2 yx.1).1, g := (data yx.2 yx.1).2.1,
                 b := (data yx.2 yx.1).2.2.1,
                 a := (jsRound ((data yx.2 yx.1).2.2.2 / 255 * 255) : ℚ) } := by
        unfold sampleCell
        rw [hinv]
        simp only [Bool.false_eq_true, if_false]
        rw [if_pos hc]
      rw [hcell2] at hsome
      have hpeq := Option.some.inj hsome
      have hx2 : yx.2 = x := by rw [← hpx, ← hpeq]
      have hy2 : yx.1 = y := by rw [← hpy, ← hpeq]
      rw [← hpeq]
      simp only [hx2, hy2]
    · have hcell2 : sampleCell settings data yx.2 yx.1 = none := by
        unfold sampleCell
        rw [hinv]
        simp only [Bool.false_eq_true, if_false]
        rw [if_neg hc]
      rw [hcell2] at hsome
      exact Option.noConfusion hsome

/-- Claim C3 witness: the amended theorem applied to a 1×1 black opaque cell
in monochrome mode with threshold 255 and `invert = false`. -/
theorem c3_sampler_witness :
    (({ gridSize := 10, gridSizeX := 10, gridSizeY := 10,
        brightnessThreshold := 255, minDensity := 2, maxDensity := 5,
        rowsCount := 1, columnsCount := 1, invert := false,
        continuousPaths := true, curvedPaths := false,
        pathDistanceThreshold := 10,
        processingMode := ProcessingMode.monochrome, colorsAmt := 2,
        monochromeColor := "#000000", visiblePaths := fun _ => none } :
          Settings).invert = false) ∧
    (0 ≤ lumaBrightness 0 0 0 255 ∧ lumaBrightness 0 0 0 255 ≤ 255) := by
  constructor
  · rfl
  · exact (c3_sampler_amended 1 1
      { gridSize := 10, gridSizeX := 10, gridSizeY := 10,
        brightnessThreshold := 255, minDensity := 2, maxDensity := 5,
        rowsCount := 1, columnsCount := 1, invert := false,
        continuousPaths := true, curvedPaths := false,
        pathDistanceThreshold := 10,
        processingMode := ProcessingMode.monochrome, colorsAmt := 2,
        monochromeColor := "#000000", visiblePaths := fun _ => none }
      (fun _ _ => (0, 0, 0, 255)) rfl
      (fun _ _ => by norm_num) 0 0 (by norm_num) (by norm_num)).1

/-! Claim C7: CMYK conversion and channel membership. -/

theorem length_filterMap_eq_length_filter {α β : Type} (f : α → Option β)
    (g : α → Bool) (h : ∀ a, (f a).isSome = g a) :
    ∀ l : List α, (l.filterMap f).length = (l.filter g).length := by
  intro l
  induction l with
  | nil => rfl
  | cons a t ih =>
    rcases hfa : f a with _ | b
    · have hga : g a = false := by rw [← h a, hfa]; rfl
      rw [List.filterMap_cons, hfa, List.filter_cons, hga]
      simpa using ih
    · have hga : g a = true := by rw [← h a, hfa]; rfl
      rw [List.filterMap_cons, hfa, List.filter_cons, hga]
      simpa using ih

/-- Claim C7: `rgbToCMYK (255,0,0) = (c=0, m=255, y=255, k=0)`; in
`processCMYK` a channel group receives a point for a cell iff the pixel's
converted value on that channel is positive (stated as an exact count over
qualifying cells); and for a single pure-red pixel exactly the magenta and
yellow groups receive one point while cyan and black receive none. -/
theorem c7_cmyk_pure_red :
    rgbToCMYK 255 0 0 = { cyan := 0, magenta := 255, yellow := 255, black := 0 } ∧
    (∀ (imageData : ImageDataM) (settings : Settings) (channel : String),
      (processCMYKPointsFor imageData settings channel).length =
        ((cellsRowMajor imageData.width imageData.height).filter
          (cmykCellQualifies imageData.pixels channel)).length) ∧
    (∀ settings : Settings,
      (processCMYKPointsFor
        { width := 1, height := 1,
          pixels := [{ x := 0, y := 0, brightness := 76, r := 255, g := 0, b := 0, a := 255 }],
          originalWidth := 1, originalHeight := 1, resizedWidth := 1,
          resizedHeight := 1, outputWidth := 560, outputHeight := 560,
          columnsCount := 1, rowsCount := 1, tileWidth := 560, tileHeight := 560,
          colorGroups := [] } settings "magenta").length = 1 ∧
      (processCMYKPointsFor
        { width := 1, height := 1,
          pixels := [{ x := 0, y := 0, brightness := 76, r := 255, g := 0, b := 0, a := 255 }],
          originalWidth := 1, originalHeight := 1, resizedWidth := 1,
          resizedHeight := 1, outputWidth := 560, outputHeight := 560,
          columnsCount := 1, rowsCount := 1, tileWidth := 560, tileHeight := 560,
          colorGroups := [] } settings "yellow").length = 1 ∧
      (processCMYKPointsFor
        { width := 1, height := 1,
          pixels := [{ x := 0, y := 0, brightness := 76, r := 255, g := 0, b := 0, a := 255 }],
          originalWidth := 1, originalHeight := 1, resizedWidth := 1,
          resizedHeight := 1, outputWidth := 560, outputHeight := 560,
          columnsCount := 1, rowsCount := 1, tileWidth := 560, tileHeight := 560,
          colorGroups := [] } settings "cyan") = [] ∧
      (processCMYKPointsFor
        { width := 1, height := 1,
          pixels := [{ x := 0, y := 0, brightness := 76, r := 255, g := 0, b := 0, a := 255 }],
          originalWidth := 1, originalHeight := 1, resizedWidth := 1,
          resizedHeight := 1, outputWidth := 560, outputHeight := 560,
          columnsCount := 1, rowsCount := 1, tileWidth := 560, tileHeight := 560,
          colorGroups := [] } settings "black") = []) := by
  have hred : rgbToCMYK 255 0 0 =
      { cyan := 0, magenta := 255, yellow := 255, black := 0 } := by
    unfold rgbToCMYK
    norm_num [jsRound]
  refine ⟨hred, ?_, ?_⟩
  · intro imageData settings channel
    apply length_filterMap_eq_length_filter
    intro yx
    unfold cmykCellQualifies
    rcases hpx : pixelAt imageData.pixels yx.2 yx.1 with _ | p
    · simp [hpx]
    · by_cases hv : 0 < cmykChannelValue (rgbToCMYK p.r p.g p.b) channel
      · simp [hpx, hv]
      · simp [hpx, hv]
  · intro settings
    refine ⟨?_, ?_, ?_, ?_⟩ <;>
      simp only [processCMYKPointsFor, cellsRowMajor, List.range_succ,
        List.range_zero, List.nil_append, List.map_cons, List.map_nil,
        List.flatMap_cons, List.flatMap_nil, List.append_nil,
        List.filterMap_cons, List.filterMap_nil, pixelAt, List.filter_cons,
        List.filter_nil, hred] <;>
      norm_num [cmykChannelValue, cmykEntries, List.find?,
        show decide ("cyan" = "magenta") = false from rfl,
        show decide ("magenta" = "magenta") = true from rfl,
        show decide ("cyan" = "yellow") = false from rfl,
        show decide ("magenta" = "yellow") = false from rfl,
        show decide ("yellow" = "yellow") = true from rfl,
        show decide ("cyan" = "cyan") = true from rfl,
        show decide ("cyan" = "black") = false from rfl,
        show decide ("magenta" = "black") = false from rfl,
        show decide ("yellow" = "black") = false from rfl,
        show decide ("black" = "black") = true from rfl,
        (by rw [hred] : (rgbToCMYK 255 0 0).cyan = 0),
        (by rw [hred] : (rgbToCMYK 255 0 0).magenta = 255),
        (by rw [hred] : (rgbToCMYK 255 0 0).yellow = 255),
        (by rw [hred] : (rgbToCMYK 255 0 0).black = 0)]

/-! Claim C10: `ensureEvenDensity` and its effect on grayscale densities. -/

theorem ensureEven_nonpos {d : ℚ} (h : d ≤ 0) : ensureEvenDensity d = 0 := by
  unfold ensureEvenDensity
  rw [if_pos h]

theorem ensureEven_even {n : ℤ} (h0 : 0 < n) (he : Even n) :
    ensureEvenDensity (n : ℚ) = (n : ℚ) := by
  obtain ⟨k, hk⟩ := he
  have hn : ¬ ((n : ℚ) ≤ 0) := by rw [not_le]; exact_mod_cast h0
  unfold ensureEvenDensity
  rw [if_neg hn]
  rw [if_pos]
  have hfloor : ⌊(n : ℚ) / 2⌋ = k := by
    rw [hk]
    push_cast
    rw [show ((k : ℚ) + k) / 2 = (k : ℚ) by ring]
    exact Int.floor_intCast k
  rw [hfloor, hk]
  push_cast
  ring

theorem ensureEven_odd {n : ℤ} (h0 : 0 < n) (ho : Odd n) :
    ensureEvenDensity (n : ℚ) = (n : ℚ) - 1 := by
  obtain ⟨k, hk⟩ := ho
  have hn : ¬ ((n : ℚ) ≤ 0) := by rw [not_le]; exact_mod_cast h0
  unfold ensureEvenDensity
  rw [if_neg hn]
  rw [if_neg]
  have hfloor : ⌊(n : ℚ) / 2⌋ = k := by
    rw [hk]
    push_cast
    rw [show ((2 : ℚ) * k + 1) / 2 = (k : ℚ) + 1 / 2 by ring]
    rw [Int.floor_eq_iff]
    constructor <;> [push_cast; push_cast] <;> linarith
  rw [hfloor, hk]
  push_cast
  intro hcontra
  nlinarith [hcontra]

theorem ensureEven_intCast_exists_two_mul (z : ℤ) :
    ∃ k : ℤ, ensureEvenDensity (z : ℚ) = 2 * (k : ℚ) := by
  rcases le_or_lt z 0 with h | h
  · exact ⟨0, by rw [ensureEven_nonpos (by exact_mod_cast h)]; norm_num⟩
  · rcases Int.even_or_odd z with he | ho
    · obtain ⟨k, hk⟩ := he
      exact ⟨k, by rw [ensureEven_even h ⟨k, hk⟩, hk]; push_cast; ring⟩
    · obtain ⟨k, hk⟩ := ho
      exact ⟨k, by rw [ensureEven_odd h ⟨k, hk⟩, hk]; push_cast; ring⟩

theorem mem_processGrayscalePoints {imageData : ImageDataM} {settings : Settings}
    {pt : PathPoint} (hpt : pt ∈ processGrayscalePoints imageData settings) :
    ∃ (x y : ℕ) (p : PixelData),
      pixelAt imageData.pixels x y = some p ∧
      pt = mkPathPoint settings x y
        (grayDensity settings
          (assignedGray
            (grayLevels settings.colorsAmt
              (brightnessRange imageData.pixels imageData.width imageData.height).1
              (brightnessRange imageData.pixels imageData.width imageData.height).2)
            p)) := by
  unfold processGrayscalePoints at hpt
  obtain ⟨yx, _, hsome⟩ := List.mem_filterMap.mp hpt
  rcases hpx : pixelAt imageData.pixels yx.2 yx.1 with _ | p
  · rw [hpx] at hsome
    exact Option.noConfusion hsome
  · rw [hpx] at hsome
    refine ⟨yx.2, yx.1, p, hpx, ?_⟩
    exact (Option.some.inj hsome).symm

/-- Claim C10: `ensureEvenDensity` maps nonpositive densities to 0, keeps
positive even integers, decrements positive odd integers; consequently every
point produced by `processGrayscale` (grayscale-processor.ts) has an even
density, and on a concrete input (brightness-0 pixel, `minDensity =
maxDensity = 3`) the evenified density 2 falls strictly below `minDensity`. -/
theorem c10_ensure_even_density :
    (∀ d : ℚ, d ≤ 0 → ensureEvenDensity d = 0) ∧
    (∀ n : ℤ, 0 < n → Even n → ensureEvenDensity (n : ℚ) = (n : ℚ)) ∧
    (∀ n : ℤ, 0 < n → Odd n → ensureEvenDensity (n : ℚ) = (n : ℚ) - 1) ∧
    (∀ (imageData : ImageDataM) (settings : Settings),
      ∀ pt ∈ processGrayscalePoints imageData settings,
        ∃ k : ℤ, pt.density = 2 * (k : ℚ)) ∧
    ((processGrayscalePoints
        { width := 1, height := 1,
          pixels := [{ x := 0, y := 0, brightness := 0, r := 0, g := 0, b := 0, a := 255 }],
          originalWidth := 1, originalHeight := 1, resizedWidth := 1,
          resizedHeight := 1, outputWidth := 560, outputHeight := 560,
          columnsCount := 1, rowsCount := 1, tileWidth := 560, tileHeight := 560,
          colorGroups := [] }
        { gridSize := 10, gridSizeX := 10, gridSizeY := 10,
          brightnessThreshold := 255, minDensity := 3, maxDensity := 3,
          rowsCount := 1, columnsCount := 1, invert := false,
          continuousPaths := true, curvedPaths := false,
          pathDistanceThreshold := 10,
          processingMode := ProcessingMode.grayscale, colorsAmt := 2,
          monochromeColor := "#000000",
          visiblePaths := fun _ => none }).map PathPoint.density = [2] ∧
      (2 : ℚ) < 3) := by
  refine ⟨fun d h => ensureEven_nonpos h, fun n h0 he => ensureEven_even h0 he,
    fun n h0 ho => ensureEven_odd h0 ho, ?_, ?_, by norm_num⟩
  · intro imageData settings pt hpt
    obtain ⟨x, y, p, _, hpteq⟩ := mem_processGrayscalePoints hpt
    rw [hpteq]
    unfold mkPathPoint grayDensity
    exact ensureEven_intCast_exists_two_mul _
  · norm_num [processGrayscalePoints, brightnessRange, grayLevels, nearestGray,
      grayDensity, ensureEvenDensity, interpDensity, jsRound, assignedGray,
      cellsRowMajor, pixelAt, mkPathPoint, List.range_succ, List.filterMap_cons]

/-- Claim C10 witness: the case analysis of `ensureEvenDensity` applied at the
concrete inputs −1, 4 and 5. -/
theorem c10_ensure_even_density_witness :
    ensureEvenDensity (-1 : ℚ) = 0 ∧
    ensureEvenDensity ((4 : ℤ) : ℚ) = ((4 : ℤ) : ℚ) ∧
    ensureEvenDensity ((5 : ℤ) : ℚ) = ((5 : ℤ) : ℚ) - 1 :=
  ⟨c10_ensure_even_density.1 (-1) (by norm_num),
   c10_ensure_even_density.2.1 4 (by norm_num) (by decide),
   c10_ensure_even_density.2.2.1 5 (by norm_num) (by decide)⟩

/-! Claims C1 and C9: SVG generation and extraction. -/

/-- Claim C1 (code bug): for a concrete `ImageData` holding one visible
`monochrome` color group, `generateSVG` emits the group with id
`1color-group-monochrome` (ordinal prefix), while `extractColorGroupSVG`
looks up the id `color-group-monochrome`, finds nothing, and returns null —
so the round trip the claim asserts returns no SVG at all. -/
theorem c1_extraction_roundtrip_returns_null :
    (generateSVGGroups
      { width := 1, height := 1, pixels := [],
        originalWidth := 1, originalHeight := 1, resizedWidth := 1,
        resizedHeight := 1, outputWidth := 560, outputHeight := 560,
        columnsCount := 1, rowsCount := 1, tileWidth := 560, tileHeight := 560,
        colorGroups := [("monochrome",
          { color := "#112233", displayName := "Monochrome",
            points := [{ x := 0, y := 0, width := 10, height := 10,
                         density := 2, row := 0, direction := 1 }] })] }
      { gridSize := 10, gridSizeX := 10, gridSizeY := 10,
        brightnessThreshold := 255, minDensity := 2, maxDensity := 5,
        rowsCount := 1, columnsCount := 1, invert := false,
        continuousPaths := false, curvedPaths := false,
        pathDistanceThreshold := 10,
        processingMode := ProcessingMode.monochrome, colorsAmt := 2,
        monochromeColor := "#112233",
        visiblePaths := fun _ => none }).map SvgGroupEl.id =
      ["1color-group-monochrome"] ∧
    extractColorGroupSVG
      (some (generateSVGGroups
        { width := 1, height := 1, pixels := [],
          originalWidth := 1, originalHeight := 1, resizedWidth := 1,
          resizedHeight := 1, outputWidth := 560, outputHeight := 560,
          columnsCount := 1, rowsCount := 1, tileWidth := 560, tileHeight := 560,
          colorGroups := [("monochrome",
            { color := "#112233", displayName := "Monochrome",
              points := [{ x := 0, y := 0, width := 10, height := 10,
                           density := 2, row := 0, direction := 1 }] })] }
        { gridSize := 10, gridSizeX := 10, gridSizeY := 10,
          brightnessThreshold := 255, minDensity := 2, maxDensity := 5,
          rowsCount := 1, columnsCount := 1, invert := false,
          continuousPaths := false, curvedPaths := false,
          pathDistanceThreshold := 10,
          processingMode := ProcessingMode.monochrome, colorsAmt := 2,
          monochromeColor := "#112233",
          visiblePaths := fun _ => none })) "monochrome" = none := by
  constructor
  · rfl
  · rfl

/-- Claim C9: extraction is total and null-valued on failure — a parse
failure yields `none` from `extractColorGroupSVG` and the empty record from
`extractAllColorGroups`, and an id lookup miss (requested group absent)
yields `none` rather than an exception. -/
theorem c9_extraction_failure_null :
    (∀ key : String, extractColorGroupSVG none key = none) ∧
    (∀ (doc : List SvgGroupEl) (key : String),
      getElementById doc ("color-group-" ++ key) = none →
      extractColorGroupSVG (some doc) key = none) ∧
    extractAllColorGroups none = [] := by
  refine ⟨fun _ => rfl, fun doc key h => ?_, rfl⟩
  unfold extractColorGroupSVG
  simp only [h]

/-- Claim C9 witness: the absent-group case applied to the empty document and
key `cyan`. -/
theorem c9_extraction_failure_null_witness :
    extractColorGroupSVG (some []) "cyan" = none :=
  c9_extraction_failure_null.2.1 [] "cyan" rfl

/-! Claim C5: the continuous-path distance threshold. -/

/-- Justification of the square-free embedding of the distance comparison:
`distanceExceeds` holds exactly when the Euclidean distance
(`Math.sqrt` of `distSq`, as computed by `calculateDistance`) exceeds the
threshold. -/
theorem distanceExceeds_iff_sqrt (x1 y1 x2 y2 t : ℚ) :
    distanceExceeds x1 y1 x2 y2 t = true ↔
      (t : ℝ) < Real.sqrt ((distSq x1 y1 x2 y2 : ℚ) : ℝ) := by
  have hd0 : (0 : ℝ) ≤ ((distSq x1 y1 x2 y2 : ℚ) : ℝ) := by
    unfold distSq
    push_cast
    positivity
  unfold distanceExceeds
  rw [decide_eq_true_iff]
  constructor
  · rintro (ht | hlt)
    · calc (t : ℝ) < 0 := by exact_mod_cast ht
        _ ≤ Real.sqrt _ := Real.sqrt_nonneg _
    · rcases lt_or_le t 0 with ht | ht
      · calc (t : ℝ) < 0 := by exact_mod_cast ht
          _ ≤ Real.sqrt _ := Real.sqrt_nonneg _
      · have ht' : (0 : ℝ) ≤ (t : ℝ) := by exact_mod_cast ht
        rw [show ((t : ℝ)) = Real.sqrt ((t : ℝ) ^ 2) from (Real.sqrt_sq ht').symm]
        apply Real.sqrt_lt_sqrt (by positivity)
        exact_mod_cast hlt
  · intro hlt
    rcases lt_or_le t 0 with ht | ht
    · exact Or.inl ht
    · refine Or.inr ?_
      have ht' : (0 : ℝ) ≤ (t : ℝ) := by exact_mod_cast ht
      have := Real.lt_sqrt ht' |>.mp hlt
      push_cast at this
      exact_mod_cast this

theorem pathRunsAux_nil (t : ℚ) (last : Option PathPoint) (curr : List PathPoint) :
    pathRunsAux t [] last curr = if curr = [] then [] else [curr] := rfl

theorem pathRunsAux_cons_skip (t : ℚ) {p : PathPoint} (rest : List PathPoint)
    (last : Option PathPoint) (curr : List PathPoint) (hd : p.density ≤ 0) :
    pathRunsAux t (p :: rest) last curr = pathRunsAux t rest last curr := by
  conv_lhs => unfold pathRunsAux
  rw [if_pos hd]

theorem pathRunsAux_cons_first (t : ℚ) {p : PathPoint} (rest : List PathPoint)
    (curr : List PathPoint) (hd : ¬ p.density ≤ 0) :
    pathRunsAux t (p :: rest) none curr = pathRunsAux t rest (some p) [p] := by
  conv_lhs => unfold pathRunsAux
  rw [if_neg hd]

theorem pathRunsAux_cons_break (t : ℚ) {p lp : PathPoint} (rest : List PathPoint)
    (curr : List PathPoint) (hd : ¬ p.density ≤ 0)
    (hex : distanceExceeds lp.x lp.y p.x p.y t = true) :
    pathRunsAux t (p :: rest) (some lp) curr =
      curr :: pathRunsAux t rest (some p) [p] := by
  conv_lhs => unfold pathRunsAux
  rw [if_neg hd]
  exact if_pos hex

theorem pathRunsAux_cons_extend (t : ℚ) {p lp : PathPoint} (rest : List PathPoint)
    (curr : List PathPoint) (hd : ¬ p.density ≤ 0)
    (hex : ¬ distanceExceeds lp.x lp.y p.x p.y t = true) :
    pathRunsAux t (p :: rest) (some lp) curr =
      pathRunsAux t rest (some p) (curr ++ [p]) := by
  conv_lhs => unfold pathRunsAux
  rw [if_neg hd]
  exact if_neg hex

theorem pathRunsAux_chain (t : ℚ) :
    ∀ (l : List PathPoint) (last : Option PathPoint) (curr : List PathPoint),
      (∀ lp, last = some lp → curr.getLast? = some lp) →
      List.Chain' (withinThreshold t) curr →
      ∀ run ∈ pathRunsAux t l last curr, List.Chain' (withinThreshold t) run := by
  intro l
  induction l with
  | nil =>
    intro last curr _ hchain run hrun
    rw [pathRunsAux_nil] at hrun
    by_cases hc : curr = []
    · rw [if_pos hc] at hrun
      exact absurd hrun (List.not_mem_nil run)
    · rw [if_neg hc] at hrun
      rcases List.mem_singleton.mp hrun with rfl
      exact hchain
  | cons p rest ih =>
    intro last curr hlast hchain run hrun
    by_cases hd : p.density ≤ 0
    · rw [pathRunsAux_cons_skip t rest last curr hd] at hrun
      exact ih last curr hlast hchain run hrun
    · rcases hl : last with _ | lp
      · rw [hl, pathRunsAux_cons_first t rest curr hd] at hrun
        exact ih (some p) [p] (fun lq h => by cases h; rfl)
          (List.chain'_singleton p) run hrun
      · by_cases hex : distanceExceeds lp.x lp.y p.x p.y t = true
        · rw [hl, pathRunsAux_cons_break t rest curr hd hex] at hrun
          rcases List.mem_cons.mp hrun with rfl | hrun2
          · exact hchain
          · exact ih (some p) [p] (fun lq h => by cases h; rfl)
              (List.chain'_singleton p) run hrun2
        · rw [hl, pathRunsAux_cons_extend t rest curr hd hex] at hrun
          have hle : withinThreshold t lp p := by
            unfold distanceExceeds at hex
            rw [decide_eq_true_iff] at hex
            push_neg at hex
            exact hex.2
          have hchain2 : List.Chain' (withinThreshold t) (curr ++ [p]) := by
            rw [List.chain'_append]
            refine ⟨hchain, List.chain'_singleton p, ?_⟩
            intro x hx y hy
            rw [hlast lp hl] at hx
            cases Option.some.inj hx
            rcases hy2 : ([p] : List PathPoint).head? with _ | z
            · rw [hy2] at hy
              exact Option.noConfusion hy
            · rw [hy2] at hy
              cases Option.some.inj hy
              cases Option.some.inj hy2
              exact hle
          refine ih (some p) (curr ++ [p]) ?_ hchain2 run hrun
          intro lq hq
          cases Option.some.inj hq
          simp

/-- Claim C5: in continuous mode, within every emitted `<path>` element
consecutive tile points are at Euclidean distance at most
`pathDistanceThreshold` (for a nonnegative threshold); and the concrete color
group with two positive-density points at (0,0) and (500,500) under
threshold 10 yields two separate `<path>` elements. -/
theorem c5_continuous_path_distance_threshold :
    (∀ (settings : Settings) (points : List PathPoint),
      0 ≤ settings.pathDistanceThreshold →
      ∀ run ∈ generateContinuousPathRuns points settings,
        List.Chain'
          (fun a b => Real.sqrt ((distSq a.x a.y b.x b.y : ℚ) : ℝ) ≤
            ((settings.pathDistanceThreshold : ℚ) : ℝ)) run) ∧
    (generateContinuousPathRuns
      [{ x := 0, y := 0, width := 10, height := 10, density := 2, row := 0,
         direction := 1 },
       { x := 500, y := 500, width := 10, height := 10, density := 2, row := 0,
         direction := 1 }]
      { gridSize := 10, gridSizeX := 10, gridSizeY := 10,
        brightnessThreshold := 255, minDensity := 2, maxDensity := 5,
        rowsCount := 1, columnsCount := 1, invert := false,
        continuousPaths := true, curvedPaths := false,
        pathDistanceThreshold := 10,
        processingMode := ProcessingMode.monochrome, colorsAmt := 2,
        monochromeColor := "#000000",
        visiblePaths := fun _ => none }).length = 2 := by
  constructor
  · intro settings points ht run hrun
    have hchain :=
      pathRunsAux_chain settings.pathDistanceThreshold
        (sortPoints serpentineLE points) none []
        (fun lp h => Option.noConfusion h) List.chain'_nil run hrun
    refine List.Chain'.imp ?_ hchain
    intro a b hab
    unfold withinThreshold at hab
    have h1 : Real.sqrt ((distSq a.x a.y b.x b.y : ℚ) : ℝ) ≤
        Real.sqrt (((settings.pathDistanceThreshold ^ 2 : ℚ) : ℝ)) := by
      apply Real.sqrt_le_sqrt
      exact_mod_cast hab
    have h2 : Real.sqrt (((settings.pathDistanceThreshold ^ 2 : ℚ) : ℝ)) =
        ((settings.pathDistanceThreshold : ℚ) : ℝ) := by
      push_cast
      exact Real.sqrt_sq (by exact_mod_cast ht)
    rw [h2] at h1
    exact h1
  · norm_num [generateContinuousPathRuns, sortPoints, insertSorted, serpentineLE,
      pathRunsAux, distanceExceeds, distSq]

/-- Claim C5 witness: the threshold invariant applied to the concrete
two-point group (threshold 10). -/
theorem c5_continuous_path_distance_threshold_witness :
    List.Chain'
      (fun a b : PathPoint => Real.sqrt ((distSq a.x a.y b.x b.y : ℚ) : ℝ) ≤
        (((10 : ℚ) : ℚ) : ℝ))
      [{ x := 0, y := 0, width := 10, height := 10, density := 2, row := 0,
         direction := 1 }] := by
  refine c5_continuous_path_distance_threshold.1
    { gridSize := 10, gridSizeX := 10, gridSizeY := 10,
      brightnessThreshold := 255, minDensity := 2, maxDensity := 5,
      rowsCount := 1, columnsCount := 1, invert := false,
      continuousPaths := true, curvedPaths := false,
      pathDistanceThreshold := 10,
      processingMode := ProcessingMode.monochrome, colorsAmt := 2,
      monochromeColor := "#000000",
      visiblePaths := fun _ => none }
    [{ x := 0, y := 0, width := 10, height := 10, density := 2, row := 0,
       direction := 1 },
     { x := 500, y := 500, width := 10, height := 10, density := 2, row := 0,
       direction := 1 }]
    (by norm_num) _ ?_
  have heq : generateContinuousPathRuns
      [{ x := 0, y := 0, width := 10, height := 10, density := 2, row := 0,
         direction := 1 },
       { x := 500, y := 500, width := 10, height := 10, density := 2, row := 0,
         direction := 1 }]
      { gridSize := 10, gridSizeX := 10, gridSizeY := 10,
        brightnessThreshold := 255, minDensity := 2, maxDensity := 5,
        rowsCount := 1, columnsCount := 1, invert := false,
        continuousPaths := true, curvedPaths := false,
        pathDistanceThreshold := 10,
        processingMode := ProcessingMode.monochrome, colorsAmt := 2,
        monochromeColor := "#000000",
        visiblePaths := fun _ => none } =
      [[{ x := 0, y := 0, width := 10, height := 10, density := 2, row := 0,
          direction := 1 }],
       [{ x := 500, y := 500, width := 10, height := 10, density := 2, row := 0,
          direction := 1 }]] := by
    norm_num [generateContinuousPathRuns, sortPoints, insertSorted, serpentineLE,
      pathRunsAux, distanceExceeds, distSq]
  rw [heq]
  exact List.mem_cons_self _ _

/-! Claim C6: grayscale level construction and nearest-level assignment. -/

theorem nearest_foldl_spec (b : ℚ) :
    ∀ (ls : List ℚ) (cur : ℚ),
      ∃ pre post : List ℚ,
        cur :: ls = pre ++ (List.foldl (nearestStep b) cur ls) :: post ∧
        (∀ y ∈ pre, |List.foldl (nearestStep b) cur ls - b| < |y - b|) ∧
        (∀ y ∈ cur :: ls, |List.foldl (nearestStep b) cur ls - b| ≤ |y - b|) := by
  intro ls
  induction ls with
  | nil =>
    intro cur
    refine ⟨[], [], rfl, by simp, ?_⟩
    intro y hy
    rcases List.mem_singleton.mp hy with rfl
    simp
  | cons c rest ih =>
    intro cur
    rw [List.foldl_cons]
    obtain ⟨pre', post', heq, hpre, hmin⟩ := ih (nearestStep b cur c)
    by_cases hlt : |c - b| < |cur - b|
    · have hcur' : nearestStep b cur c = c := if_pos hlt
      rw [hcur']
      rw [hcur'] at heq hpre hmin
      refine ⟨cur :: pre', post', ?_, ?_, ?_⟩
      · rw [List.cons_append, ← heq]
      · intro y hy
        rcases List.mem_cons.mp hy with rfl | hy2
        · calc |List.foldl (nearestStep b) c rest - b| ≤ |c - b| :=
                hmin c (List.mem_cons_self c rest)
            _ < |y - b| := hlt
        · exact hpre y hy2
      · intro y hy
        rcases List.mem_cons.mp hy with rfl | hy2
        · exact le_of_lt (lt_of_le_of_lt (hmin c (List.mem_cons_self c rest)) hlt)
        · exact hmin y hy2
    · have hcur' : nearestStep b cur c = cur := if_neg hlt
      have hle : |cur - b| ≤ |c - b| := not_lt.mp hlt
      rw [hcur']
      rw [hcur'] at heq hpre hmin
      cases pre' with
      | nil =>
        rw [List.nil_append] at heq
        have hr : List.foldl (nearestStep b) cur rest = cur := (List.cons.inj heq).1.symm
        refine ⟨[], c :: post', ?_, by simp, ?_⟩
        · rw [List.nil_append, hr]
          rw [hr] at heq
          rw [List.cons_inj_right]
          exact (List.cons.inj heq).2 ▸ rfl
        · intro y hy
          rcases List.mem_cons.mp hy with rfl | hy2
          · exact hmin y (List.mem_cons_self _ _)
          rcases List.mem_cons.mp hy2 with rfl | hy3
          · rw [hr]; exact hle
          · exact hmin y (List.mem_cons_of_mem _ hy3)
      | cons q pre'' =>
        rw [List.cons_append] at heq
        have hq : q = cur := ((List.cons.inj heq).1).symm
        have hrest : rest = pre'' ++ List.foldl (nearestStep b) cur rest :: post' :=
          (List.cons.inj heq).2
        have hstrict_cur : |List.foldl (nearestStep b) cur rest - b| < |cur - b| := by
          have := hpre q (List.mem_cons_self q pre'')
          rwa [hq] at this
        refine ⟨cur :: c :: pre'', post', ?_, ?_, ?_⟩
        · rw [List.cons_append, List.cons_append, ← hrest]
        · intro y hy
          rcases List.mem_cons.mp hy with rfl | hy2
          · exact hstrict_cur
          rcases List.mem_cons.mp hy2 with rfl | hy3
          · exact lt_of_lt_of_le hstrict_cur hle
          · exact hpre y (List.mem_cons_of_mem q hy3)
        · intro y hy
          rcases List.mem_cons.mp hy with rfl | hy2
          · exact hmin y (List.mem_cons_self _ _)
          rcases List.mem_cons.mp hy2 with rfl | hy3
          · exact le_of_lt (lt_of_lt_of_le hstrict_cur hle)
          · exact hmin y (List.mem_cons_of_mem _ hy3)

/-- First-minimum characterization of `nearestGray` on a nonempty level list:
the result occurs in the list after a prefix of strictly worse levels and is
weakly closest to `b` among all levels. -/
theorem nearestGray_spec (levels : List ℚ) (b : ℚ) (hne : levels ≠ []) :
    ∃ pre post : List ℚ,
      levels = pre ++ nearestGray levels b :: post ∧
      (∀ y ∈ pre, |nearestGray levels b - b| < |y - b|) ∧
      (∀ y ∈ levels, |nearestGray levels b - b| ≤ |y - b|) := by
  cases levels with
  | nil => exact absurd rfl hne
  | cons l ls => exact nearest_foldl_spec b ls l

theorem nearestGray_mem (levels : List ℚ) (b : ℚ) (hne : levels ≠ []) :
    nearestGray levels b ∈ levels := by
  obtain ⟨pre, post, heq, _, _⟩ := nearestGray_spec levels b hne
  set r := nearestGray levels b with hr
  rw [heq]
  exact List.mem_append_right pre (List.mem_cons_self _ _)

theorem mem_of_getLast?_eq_some {α : Type} {l : List α} {x : α}
    (h : l.getLast? = some x) : x ∈ l := by
  have hx : x ∈ l.getLast? := Option.mem_def.mpr h
  obtain ⟨h0, hx2⟩ := List.mem_getLast?_eq_getLast hx
  rw [hx2]
  exact List.getLast_mem h0

theorem foldl_preserve {α β : Type} (P : α → Prop) (f : α → β → α)
    (h : ∀ a x, P a → P (f a x)) :
    ∀ (l : List β) (init : α), P init → P (l.foldl f init) := by
  intro l
  induction l with
  | nil => intro init hi; exact hi
  | cons x t ih => intro init hi; exact ih (f init x) (h init x hi)

/-- Components of `brightnessRange` are integers when all pixel brightnesses
are. -/
theorem brightnessRange_int (pixels : List PixelData) (w h : ℕ)
    (hint : ∀ p ∈ pixels, ∃ z : ℤ, p.brightness = (z : ℚ)) :
    (∃ z : ℤ, (brightnessRange pixels w h).1 = (z : ℚ)) ∧
    (∃ z : ℤ, (brightnessRange pixels w h).2 = (z : ℚ)) := by
  unfold brightnessRange
  refine foldl_preserve
    (fun mm : ℚ × ℚ => (∃ z : ℤ, mm.1 = (z : ℚ)) ∧ (∃ z : ℤ, mm.2 = (z : ℚ)))
    (fun mm yx =>
      match pixelAt pixels yx.2 yx.1 with
      | some p => (min mm.1 p.brightness, max mm.2 p.brightness)
      | none => mm)
    ?_ (cellsRowMajor w h) (255, 0) ⟨⟨255, by norm_num⟩, ⟨0, by norm_num⟩⟩
  intro mm yx hmm
  rcases hpx : pixelAt pixels yx.2 yx.1 with _ | p
  · simpa [hpx] using hmm
  · have hp : p ∈ pixels :=
      List.mem_of_mem_filter (mem_of_getLast?_eq_some hpx)
    obtain ⟨zb, hzb⟩ := hint p hp
    obtain ⟨⟨z1, hz1⟩, ⟨z2, hz2⟩⟩ := hmm
    refine ⟨⟨min z1 zb, ?_⟩, ⟨max z2 zb, ?_⟩⟩ <;> simp only [hpx]
    · rw [hz1, hzb]; push_cast; rfl
    · rw [hz2, hzb]; push_cast; rfl

/-- Any pixel found in the grid has its brightness between the computed
minimum and maximum. -/
theorem brightnessRange_bounds (pixels : List PixelData) (w h : ℕ)
    {x y : ℕ} {p : PixelData} (hx : x < w) (hy : y < h)
    (hpx : pixelAt pixels x y = some p) :
    (brightnessRange pixels w h).1 ≤ p.brightness ∧
    p.brightness ≤ (brightnessRange pixels w h).2 := by
  unfold brightnessRange
  have hcell : (y, x) ∈ cellsRowMajor w h := mem_cellsRowMajor.mpr ⟨hy, hx⟩
  obtain ⟨l1, l2, hsplit⟩ := List.append_of_mem hcell
  rw [hsplit, List.foldl_append, List.foldl_cons]
  set mid := ((cellsRowMajor w h).foldl
    (fun mm yx =>
      match pixelAt pixels yx.2 yx.1 with
      | some p => (min mm.1 p.brightness, max mm.2 p.brightness)
      | none => mm) ((255 : ℚ), (0 : ℚ)))
  have hstart :
      (fun mm : ℚ × ℚ => mm.1 ≤ p.brightness ∧ p.brightness ≤ mm.2)
        ((match pixelAt pixels x y with
          | some p => (min (l1.foldl
              (fun mm yx =>
                match pixelAt pixels yx.2 yx.1 with
                | some p => (min mm.1 p.brightness, max mm.2 p.brightness)
                | none => mm) ((255 : ℚ), (0 : ℚ))).1 p.brightness,
              max (l1.foldl
              (fun mm yx =>
                match pixelAt pixels yx.2 yx.1 with
                | some p => (min mm.1 p.brightness, max mm.2 p.brightness)
                | none => mm) ((255 : ℚ), (0 : ℚ))).2 p.brightness)
          | none => l1.foldl
              (fun mm yx =>
                match pixelAt pixels yx.2 yx.1 with
                | some p => (min mm.1 p.brightness, max mm.2 p.brightness)
                | none => mm) ((255 : ℚ), (0 : ℚ)))) := by
    rw [hpx]
    exact ⟨min_le_right _ _, le_max_right _ _⟩
  refine foldl_preserve
    (fun mm : ℚ × ℚ => mm.1 ≤ p.brightness ∧ p.brightness ≤ mm.2) _ ?_ l2 _ hstart
  intro mm yx hmm
  rcases hq : pixelAt pixels yx.2 yx.1 with _ | q
  · simpa [hq] using hmm
  · refine ⟨?_, ?_⟩ <;> simp only [hq]
    · exact le_trans (min_le_left _ _) hmm.1
    · exact le_trans hmm.2 (le_max_left _ _)

theorem grayLevels_length (n : ℕ) (mB MB : ℚ) : (grayLevels n mB MB).length = n := by
  unfold grayLevels
  rw [List.length_map, List.length_range]

theorem grayLevels_getD (n : ℕ) (mB MB : ℚ) {i : ℕ} (hi : i < n) :
    (grayLevels n mB MB).getD i 0 =
      ((jsRound (mB + ((i : ℚ) / ((n : ℚ) - 1)) * (MB - mB)) : ℤ) : ℚ) := by
  unfold grayLevels
  rw [List.getD_eq_getElem?_getD, List.getElem?_map, List.getElem?_range hi]
  rfl

theorem jsRound_close (q : ℚ) : |((jsRound q : ℤ) : ℚ) - q| ≤ 1 / 2 := by
  unfold jsRound
  have h1 := Int.floor_le (q + 1 / 2)
  have h2 := Int.lt_floor_add_one (q + 1 / 2)
  rw [abs_le]
  constructor <;> linarith

theorem mem_grayscalePointsFor (imageData : ImageDataM) (settings : Settings)
    (levels : List ℚ) {x y : ℕ} {p : PixelData}
    (hx : x < imageData.width) (hy : y < imageData.height)
    (hpx : pixelAt imageData.pixels x y = some p) :
    mkPathPoint settings x y (grayDensity settings (assignedGray levels p)) ∈
      grayscalePointsFor imageData settings levels
        (grayKey (assignedGray levels p)) := by
  unfold grayscalePointsFor
  refine List.mem_filterMap.mpr ⟨(y, x), mem_cellsRowMajor.mpr ⟨hy, hx⟩, ?_⟩
  simp [hpx]

/-- Claim C6: for `colorsAmt ≥ 2` and integer pixel brightnesses,
`processGrayscale` builds exactly `colorsAmt` gray levels whose first and last
equal the minimum and maximum sampled brightness, each level within 1/2 (the
rounding error) of the exact evenly spaced position; every brightness is
assigned by `nearestGray` to a level that is weakly closest, preceded in the
level list only by strictly worse levels (first-minimal tie-breaking); and
each grid pixel contributes its point to the group of its assigned level. -/
theorem c6_grayscale_levels_and_assignment
    (imageData : ImageDataM) (settings : Settings)
    (hn : 2 ≤ settings.colorsAmt)
    (hint : ∀ p ∈ imageData.pixels, ∃ z : ℤ, p.brightness = (z : ℚ)) :
    ∀ minB maxB : ℚ, ∀ levels : List ℚ,
      minB = (brightnessRange imageData.pixels imageData.width imageData.height).1 →
      maxB = (brightnessRange imageData.pixels imageData.width imageData.height).2 →
      levels = grayLevels settings.colorsAmt minB maxB →
      levels.length = settings.colorsAmt ∧
      levels.getD 0 0 = minB ∧
      levels.getD (settings.colorsAmt - 1) 0 = maxB ∧
      (∀ i : ℕ, i < settings.colorsAmt →
        |levels.getD i 0 -
          (minB + ((i : ℚ) / ((settings.colorsAmt : ℚ) - 1)) * (maxB - minB))| ≤ 1 / 2) ∧
      (∀ b : ℚ, ∃ pre post : List ℚ,
        levels = pre ++ nearestGray levels b :: post ∧
        (∀ y ∈ pre, |nearestGray levels b - b| < |y - b|) ∧
        (∀ y ∈ levels, |nearestGray levels b - b| ≤ |y - b|)) ∧
      (∀ (x y : ℕ) (p : PixelData), x < imageData.width → y < imageData.height →
        pixelAt imageData.pixels x y = some p →
        mkPathPoint settings x y (grayDensity settings (assignedGray levels p)) ∈
          grayscalePointsFor imageData settings levels
            (grayKey (assignedGray levels p))) := by
  intro minB maxB levels hmB hMB hlev
  have hn0 : 0 < settings.colorsAmt := lt_of_lt_of_le (by norm_num) hn
  have hnq : ((settings.colorsAmt : ℚ) - 1) ≠ 0 := by
    have : (2 : ℚ) ≤ (settings.colorsAmt : ℚ) := by exact_mod_cast hn
    intro hc
    rw [sub_eq_zero] at hc
    rw [hc] at this
    norm_num at this
  obtain ⟨⟨zmin, hzmin⟩, ⟨zmax, hzmax⟩⟩ :=
    brightnessRange_int imageData.pixels imageData.width imageData.height hint
  have hlen : levels.length = settings.colorsAmt := by
    rw [hlev]; exact grayLevels_length _ _ _
  have hne : levels ≠ [] := by
    intro hc
    rw [hc] at hlen
    simp at hlen
    omega
  have harg1 : minB + (((0 : ℕ) : ℚ) / ((settings.colorsAmt : ℚ) - 1)) * (maxB - minB) =
      minB := by push_cast; ring
  have hcast : (((settings.colorsAmt - 1 : ℕ)) : ℚ) = (settings.colorsAmt : ℚ) - 1 := by
    rw [Nat.cast_sub (by omega : 1 ≤ settings.colorsAmt)]
    norm_num
  have harg2 : minB +
      ((((settings.colorsAmt - 1 : ℕ)) : ℚ) / ((settings.colorsAmt : ℚ) - 1)) *
        (maxB - minB) = maxB := by
    rw [hcast, div_self hnq]
    ring
  refine ⟨hlen, ?_, ?_, ?_, ?_, ?_⟩
  · rw [hlev, grayLevels_getD _ _ _ hn0, harg1, hmB, hzmin, jsRound_intCast]
  · rw [hlev, grayLevels_getD _ _ _ (by omega : settings.colorsAmt - 1 < settings.colorsAmt),
      harg2, hMB, hzmax, jsRound_intCast]
  · intro i hi
    rw [hlev, grayLevels_getD _ _ _ hi]
    exact jsRound_close _
  · intro b
    exact nearestGray_spec levels b hne
  · intro x y p hx hy hpx
    exact mem_grayscalePointsFor imageData settings levels hx hy hpx

/-- Claim C6 witness: the theorem applied to a 2×1 image holding pixels of
brightness 0 and 255 with `colorsAmt = 2`. -/
theorem c6_grayscale_levels_witness :
    (grayLevels 2
      (brightnessRange
        [{ x := 0, y := 0, brightness := 0, r := 0, g := 0, b := 0, a := 255 },
         { x := 1, y := 0, brightness := 255, r := 255, g := 255, b := 255, a := 255 }] 2 1).1
      (brightnessRange
        [{ x := 0, y := 0, brightness := 0, r := 0, g := 0, b := 0, a := 255 },
         { x := 1, y := 0, brightness := 255, r := 255, g := 255, b := 255, a := 255 }] 2 1).2).length
      = 2 :=
    (c6_grayscale_levels_and_assignment
      { width := 2, height := 1,
        pixels :=
          [{ x := 0, y := 0, brightness := 0, r := 0, g := 0, b := 0, a := 255 },
           { x := 1, y := 0, brightness := 255, r := 255, g := 255, b := 255, a := 255 }],
        originalWidth := 2, originalHeight := 1, resizedWidth := 2,
        resizedHeight := 1, outputWidth := 560, outputHeight := 280,
        columnsCount := 2, rowsCount := 1, tileWidth := 280, tileHeight := 280,
        colorGroups := [] }
      { gridSize := 10, gridSizeX := 280, gridSizeY := 280,
        brightnessThreshold := 255, minDensity := 2, maxDensity := 5,
        rowsCount := 1, columnsCount := 2, invert := false,
        continuousPaths := true, curvedPaths := false,
        pathDistanceThreshold := 10,
        processingMode := ProcessingMode.grayscale, colorsAmt := 2,
        monochromeColor := "#000000", visiblePaths := fun _ => none }
      (by norm_num)
      (by
        intro p hp
        rcases List.mem_cons.mp hp with rfl | hp2
        · exact ⟨0, rfl⟩
        rcases List.mem_cons.mp hp2 with rfl | hp3
        · exact ⟨255, rfl⟩
        · exact absurd hp3 (List.not_mem_nil p))
      _ _ _ rfl rfl rfl).1

/-! Claim C4: density bounds and monotonicity.  Supporting lemmas. -/

theorem interpDensity_bounds {minD maxD nb : ℚ} {mi ma : ℤ}
    (hmi : minD = (mi : ℚ)) (hma : maxD = (ma : ℚ)) (hle : minD ≤ maxD)
    (h0 : 0 ≤ nb) (h1 : nb ≤ 1) :
    mi ≤ interpDensity minD maxD nb ∧ interpDensity minD maxD nb ≤ ma := by
  unfold interpDensity
  constructor
  · apply le_jsRound_of_le
    rw [← hmi]
    nlinarith
  · apply jsRound_le_of_le
    rw [← hma]
    nlinarith

theorem interpDensity_mono {minD maxD nb1 nb2 : ℚ} (hle : minD ≤ maxD)
    (h : nb1 ≤ nb2) : interpDensity minD maxD nb1 ≤ interpDensity minD maxD nb2 := by
  unfold interpDensity
  apply jsRound_mono
  nlinarith

theorem ensureEven_intCast_nonneg (z : ℤ) : 0 ≤ ensureEvenDensity (z : ℚ) := by
  rcases le_or_lt z 0 with h | h
  · rw [ensureEven_nonpos (by exact_mod_cast h)]
  · rcases Int.even_or_odd z with he | ho
    · rw [ensureEven_even h he]
      exact_mod_cast le_of_lt h
    · rw [ensureEven_odd h ho]
      have : (1 : ℤ) ≤ z := h
      have : (1 : ℚ) ≤ (z : ℚ) := by exact_mod_cast this
      linarith

theorem ensureEven_intCast_le (z : ℤ) (h : 0 ≤ z) :
    ensureEvenDensity (z : ℚ) ≤ (z : ℚ) := by
  rcases eq_or_lt_of_le h with heq | hlt
  · rw [← heq]
    norm_num [ensureEvenDensity]
  · rcases Int.even_or_odd z with he | ho
    · rw [ensureEven_even hlt he]
    · rw [ensureEven_odd hlt ho]
      linarith

theorem ensureEven_intCast_mono {z1 z2 : ℤ} (h : z1 ≤ z2) :
    ensureEvenDensity (z1 : ℚ) ≤ ensureEvenDensity (z2 : ℚ) := by
  rcases le_or_lt z2 0 with h2 | h2
  · rw [ensureEven_nonpos (by exact_mod_cast le_trans h h2),
      ensureEven_nonpos (by exact_mod_cast h2)]
  · rcases le_or_lt z1 0 with h1 | h1
    · rw [ensureEven_nonpos (by exact_mod_cast h1)]
      exact ensureEven_intCast_nonneg z2
    · rcases eq_or_lt_of_le h with heq | hlt
      · rw [heq]
      · have hz1le : ensureEvenDensity (z1 : ℚ) ≤ (z1 : ℚ) :=
          ensureEven_intCast_le z1 (le_of_lt h1)
        have hz2ge : ((z2 : ℚ)) - 1 ≤ ensureEvenDensity (z2 : ℚ) := by
          rcases Int.even_or_odd z2 with he | ho
          · rw [ensureEven_even h2 he]; linarith
          · rw [ensureEven_odd h2 ho]
        have : (z1 : ℚ) ≤ (z2 : ℚ) - 1 := by
          have : z1 + 1 ≤ z2 := hlt
          have : ((z1 + 1 : ℤ) : ℚ) ≤ (z2 : ℚ) := by exact_mod_cast this
          push_cast at this
          linarith
        linarith

theorem rgbToCMYK_fields_range (r g b : ℚ)
    (hr0 : 0 ≤ r) (hr1 : r ≤ 255) (hg0 : 0 ≤ g) (hg1 : g ≤ 255)
    (hb0 : 0 ≤ b) (hb1 : b ≤ 255) :
    (0 ≤ (rgbToCMYK r g b).cyan ∧ (rgbToCMYK r g b).cyan ≤ 255) ∧
    (0 ≤ (rgbToCMYK r g b).magenta ∧ (rgbToCMYK r g b).magenta ≤ 255) ∧
    (0 ≤ (rgbToCMYK r g b).yellow ∧ (rgbToCMYK r g b).yellow ≤ 255) ∧
    (0 ≤ (rgbToCMYK r g b).black ∧ (rgbToCMYK r g b).black ≤ 255) := by
  unfold rgbToCMYK
  set rn := r / 255 with hrn
  set gn := g / 255 with hgn
  set bn := b / 255 with hbn
  have hrn0 : 0 ≤ rn := by rw [hrn]; positivity
  have hrn1 : rn ≤ 1 := by rw [hrn]; linarith [div_le_one_of_le hr1 (by norm_num : (0:ℚ) ≤ 255)]
  have hgn0 : 0 ≤ gn := by rw [hgn]; positivity
  have hgn1 : gn ≤ 1 := by rw [hgn]; linarith [div_le_one_of_le hg1 (by norm_num : (0:ℚ) ≤ 255)]
  have hbn0 : 0 ≤ bn := by rw [hbn]; positivity
  have hbn1 : bn ≤ 1 := by rw [hbn]; linarith [div_le_one_of_le hb1 (by norm_num : (0:ℚ) ≤ 255)]
  set mx := max rn (max gn bn) with hmx
  have hmx0 : 0 ≤ mx := le_trans hrn0 (le_max_left _ _)
  have hmx1 : mx ≤ 1 := by
    rw [hmx]
    exact max_le hrn1 (max_le hgn1 hbn1)
  have hk0 : 0 ≤ 1 - mx := by linarith
  have hk1 : 1 - mx ≤ 1 := by linarith
  have hjs : ∀ q : ℚ, 0 ≤ q → q ≤ 1 →
      (0 ≤ ((jsRound (q * 255) : ℤ) : ℚ) ∧ ((jsRound (q * 255) : ℤ) : ℚ) ≤ 255) := by
    intro q h0 h1
    constructor
    · have : (0 : ℤ) ≤ jsRound (q * 255) := le_jsRound_of_le (by push_cast; nlinarith)
      exact_mod_cast this
    · have : jsRound (q * 255) ≤ (255 : ℤ) := jsRound_le_of_le (by push_cast; nlinarith)
      exact_mod_cast this
  by_cases hklt : 1 - mx < 1
  · have hmxpos : 0 < mx := by linarith
    have hden : 0 < 1 - (1 - mx) := by linarith
    simp only [if_pos hklt]
    have hcval : ∀ chn : ℚ, 0 ≤ chn → chn ≤ mx →
        0 ≤ (1 - chn - (1 - mx)) * (1 / (1 - (1 - mx))) ∧
        (1 - chn - (1 - mx)) * (1 / (1 - (1 - mx))) ≤ 1 := by
      intro chn hc0 hc1
      have hnum0 : 0 ≤ 1 - chn - (1 - mx) := by linarith
      have hnum1 : 1 - chn - (1 - mx) ≤ 1 - (1 - mx) := by linarith
      constructor
      · positivity
      · rw [mul_one_div]
        exact div_le_one_of_le hnum1 (le_of_lt hden)
    refine ⟨?_, ?_, ?_, ?_⟩
    · exact hjs _ (hcval rn hrn0 (le_max_left _ _)).1 (hcval rn hrn0 (le_max_left _ _)).2
    · exact hjs _ (hcval gn hgn0 (le_trans (le_max_left _ _) (le_max_right _ _))).1
        (hcval gn hgn0 (le_trans (le_max_left _ _) (le_max_right _ _))).2
    · exact hjs _ (hcval bn hbn0 (le_trans (le_max_right _ _) (le_max_right _ _))).1
        (hcval bn hbn0 (le_trans (le_max_right _ _) (le_max_right _ _))).2
    · exact hjs _ hk0 hk1
  · simp only [if_neg hklt]
    refine ⟨?_, ?_, ?_, hjs _ hk0 hk1⟩ <;> norm_num [jsRound]

theorem cmykChannelValue_range (r g b : ℚ) (channel : String)
    (hr0 : 0 ≤ r) (hr1 : r ≤ 255) (hg0 : 0 ≤ g) (hg1 : g ≤ 255)
    (hb0 : 0 ≤ b) (hb1 : b ≤ 255) :
    0 ≤ cmykChannelValue (rgbToCMYK r g b) channel ∧
    cmykChannelValue (rgbToCMYK r g b) channel ≤ 255 := by
  obtain ⟨hc, hm, hy, hk⟩ := rgbToCMYK_fields_range r g b hr0 hr1 hg0 hg1 hb0 hb1
  unfold cmykChannelValue
  rcases hf : (cmykEntries (rgbToCMYK r g b)).find? (fun e => e.1 = channel)
    with _ | e
  · simp [hf]
  · have hmem : e ∈ cmykEntries (rgbToCMYK r g b) := List.mem_of_find?_eq_some hf
    unfold cmykEntries at hmem
    simp only [hf, Option.map_some, Option.getD_some]
    rcases List.mem_cons.mp hmem with rfl | h2
    · exact hc
    rcases List.mem_cons.mp h2 with rfl | h3
    · exact hm
    rcases List.mem_cons.mp h3 with rfl | h4
    · exact hy
    rcases List.mem_cons.mp h4 with rfl | h5
    · exact hk
    · exact absurd h5 (List.not_mem_nil e)

theorem mem_processMonochromePoints {imageData : ImageDataM} {settings : Settings}
    {pt : PathPoint} (hpt : pt ∈ processMonochromePoints imageData settings) :
    ∃ (x y : ℕ) (p : PixelData),
      pixelAt imageData.pixels x y = some p ∧
      pt = mkPathPoint settings x y
        ((interpDensity settings.minDensity settings.maxDensity
          ((255 - p.brightness) / 255) : ℤ) : ℚ) := by
  unfold processMonochromePoints at hpt
  obtain ⟨yx, _, hsome⟩ := List.mem_filterMap.mp hpt
  rcases hpx : pixelAt imageData.pixels yx.2 yx.1 with _ | p
  · rw [hpx] at hsome
    exact Option.noConfusion hsome
  · rw [hpx] at hsome
    exact ⟨yx.2, yx.1, p, hpx, (Option.some.inj hsome).symm⟩

theorem mem_processCMYKPointsFor {imageData : ImageDataM} {settings : Settings}
    {channel : String} {pt : PathPoint}
    (hpt : pt ∈ processCMYKPointsFor imageData settings channel) :
    ∃ (x y : ℕ) (p : PixelData),
      pixelAt imageData.pixels x y = some p ∧
      0 < cmykChannelValue (rgbToCMYK p.r p.g p.b) channel ∧
      pt = mkPathPoint settings x y
        ((interpDensity settings.minDensity settings.maxDensity
          (cmykChannelValue (rgbToCMYK p.r p.g p.b) channel / 255) : ℤ) : ℚ) := by
  unfold processCMYKPointsFor at hpt
  obtain ⟨yx, _, hsome⟩ := List.mem_filterMap.mp hpt
  rcases hpx : pixelAt imageData.pixels yx.2 yx.1 with _ | p
  · rw [hpx] at hsome
    exact Option.noConfusion hsome
  · rw [hpx] at hsome
    by_cases hv : 0 < cmykChannelValue (rgbToCMYK p.r p.g p.b) channel
    · simp only [if_pos hv] at hsome
      exact ⟨yx.2, yx.1, p, hpx, hv, (Option.some.inj hsome).symm⟩
    · simp only [if_neg hv] at hsome
      exact Option.noConfusion hsome

theorem foldl_preserve_mem {α β : Type} (P : α → Prop) (f : α → β → α)
    (l : List β) (h : ∀ a x, x ∈ l → P a → P (f a x)) :
    ∀ init : α, P init → P (l.foldl f init) := by
  induction l with
  | nil => intro init hi; exact hi
  | cons x t ih =>
    intro init hi
    exact ih (fun a y hy ha => h a y (List.mem_cons_of_mem x hy) ha) (f init x)
      (h init x (List.mem_cons_self x t) hi)

theorem sampleColors_subset (colors : List Color) :
    ∀ c ∈ sampleColors colors, c ∈ colors := by
  intro c hc
  unfold sampleColors at hc
  by_cases hlen : 10000 < colors.length
  · rw [if_pos hlen] at hc
    obtain ⟨j, _, hg⟩ := List.mem_filterMap.mp hc
    exact List.get?_mem hg
  · rwa [if_neg hlen] at hc

theorem pickLoop_subset (rand : ℕ → ℕ) :
    ∀ (fuel i : ℕ) (copy : List Color), ∀ c ∈ pickLoop rand i fuel copy, c ∈ copy := by
  intro fuel
  induction fuel with
  | zero =>
    intro i copy c hc
    exact absurd hc (List.not_mem_nil c)
  | succ f ih =>
    intro i copy c hc
    unfold pickLoop at hc
    by_cases hemp : copy.isEmpty
    · rw [if_pos hemp] at hc
      exact absurd hc (List.not_mem_nil c)
    · rw [if_neg hemp] at hc
      have hlen : 0 < copy.length := by
        cases copy with
        | nil => simp at hemp
        | cons a t => simp
      rcases List.mem_cons.mp hc with rfl | hc2
      · rw [List.getD_eq_getElem copy (0, 0, 0) (Nat.mod_lt _ hlen)]
        exact List.getElem_mem (Nat.mod_lt _ hlen)
      · exact (List.eraseIdx_sublist copy (rand i % copy.length)).subset
          (ih (i + 1) (copy.eraseIdx (rand i % copy.length)) c hc2)

theorem padCentroids_subset {k : ℕ} {c res : List Color}
    (h : padCentroids k c = some res) : ∀ x ∈ res, x ∈ c := by
  unfold padCentroids at h
  by_cases hk : k ≤ c.length
  · rw [if_pos hk] at h
    intro x hx
    rwa [Option.some.inj h]
  · rw [if_neg hk] at h
    rcases hl : c.getLast? with _ | last
    · rw [hl] at h
      exact Option.noConfusion h
    · rw [hl] at h
      intro x hx
      rw [← Option.some.inj h] at hx
      rcases List.mem_append.mp hx with hx1 | hx2
      · exact hx1
      · rw [List.eq_of_mem_replicate hx2]
        exact mem_of_getLast?_eq_some hl

theorem sum_bounds {l : List ℚ} (h : ∀ x ∈ l, 0 ≤ x ∧ x ≤ 255) :
    0 ≤ l.sum ∧ l.sum ≤ 255 * l.length := by
  induction l with
  | nil => simp
  | cons a t ih =>
    obtain ⟨ha0, ha1⟩ := h a (List.mem_cons_self a t)
    obtain ⟨ht0, ht1⟩ := ih (fun x hx => h x (List.mem_cons_of_mem a hx))
    rw [List.sum_cons, List.length_cons]
    constructor
    · linarith
    · push_cast
      linarith

theorem averageColor_range {cluster : List Color} (hne : cluster ≠ [])
    (h : ∀ c ∈ cluster, colorInRange c) : colorInRange (averageColor cluster) := by
  have hlen : 0 < (cluster.length : ℚ) := by
    have : 0 < cluster.length := List.length_pos.mpr hne
    exact_mod_cast this
  have h1 := sum_bounds (l := cluster.map Prod.fst) ?_
  have h2 := sum_bounds (l := cluster.map fun c => c.2.1) ?_
  have h3 := sum_bounds (l := cluster.map fun c => c.2.2) ?_
  · unfold averageColor colorInRange
    rw [List.length_map] at h1 h2 h3
    refine ⟨?_, ?_, ?_, ?_, ?_, ?_⟩
    · exact div_nonneg h1.1 (le_of_lt hlen)
    · rw [div_le_iff₀ hlen]; nlinarith [h1.2]
    · exact div_nonneg h2.1 (le_of_lt hlen)
    · rw [div_le_iff₀ hlen]; nlinarith [h2.2]
    · exact div_nonneg h3.1 (le_of_lt hlen)
    · rw [div_le_iff₀ hlen]; nlinarith [h3.2]
  · intro x hx
    obtain ⟨c, hc, rfl⟩ := List.mem_map.mp hx
    obtain ⟨a1, a2, a3, a4, a5, a6⟩ := h c hc
    exact ⟨a5, a6⟩
  · intro x hx
    obtain ⟨c, hc, rfl⟩ := List.mem_map.mp hx
    obtain ⟨a1, a2, a3, a4, a5, a6⟩ := h c hc
    exact ⟨a3, a4⟩
  · intro x hx
    obtain ⟨c, hc, rfl⟩ := List.mem_map.mp hx
    obtain ⟨a1, a2, a3, a4, a5, a6⟩ := h c hc
    exact ⟨a1, a2⟩

theorem assignClusters_mem (cols : List Color) (k : ℕ) (cents : List Color) :
    ∀ cl ∈ assignClusters cols k cents, ∀ c ∈ cl, c ∈ cols := by
  unfold assignClusters
  refine foldl_preserve_mem
    (fun clusters => ∀ cl ∈ clusters, ∀ c ∈ cl, c ∈ cols) _ cols ?_
    (List.replicate k []) ?_
  · intro clusters x hx hinv cl hcl c hc
    unfold clusterAppend at hcl
    rcases List.mem_or_eq_of_mem_set hcl with hcl2 | rfl
    · exact hinv cl hcl2 c hc
    · rcases List.mem_append.mp hc with hc1 | hc2
      · by_cases hi : findNearestCentroidIndex x cents < clusters.length
        · rw [List.getD_eq_getElem clusters [] hi] at hc1
          exact hinv _ (List.getElem_mem hi) c hc1
        · rw [List.getD_eq_default clusters [] (not_lt.mp hi)] at hc1
          exact absurd hc1 (List.not_mem_nil c)
      · rw [List.mem_singleton.mp hc2]
        exact hx
  · intro cl hcl c hc
    rw [List.eq_of_mem_replicate hcl] at hc
    exact absurd hc (List.not_mem_nil c)

theorem updateCentroids_range {cols : List Color} {k : ℕ} {cents : List Color}
    (hcols : ∀ c ∈ cols, colorInRange c) (hcents : ∀ c ∈ cents, colorInRange c) :
    ∀ c ∈ updateCentroids cols k cents, colorInRange c := by
  intro c hc
  unfold updateCentroids at hc
  obtain ⟨ic, hic, hval⟩ := List.mem_map.mp hc
  have hcl : ic.2 ∈ assignClusters cols k cents := by
    have := List.mem_enum_iff_getElem?.mp (show (ic.1, ic.2) ∈ _ from hic)
    exact List.getElem?_mem this
  by_cases hemp : ic.2 = []
  · rw [if_pos hemp] at hval
    rw [← hval]
    by_cases hi : ic.1 < cents.length
    · rw [List.getD_eq_getElem cents (0, 0, 0) hi]
      exact hcents _ (List.getElem_mem hi)
    · rw [List.getD_eq_default cents (0, 0, 0) (not_lt.mp hi)]
      exact ⟨le_refl 0, by norm_num, le_refl 0, by norm_num, le_refl 0, by norm_num⟩
  · rw [if_neg hemp] at hval
    rw [← hval]
    exact averageColor_range hemp
      (fun x hx => hcols x (assignClusters_mem cols k cents ic.2 hcl x hx))

theorem kMeansLoop_range {cols : List Color} {k : ℕ}
    (hcols : ∀ c ∈ cols, colorInRange c) :
    ∀ (fuel : ℕ) (cents old : List Color), (∀ c ∈ cents, colorInRange c) →
      ∀ c ∈ kMeansLoop cols k fuel cents old, colorInRange c := by
  intro fuel
  induction fuel with
  | zero => intro cents old hc c hmem; exact hc c hmem
  | succ f ih =>
    intro cents old hc c hmem
    unfold kMeansLoop at hmem
    by_cases heq : centroidsEqualQ cents old = true
    · rw [if_pos heq] at hmem
      exact hc c hmem
    · rw [if_neg heq] at hmem
      exact ih (updateCentroids cols k cents) cents
        (updateCentroids_range hcols hc) c hmem

theorem kMeansLoop_length (cols : List Color) (k : ℕ) :
    ∀ (fuel : ℕ) (cents old : List Color), cents.length = k →
      (kMeansLoop cols k fuel cents old).length = k := by
  intro fuel
  induction fuel with
  | zero => intro cents old h; exact h
  | succ f ih =>
    intro cents old h
    unfold kMeansLoop
    by_cases heq : centroidsEqualQ cents old = true
    · rw [if_pos heq]; exact h
    · rw [if_neg heq]
      refine ih _ _ ?_
      unfold updateCentroids
      rw [List.length_map, List.enum_length]
      unfold assignClusters
      refine foldl_preserve (fun clusters => clusters.length = k)
        (fun clusters c => clusterAppend clusters (findNearestCentroidIndex c cents) c)
        ?_ cols (List.replicate k []) (List.length_replicate k [])
      intro a x ha
      unfold clusterAppend
      rw [List.length_set]
      exact ha

theorem kMeansClustering_range {colors : List Color} {k : ℕ} {rand : ℕ → ℕ}
    {cents : List Color} (hcolors : ∀ c ∈ colors, colorInRange c)
    (h : kMeansClustering colors k rand = some cents) :
    ∀ c ∈ cents, colorInRange c ∧
      (∃ z : ℤ, c.1 = (z : ℚ)) ∧ (∃ z : ℤ, c.2.1 = (z : ℚ)) ∧ (∃ z : ℤ, c.2.2 = (z : ℚ)) := by
  simp only [kMeansClustering] at h
  rcases hpad : padCentroids k (pickLoop rand 0 k (sampleColors colors)) with _ | init
  · rw [hpad] at h
    exact Option.noConfusion h
  · rw [hpad] at h
    have hcents := Option.some.inj h
    intro c hc
    rw [← hcents] at hc
    obtain ⟨c0, hc0, hval⟩ := List.mem_map.mp hc
    have hc0cols : ∀ x ∈ init, colorInRange x := by
      intro x hx
      exact hcolors x (sampleColors_subset colors x
        (pickLoop_subset rand k 0 (sampleColors colors) x (padCentroids_subset hpad x hx)))
    have hc0range : colorInRange c0 :=
      kMeansLoop_range (fun x hx => hcolors x (sampleColors_subset colors x hx))
        10 init [] hc0cols c0 hc0
    obtain ⟨a1, a2, a3, a4, a5, a6⟩ := hc0range
    rw [← hval]
    refine ⟨⟨?_, ?_, ?_, ?_, ?_, ?_⟩, ⟨jsRound c0.1, rfl⟩, ⟨jsRound c0.2.1, rfl⟩,
      ⟨jsRound c0.2.2, rfl⟩⟩
    · show (0 : ℚ) ≤ ((jsRound c0.1 : ℤ) : ℚ)
      exact_mod_cast le_jsRound_of_le (by exact_mod_cast a1)
    · show ((jsRound c0.1 : ℤ) : ℚ) ≤ 255
      exact_mod_cast jsRound_le_of_le (by exact_mod_cast a2)
    · show (0 : ℚ) ≤ ((jsRound c0.2.1 : ℤ) : ℚ)
      exact_mod_cast le_jsRound_of_le (by exact_mod_cast a3)
    · show ((jsRound c0.2.1 : ℤ) : ℚ) ≤ 255
      exact_mod_cast jsRound_le_of_le (by exact_mod_cast a4)
    · show (0 : ℚ) ≤ ((jsRound c0.2.2 : ℤ) : ℚ)
      exact_mod_cast le_jsRound_of_le (by exact_mod_cast a5)
    · show ((jsRound c0.2.2 : ℤ) : ℚ) ≤ 255
      exact_mod_cast jsRound_le_of_le (by exact_mod_cast a6)

theorem findNearestStep_some (c : Color) (m : ℚ) (idx cnt : ℕ) (cent : Color) :
    findNearestStep c ((some m : Option ℚ), idx, cnt) cent =
      (if colorDistanceSq c cent < m then ((some (colorDistanceSq c cent) : Option ℚ), cnt, cnt + 1)
       else ((some m : Option ℚ), idx, cnt + 1)) := by
  unfold findNearestStep
  by_cases hlt : colorDistanceSq c cent < m
  · rw [if_pos hlt]
    exact if_pos hlt
  · rw [if_neg hlt]
    exact if_neg hlt

theorem findNearest_state (c : Color) :
    ∀ (l : List Color) (m : ℚ) (idx cnt : ℕ), idx < cnt →
      (l.foldl (findNearestStep c) ((some m : Option ℚ), idx, cnt)).2.1 <
      (l.foldl (findNearestStep c) ((some m : Option ℚ), idx, cnt)).2.2 := by
  intro l
  induction l with
  | nil => intro m idx cnt h; exact h
  | cons d rest ih =>
    intro m idx cnt h
    rw [List.foldl_cons, findNearestStep_some]
    by_cases hlt : colorDistanceSq c d < m
    · rw [if_pos hlt]
      exact ih _ _ _ (Nat.lt_succ_self cnt)
    · rw [if_neg hlt]
      exact ih _ _ _ (Nat.lt_succ_of_lt h)

theorem findNearest_count (c : Color) :
    ∀ (l : List Color) (m : ℚ) (idx cnt : ℕ),
      (l.foldl (findNearestStep c) ((some m : Option ℚ), idx, cnt)).2.2 =
        cnt + l.length := by
  intro l
  induction l with
  | nil => intro m idx cnt; simp
  | cons d rest ih =>
    intro m idx cnt
    rw [List.foldl_cons, findNearestStep_some, List.length_cons]
    by_cases hlt : colorDistanceSq c d < m
    · rw [if_pos hlt, ih]
      omega
    · rw [if_neg hlt, ih]
      omega

theorem findNearestCentroidIndex_lt (c : Color) (cs : List Color) (h : cs ≠ []) :
    findNearestCentroidIndex c cs < cs.length := by
  cases cs with
  | nil => exact absurd rfl h
  | cons d rest =>
    unfold findNearestCentroidIndex
    have hstep : findNearestStep c ((none : Option ℚ), 0, 0) d =
        ((some (colorDistanceSq c d) : Option ℚ), 0, 1) := rfl
    rw [List.foldl_cons, hstep, List.length_cons]
    have hcount := findNearest_count c rest (colorDistanceSq c d) 0 1
    have hstate := findNearest_state c rest (colorDistanceSq c d) 0 1 (by norm_num)
    omega

theorem findNearestCentroid_mem (c : Color) (cs : List Color) (h : cs ≠ []) :
    findNearestCentroid c cs ∈ cs := by
  unfold findNearestCentroid
  rw [List.getD_eq_getElem cs (0, 0, 0) (findNearestCentroidIndex_lt c cs h)]
  exact List.getElem_mem _

theorem grayLevels_pairwise_le {n : ℕ} {mB MB : ℚ} (hn : 2 ≤ n) (hle : mB ≤ MB) :
    List.Pairwise (· ≤ ·) (grayLevels n mB MB) := by
  have hden : (0 : ℚ) < (n : ℚ) - 1 := by
    have : (2 : ℚ) ≤ (n : ℚ) := by exact_mod_cast hn
    linarith
  unfold grayLevels
  rw [List.pairwise_map]
  refine List.Pairwise.imp ?_ (List.pairwise_lt_range n)
  intro i j hij
  have hcast : (i : ℚ) ≤ (j : ℚ) := by exact_mod_cast le_of_lt hij
  have hij2 : (i : ℚ) / ((n : ℚ) - 1) ≤ (j : ℚ) / ((n : ℚ) - 1) := by gcongr
  have := jsRound_mono (p := mB + (i : ℚ) / ((n : ℚ) - 1) * (MB - mB))
    (q := mB + (j : ℚ) / ((n : ℚ) - 1) * (MB - mB)) (by nlinarith [sub_nonneg.mpr hle])
  exact_mod_cast this

theorem nearestGray_mono_sorted {levels : List ℚ} (hne : levels ≠ [])
    (hsorted : List.Pairwise (· ≤ ·) levels) {b1 b2 : ℚ} (hb : b1 ≤ b2) :
    nearestGray levels b1 ≤ nearestGray levels b2 := by
  by_contra hcon
  have hgt : nearestGray levels b2 < nearestGray levels b1 := lt_of_not_le hcon
  obtain ⟨pre1, post1, heq1, hpre1, hmin1⟩ := nearestGray_spec levels b1 hne
  obtain ⟨pre2, post2, heq2, hpre2, hmin2⟩ := nearestGray_spec levels b2 hne
  have hr2mem : nearestGray levels b2 ∈ levels := nearestGray_mem levels b2 hne
  have hr1mem : nearestGray levels b1 ∈ levels := nearestGray_mem levels b1 hne
  set r1 := nearestGray levels b1 with hr1
  set r2 := nearestGray levels b2 with hr2
  have hA : |r1 - b1| ≤ |r2 - b1| := hmin1 r2 hr2mem
  have hB : |r2 - b2| ≤ |r1 - b2| := hmin2 r1 hr1mem
  have hA2 : (r1 - b1) ^ 2 ≤ (r2 - b1) ^ 2 := by
    have := pow_le_pow_left (abs_nonneg (r1 - b1)) hA 2
    rwa [sq_abs, sq_abs] at this
  have hB2 : (r2 - b2) ^ 2 ≤ (r1 - b2) ^ 2 := by
    have := pow_le_pow_left (abs_nonneg (r2 - b2)) hB 2
    rwa [sq_abs, sq_abs] at this
  have hmid1 : r2 + r1 ≤ 2 * b1 := by nlinarith [hgt]
  have hmid2 : 2 * b2 ≤ r2 + r1 := by nlinarith [hgt]
  have hb1eq : 2 * b1 = r2 + r1 := by linarith
  have hd : |r1 - b1| = |r2 - b1| := by
    have h1 : r1 - b1 = (r1 - r2) / 2 := by linarith
    have h2 : r2 - b1 = -((r1 - r2) / 2) := by linarith
    rw [h1, h2, abs_neg]
  have hr2pos : r2 ∈ r1 :: post1 := by
    rw [heq1] at hr2mem
    rcases List.mem_append.mp hr2mem with hmem | hmem
    · exact absurd hd (ne_of_lt (hpre1 r2 hmem))
    · exact hmem
  rcases List.mem_cons.mp hr2pos with heqr | hpost
  · exact absurd heqr (ne_of_lt hgt)
  · have hle12 : r1 ≤ r2 := by
      rw [heq1] at hsorted
      have h2 := (List.pairwise_append.mp hsorted).2.1
      exact (List.pairwise_cons.mp h2).1 r2 hpost
    exact absurd hle12 (not_le.mpr hgt)

theorem grayDensity_anti_mono (settings : Settings)
    (hle : settings.minDensity ≤ settings.maxDensity) {g1 g2 : ℤ} (hg : g1 ≤ g2) :
    grayDensity settings g2 ≤ grayDensity settings g1 := by
  unfold grayDensity
  apply ensureEven_intCast_mono
  apply interpDensity_mono hle
  have h1 : ((g1 : ℚ)) ≤ (g2 : ℚ) := by exact_mod_cast hg
  linarith

theorem mem_posterizePointsFor {imageData : ImageDataM} {settings : Settings}
    {cents : List Color} {key : String} {pt : PathPoint}
    (hpt : pt ∈ posterizePointsFor imageData settings cents key) :
    ∃ (x y : ℕ) (p : PixelData),
      pixelAt imageData.pixels x y = some p ∧
      pt = mkPathPoint settings x y
        ((interpDensity settings.minDensity settings.maxDensity
          ((255 -
            ((findNearestCentroid (p.r, p.g, p.b) cents).1 * 0.299 +
             (findNearestCentroid (p.r, p.g, p.b) cents).2.1 * 0.587 +
             (findNearestCentroid (p.r, p.g, p.b) cents).2.2 * 0.114)) / 255) : ℤ) : ℚ) := by
  unfold posterizePointsFor at hpt
  obtain ⟨yx, _, hsome⟩ := List.mem_filterMap.mp hpt
  rcases hpx : pixelAt imageData.pixels yx.2 yx.1 with _ | p
  · rw [hpx] at hsome
    exact Option.noConfusion hsome
  · rw [hpx] at hsome
    by_cases hkey : centroidKey (findNearestCentroid (p.r, p.g, p.b) cents) = key
    · simp only [if_pos hkey] at hsome
      exact ⟨yx.2, yx.1, p, hpx, (Option.some.inj hsome).symm⟩
    · simp only [if_neg hkey] at hsome
      exact Option.noConfusion hsome

theorem uniqueColors_subset_pixels (pixels : List PixelData) (w h : ℕ) :
    ∀ c ∈ uniqueColors pixels w h, ∃ p ∈ pixels, c = (p.r, p.g, p.b) := by
  unfold uniqueColors
  refine foldl_preserve
    (fun acc => ∀ c ∈ acc, ∃ p ∈ pixels, c = (p.r, p.g, p.b))
    (fun acc yx =>
      match pixelAt pixels yx.2 yx.1 with
      | some p => if (p.r, p.g, p.b) ∈ acc then acc else acc ++ [(p.r, p.g, p.b)]
      | none => acc)
    ?_ (cellsRowMajor w h) [] (by intro c hc; exact absurd hc (List.not_mem_nil c))
  intro acc yx hinv c hc
  rcases hpx : pixelAt pixels yx.2 yx.1 with _ | p
  · simp only [hpx] at hc
    exact hinv c hc
  · simp only [hpx] at hc
    by_cases hmem : (p.r, p.g, p.b) ∈ acc
    · rw [if_pos hmem] at hc
      exact hinv c hc
    · rw [if_neg hmem] at hc
      rcases List.mem_append.mp hc with hc1 | hc2
      · exact hinv c hc1
      · refine ⟨p, ?_, List.mem_singleton.mp hc2⟩
        unfold pixelAt at hpx
        exact List.mem_of_mem_filter (mem_of_getLast?_eq_some hpx)

theorem uniqueColors_ne_nil {pixels : List PixelData} {w h : ℕ} {x y : ℕ}
    {p : PixelData} (hx : x < w) (hy : y < h)
    (hpx : pixelAt pixels x y = some p) : uniqueColors pixels w h ≠ [] := by
  unfold uniqueColors
  have hcell : (y, x) ∈ cellsRowMajor w h := mem_cellsRowMajor.mpr ⟨hy, hx⟩
  obtain ⟨l1, l2, hsplit⟩ := List.append_of_mem hcell
  rw [hsplit, List.foldl_append, List.foldl_cons]
  refine foldl_preserve (fun acc => acc ≠ []) _ ?_ l2 _ ?_
  · intro acc yx hacc
    rcases hq : pixelAt pixels yx.2 yx.1 with _ | q
    · simpa only [hq] using hacc
    · simp only [hq]
      split
      · exact hacc
      · simp
  · simp only [hpx]
    split
    · next hmem => exact List.ne_nil_of_mem hmem
    · simp

theorem pixelAt_mem {pixels : List PixelData} {x y : ℕ} {p : PixelData}
    (h : pixelAt pixels x y = some p) : p ∈ pixels := by
  unfold pixelAt at h
  exact List.mem_of_mem_filter (mem_of_getLast?_eq_some h)

theorem mkPathPoint_density (settings : Settings) (x y : ℕ) (d : ℚ) :
    (mkPathPoint settings x y d).density = d := rfl

theorem brightnessRange_in_0_255 (pixels : List PixelData) (w h : ℕ)
    (hpix : ∀ p ∈ pixels, 0 ≤ p.brightness ∧ p.brightness ≤ 255) :
    0 ≤ (brightnessRange pixels w h).1 ∧ (brightnessRange pixels w h).2 ≤ 255 := by
  unfold brightnessRange
  refine foldl_preserve (fun mm : ℚ × ℚ => 0 ≤ mm.1 ∧ mm.2 ≤ 255) _
    ?_ (cellsRowMajor w h) (255, 0) ⟨by norm_num, by norm_num⟩
  intro mm yx hmm
  rcases hpx : pixelAt pixels yx.2 yx.1 with _ | p
  · simpa only [hpx] using hmm
  · simp only [hpx]
    obtain ⟨hb0, hb1⟩ := hpix p (pixelAt_mem hpx)
    exact ⟨le_min hmm.1 hb0, max_le hmm.2 hb1⟩

theorem grayLevels_range {n : ℕ} {mB MB : ℚ} (hn : 2 ≤ n)
    (h0 : 0 ≤ mB) (hle : mB ≤ MB) (h255 : MB ≤ 255) :
    ∀ l ∈ grayLevels n mB MB, 0 ≤ l ∧ l ≤ 255 := by
  intro l hl
  unfold grayLevels at hl
  obtain ⟨i, hi, rfl⟩ := List.mem_map.mp hl
  rw [List.mem_range] at hi
  have hden : (0 : ℚ) < (n : ℚ) - 1 := by
    have : (2 : ℚ) ≤ (n : ℚ) := by exact_mod_cast hn
    linarith
  have ht0 : 0 ≤ (i : ℚ) / ((n : ℚ) - 1) := div_nonneg (by positivity) (le_of_lt hden)
  have ht1 : (i : ℚ) / ((n : ℚ) - 1) ≤ 1 := by
    rw [div_le_one hden]
    have : (i : ℚ) + 1 ≤ (n : ℚ) := by exact_mod_cast hi
    linarith
  set t := (i : ℚ) / ((n : ℚ) - 1) with ht
  have hval0 : (0 : ℚ) ≤ mB + t * (MB - mB) := by nlinarith
  have hval1 : mB + t * (MB - mB) ≤ 255 := by nlinarith
  constructor
  · have := le_jsRound_of_le (n := 0) (q := mB + t * (MB - mB)) (by exact_mod_cast hval0)
    exact_mod_cast this
  · have := jsRound_le_of_le (n := 255) (q := mB + t * (MB - mB)) (by exact_mod_cast hval1)
    exact_mod_cast this

theorem assignedGray_range {levels : List ℚ} (p : PixelData)
    (hne : levels ≠ []) (hrange : ∀ l ∈ levels, 0 ≤ l ∧ l ≤ 255) :
    0 ≤ assignedGray levels p ∧ assignedGray levels p ≤ 255 := by
  obtain ⟨h0, h1⟩ := hrange _ (nearestGray_mem levels p.brightness hne)
  unfold assignedGray
  exact ⟨le_jsRound_of_le (by exact_mod_cast h0),
    jsRound_le_of_le (by exact_mod_cast h1)⟩

theorem interpDensity_cast_bounds (settings : Settings) {mi ma : ℤ}
    (hmi : settings.minDensity = (mi : ℚ)) (hma : settings.maxDensity = (ma : ℚ))
    (h0 : 0 ≤ settings.minDensity) (hle : settings.minDensity ≤ settings.maxDensity)
    {nb : ℚ} (hnb0 : 0 ≤ nb) (hnb1 : nb ≤ 1) :
    0 ≤ ((interpDensity settings.minDensity settings.maxDensity nb : ℤ) : ℚ) ∧
    ((interpDensity settings.minDensity settings.maxDensity nb : ℤ) : ℚ) ≤
      settings.maxDensity := by
  obtain ⟨hlo, hhi⟩ := interpDensity_bounds hmi hma hle hnb0 hnb1
  have h0mi : (0 : ℤ) ≤ mi := by
    have h := h0
    rw [hmi] at h
    exact_mod_cast h
  constructor
  · exact_mod_cast le_trans h0mi hlo
  · conv_rhs => rw [hma]
    exact_mod_cast hhi

theorem grayDensity_bounds (settings : Settings) {mi ma : ℤ}
    (hmi : settings.minDensity = (mi : ℚ)) (hma : settings.maxDensity = (ma : ℚ))
    (h0 : 0 ≤ settings.minDensity) (hle : settings.minDensity ≤ settings.maxDensity)
    {g : ℤ} (hg0 : 0 ≤ g) (hg1 : g ≤ 255) :
    0 ≤ grayDensity settings g ∧ grayDensity settings g ≤ settings.maxDensity := by
  have hgq1 : ((g : ℚ)) ≤ 255 := by exact_mod_cast hg1
  have hgq0 : (0 : ℚ) ≤ (g : ℚ) := by exact_mod_cast hg0
  have hnb0 : (0 : ℚ) ≤ (255 - (g : ℚ)) / 255 := by
    apply div_nonneg <;> linarith
  have hnb1 : (255 - (g : ℚ)) / 255 ≤ 1 := by
    rw [div_le_one (by norm_num : (0 : ℚ) < 255)]
    linarith
  obtain ⟨hlo, hhi⟩ := interpDensity_bounds hmi hma hle hnb0 hnb1
  have h0mi : (0 : ℤ) ≤ mi := by
    have h := h0
    rw [hmi] at h
    exact_mod_cast h
  have hz0 : (0 : ℤ) ≤
      interpDensity settings.minDensity settings.maxDensity ((255 - (g : ℚ)) / 255) :=
    le_trans h0mi hlo
  unfold grayDensity
  refine ⟨ensureEven_intCast_nonneg _, ?_⟩
  have hle1 := ensureEven_intCast_le _ hz0
  have hle2 : ((interpDensity settings.minDensity settings.maxDensity
      ((255 - (g : ℚ)) / 255) : ℤ) : ℚ) ≤ settings.maxDensity := by
    conv_rhs => rw [hma]
    exact_mod_cast hhi
  exact le_trans hle1 hle2

theorem findNearestCentroid_range {cents : List Color}
    (hcents : ∀ c ∈ cents, colorInRange c) (col : Color) :
    colorInRange (findNearestCentroid col cents) := by
  rcases eq_or_ne cents [] with heq | hne
  · subst heq
    have hdef : findNearestCentroid col [] = (0, 0, 0) := by
      unfold findNearestCentroid
      simp
    rw [hdef]
    norm_num [colorInRange]
  · exact hcents _ (findNearestCentroid_mem col cents hne)

theorem mem_processGrayscalePoints_bounds {imageData : ImageDataM}
    {settings : Settings} {pt : PathPoint}
    (hpt : pt ∈ processGrayscalePoints imageData settings) :
    ∃ (x y : ℕ) (p : PixelData),
      x < imageData.width ∧ y < imageData.height ∧
      pixelAt imageData.pixels x y = some p ∧
      pt = mkPathPoint settings x y
        (grayDensity settings
          (assignedGray
            (grayLevels settings.colorsAmt
              (brightnessRange imageData.pixels imageData.width imageData.height).1
              (brightnessRange imageData.pixels imageData.width imageData.height).2)
            p)) := by
  unfold processGrayscalePoints at hpt
  obtain ⟨yx, hyx, hsome⟩ := List.mem_filterMap.mp hpt
  obtain ⟨y0, x0⟩ := yx
  obtain ⟨hy0, hx0⟩ := mem_cellsRowMajor.mp hyx
  rcases hpx : pixelAt imageData.pixels x0 y0 with _ | p
  · rw [hpx] at hsome
    exact Option.noConfusion hsome
  · rw [hpx] at hsome
    exact ⟨x0, y0, p, hx0, hy0, hpx, (Option.some.inj hsome).symm⟩

/-- Claim C4: for integer density settings with `0 ≤ minDensity ≤ maxDensity`,
byte-range pixel data and in-range centroids, every path point produced by the
grayscale, monochrome, CMYK-channel and posterize processors has
`0 ≤ density ≤ maxDensity`; and the density is monotonically non-increasing in
the pixel brightness in grayscale mode (via the assigned gray level) and in
monochrome mode (directly through the interpolation). -/
theorem c4_density_bounds_and_monotonicity
    (imageData : ImageDataM) (settings : Settings) (cents : List Color)
    (channel key : String) (mi ma : ℤ)
    (hmi : settings.minDensity = (mi : ℚ)) (hma : settings.maxDensity = (ma : ℚ))
    (h0mi : 0 ≤ settings.minDensity)
    (hminmax : settings.minDensity ≤ settings.maxDensity)
    (hn : 2 ≤ settings.colorsAmt)
    (hpix : ∀ p ∈ imageData.pixels,
      (0 ≤ p.brightness ∧ p.brightness ≤ 255) ∧
      (0 ≤ p.r ∧ p.r ≤ 255) ∧ (0 ≤ p.g ∧ p.g ≤ 255) ∧ (0 ≤ p.b ∧ p.b ≤ 255))
    (hcents : ∀ c ∈ cents, colorInRange c) :
    (∀ pt ∈ processGrayscalePoints imageData settings,
      0 ≤ pt.density ∧ pt.density ≤ settings.maxDensity) ∧
    (∀ pt ∈ processMonochromePoints imageData settings,
      0 ≤ pt.density ∧ pt.density ≤ settings.maxDensity) ∧
    (∀ pt ∈ processCMYKPointsFor imageData settings channel,
      0 ≤ pt.density ∧ pt.density ≤ settings.maxDensity) ∧
    (∀ pt ∈ posterizePointsFor imageData settings cents key,
      0 ≤ pt.density ∧ pt.density ≤ settings.maxDensity) ∧
    (∀ (x1 y1 x2 y2 : ℕ) (p1 p2 : PixelData),
      x1 < imageData.width → y1 < imageData.height →
      pixelAt imageData.pixels x1 y1 = some p1 →
      pixelAt imageData.pixels x2 y2 = some p2 →
      p1.brightness ≤ p2.brightness →
      grayDensity settings
        (assignedGray (grayLevels settings.colorsAmt
          (brightnessRange imageData.pixels imageData.width imageData.height).1
          (brightnessRange imageData.pixels imageData.width imageData.height).2) p2) ≤
      grayDensity settings
        (assignedGray (grayLevels settings.colorsAmt
          (brightnessRange imageData.pixels imageData.width imageData.height).1
          (brightnessRange imageData.pixels imageData.width imageData.height).2) p1)) ∧
    (∀ b1 b2 : ℚ, b1 ≤ b2 →
      ((interpDensity settings.minDensity settings.maxDensity
        ((255 - b2) / 255) : ℤ) : ℚ) ≤
      ((interpDensity settings.minDensity settings.maxDensity
        ((255 - b1) / 255) : ℤ) : ℚ)) := by
  have hb255 : ∀ p ∈ imageData.pixels, 0 ≤ p.brightness ∧ p.brightness ≤ 255 :=
    fun p hp => (hpix p hp).1
  have hmm255 := brightnessRange_in_0_255 imageData.pixels imageData.width
    imageData.height hb255
  refine ⟨?_, ?_, ?_, ?_, ?_, ?_⟩
  · intro pt hpt
    obtain ⟨x, y, p, hx, hy, hpx, hpteq⟩ := mem_processGrayscalePoints_bounds hpt
    rw [hpteq, mkPathPoint_density]
    have hbb := brightnessRange_bounds imageData.pixels imageData.width
      imageData.height hx hy hpx
    have hmle := le_trans hbb.1 hbb.2
    have hlr := grayLevels_range hn hmm255.1 hmle hmm255.2
    have hne : grayLevels settings.colorsAmt
        (brightnessRange imageData.pixels imageData.width imageData.height).1
        (brightnessRange imageData.pixels imageData.width imageData.height).2 ≠ [] := by
      have hlen := grayLevels_length settings.colorsAmt
        (brightnessRange imageData.pixels imageData.width imageData.height).1
        (brightnessRange imageData.pixels imageData.width imageData.height).2
      intro hc
      rw [hc] at hlen
      simp at hlen
      omega
    obtain ⟨hg0, hg1⟩ := assignedGray_range p hne hlr
    exact grayDensity_bounds settings hmi hma h0mi hminmax hg0 hg1
  · intro pt hpt
    obtain ⟨x, y, p, hpx, hpteq⟩ := mem_processMonochromePoints hpt
    rw [hpteq, mkPathPoint_density]
    obtain ⟨⟨hb0, hb1⟩, _⟩ := hpix p (pixelAt_mem hpx)
    have hnb0 : (0 : ℚ) ≤ (255 - p.brightness) / 255 := by
      apply div_nonneg <;> linarith
    have hnb1 : (255 - p.brightness) / 255 ≤ 1 := by
      rw [div_le_one (by norm_num : (0 : ℚ) < 255)]
      linarith
    exact interpDensity_cast_bounds settings hmi hma h0mi hminmax hnb0 hnb1
  · intro pt hpt
    obtain ⟨x, y, p, hpx, hv, hpteq⟩ := mem_processCMYKPointsFor hpt
    rw [hpteq, mkPathPoint_density]
    obtain ⟨_, ⟨hr0, hr1⟩, ⟨hg0, hg1⟩, hbb0, hbb1⟩ := hpix p (pixelAt_mem hpx)
    obtain ⟨hv0, hv1⟩ :=
      cmykChannelValue_range p.r p.g p.b channel hr0 hr1 hg0 hg1 hbb0 hbb1
    have hnb0 : (0 : ℚ) ≤ cmykChannelValue (rgbToCMYK p.r p.g p.b) channel / 255 :=
      div_nonneg hv0 (by norm_num)
    have hnb1 : cmykChannelValue (rgbToCMYK p.r p.g p.b) channel / 255 ≤ 1 := by
      rw [div_le_one (by norm_num : (0 : ℚ) < 255)]
      exact hv1
    exact interpDensity_cast_bounds settings hmi hma h0mi hminmax hnb0 hnb1
  · intro pt hpt
    obtain ⟨x, y, p, hpx, hpteq⟩ := mem_posterizePointsFor hpt
    rw [hpteq, mkPathPoint_density]
    obtain ⟨hc1a, hc1b, hc2a, hc2b, hc3a, hc3b⟩ :=
      findNearestCentroid_range hcents (p.r, p.g, p.b)
    set cent := findNearestCentroid (p.r, p.g, p.b) cents with hcent
    have hw0 : (0 : ℚ) ≤ cent.1 * 0.299 + cent.2.1 * 0.587 + cent.2.2 * 0.114 := by
      nlinarith
    have hw255 : cent.1 * 0.299 + cent.2.1 * 0.587 + cent.2.2 * 0.114 ≤ 255 := by
      nlinarith
    have hnb0 : (0 : ℚ) ≤
        (255 - (cent.1 * 0.299 + cent.2.1 * 0.587 + cent.2.2 * 0.114)) / 255 := by
      apply div_nonneg <;> linarith
    have hnb1 :
        (255 - (cent.1 * 0.299 + cent.2.1 * 0.587 + cent.2.2 * 0.114)) / 255 ≤ 1 := by
      rw [div_le_one (by norm_num : (0 : ℚ) < 255)]
      linarith
    exact interpDensity_cast_bounds settings hmi hma h0mi hminmax hnb0 hnb1
  · intro x1 y1 x2 y2 p1 p2 hx1 hy1 hpx1 hpx2 hb
    have hbb := brightnessRange_bounds imageData.pixels imageData.width
      imageData.height hx1 hy1 hpx1
    have hmle := le_trans hbb.1 hbb.2
    have hsorted := grayLevels_pairwise_le hn hmle
    have hne : grayLevels settings.colorsAmt
        (brightnessRange imageData.pixels imageData.width imageData.height).1
        (brightnessRange imageData.pixels imageData.width imageData.height).2 ≠ [] := by
      have hlen := grayLevels_length settings.colorsAmt
        (brightnessRange imageData.pixels imageData.width imageData.height).1
        (brightnessRange imageData.pixels imageData.width imageData.height).2
      intro hc
      rw [hc] at hlen
      simp at hlen
      omega
    have hng := nearestGray_mono_sorted hne hsorted hb
    exact grayDensity_anti_mono settings hminmax (jsRound_mono hng)
  · intro b1 b2 hb
    have hdiv : (255 - b2) / 255 ≤ (255 - b1) / 255 := by
      apply div_le_div_of_nonneg_right (by linarith) (by norm_num)
    exact_mod_cast interpDensity_mono hminmax hdiv

/-- Claim C4 witness: the monochrome monotonicity conjunct applied to a
1×1 image holding one mid-gray pixel, densities 2..5, at brightnesses 0
and 100. -/
theorem c4_density_witness :
    ((interpDensity (2 : ℚ) (5 : ℚ) (((255 : ℚ) - 100) / 255) : ℤ) : ℚ) ≤
    ((interpDensity (2 : ℚ) (5 : ℚ) (((255 : ℚ) - 0) / 255) : ℤ) : ℚ) :=
  (c4_density_bounds_and_monotonicity
    { width := 1, height := 1,
      pixels := [{ x := 0, y := 0, brightness := 100, r := 100, g := 100,
                   b := 100, a := 255 }],
      originalWidth := 1, originalHeight := 1, resizedWidth := 1,
      resizedHeight := 1, outputWidth := 560, outputHeight := 560,
      columnsCount := 1, rowsCount := 1, tileWidth := 560, tileHeight := 560,
      colorGroups := [] }
    { gridSize := 10, gridSizeX := 10, gridSizeY := 10,
      brightnessThreshold := 255, minDensity := 2, maxDensity := 5,
      rowsCount := 1, columnsCount := 1, invert := false,
      continuousPaths := true, curvedPaths := false,
      pathDistanceThreshold := 10,
      processingMode := ProcessingMode.grayscale, colorsAmt := 2,
      monochromeColor := "#000000", visiblePaths := fun _ => none }
    [] "magenta" "color-0-0-0" 2 5
    (by norm_num) (by norm_num) (by norm_num) (by norm_num) (by norm_num)
    (by
      intro p hp
      rcases List.mem_cons.mp hp with rfl | hp2
      · norm_num
      · exact absurd hp2 (List.not_mem_nil p))
    (by
      intro c hc
      exact absurd hc (List.not_mem_nil c))).2.2.2.2.2 0 100 (by norm_num)

/-! Claim C8: decimal rendering of nonnegative integers is injective, so
distinct integer centroids get distinct `color-r-g-b` record keys. -/

theorem digitChar_spec {r : ℕ} (h : r < 10) :
    (Nat.digitChar r).toNat - 48 = r ∧ Nat.digitChar r ≠ '-' := by
  interval_cases r <;> exact ⟨by decide, by decide⟩

theorem toDigitsCore_succ (fuel n : ℕ) (ds : List Char) :
    Nat.toDigitsCore 10 (fuel + 1) n ds =
      if n / 10 = 0 then Nat.digitChar (n % 10) :: ds
      else Nat.toDigitsCore 10 fuel (n / 10) (Nat.digitChar (n % 10) :: ds) := by
  conv_lhs => unfold Nat.toDigitsCore

theorem digitsVal_toDigitsCore :
    ∀ (fuel n : ℕ) (ds : List Char), n < 10 ^ fuel →
      digitsVal (Nat.toDigitsCore 10 fuel n ds) 0 = digitsVal ds n := by
  intro fuel
  induction fuel with
  | zero =>
    intro n ds h
    interval_cases n
    rfl
  | succ f ih =>
    intro n ds h
    rw [toDigitsCore_succ]
    have hmod : n % 10 < 10 := Nat.mod_lt n (by norm_num)
    obtain ⟨hval, _⟩ := digitChar_spec hmod
    by_cases hdiv : n / 10 = 0
    · rw [if_pos hdiv]
      show digitsVal (Nat.digitChar (n % 10) :: ds) 0 = digitsVal ds n
      unfold digitsVal
      rw [List.foldl_cons]
      have heq : 10 * 0 + ((Nat.digitChar (n % 10)).toNat - 48) = n := by
        rw [hval]
        omega
      rw [heq]
    · rw [if_neg hdiv]
      have hlt : n / 10 < 10 ^ f := by
        rw [pow_succ] at h
        exact (Nat.div_lt_iff_lt_mul (by norm_num)).mpr h
      rw [ih (n / 10) (Nat.digitChar (n % 10) :: ds) hlt]
      show digitsVal (Nat.digitChar (n % 10) :: ds) (n / 10) = digitsVal ds n
      unfold digitsVal
      rw [List.foldl_cons]
      have heq : 10 * (n / 10) + ((Nat.digitChar (n % 10)).toNat - 48) = n := by
        rw [hval]
        omega
      rw [heq]

theorem toDigitsCore_no_dash :
    ∀ (fuel n : ℕ) (ds : List Char), (∀ c ∈ ds, c ≠ '-') →
      ∀ c ∈ Nat.toDigitsCore 10 fuel n ds, c ≠ '-' := by
  intro fuel
  induction fuel with
  | zero => intro n ds hds c hc; exact hds c hc
  | succ f ih =>
    intro n ds hds c hc
    rw [toDigitsCore_succ] at hc
    have hmod : n % 10 < 10 := Nat.mod_lt n (by norm_num)
    have hdc : Nat.digitChar (n % 10) ≠ '-' := (digitChar_spec hmod).2
    by_cases hdiv : n / 10 = 0
    · rw [if_pos hdiv] at hc
      rcases List.mem_cons.mp hc with rfl | hc2
      · exact hdc
      · exact hds c hc2
    · rw [if_neg hdiv] at hc
      refine ih (n / 10) _ ?_ c hc
      intro d hd
      rcases List.mem_cons.mp hd with rfl | hd2
      · exact hdc
      · exact hds d hd2

theorem natRepr_inj {a b : ℕ} (h : Nat.repr a = Nat.repr b) : a = b := by
  have hdata : Nat.toDigits 10 a = Nat.toDigits 10 b := congrArg String.data h
  have ha : a < 10 ^ (a + 1) :=
    lt_of_lt_of_le (Nat.lt_pow_self (by norm_num) a)
      (Nat.pow_le_pow_right (by norm_num) (Nat.le_succ a))
  have hb : b < 10 ^ (b + 1) :=
    lt_of_lt_of_le (Nat.lt_pow_self (by norm_num) b)
      (Nat.pow_le_pow_right (by norm_num) (Nat.le_succ b))
  have h1 : digitsVal (Nat.toDigits 10 a) 0 = a := digitsVal_toDigitsCore (a + 1) a [] ha
  have h2 : digitsVal (Nat.toDigits 10 b) 0 = b := digitsVal_toDigitsCore (b + 1) b [] hb
  rw [← h1, ← h2, hdata]

theorem natRepr_no_dash (n : ℕ) : ∀ c ∈ (Nat.repr n).data, c ≠ '-' := by
  intro c hc
  exact toDigitsCore_no_dash (n + 1) n []
    (by intro d hd; exact absurd hd (List.not_mem_nil d)) c hc

theorem toString_int_nonneg (z : ℤ) (hz : 0 ≤ z) : toString z = Nat.repr z.toNat := by
  obtain ⟨m, rfl⟩ := Int.eq_ofNat_of_zero_le hz
  rfl

theorem jsNumToString_intCast (z : ℤ) : jsNumToString ((z : ℚ)) = toString z := by
  unfold jsNumToString
  rw [Rat.den_intCast, if_pos rfl, Rat.num_intCast]

theorem append_dash_inj : ∀ {a a2 b b2 : List Char},
    (∀ c ∈ a, c ≠ '-') → (∀ c ∈ a2, c ≠ '-') →
    a ++ '-' :: b = a2 ++ '-' :: b2 → a = a2 ∧ b = b2 := by
  intro a
  induction a with
  | nil =>
    intro a2 b b2 ha ha2 h
    cases a2 with
    | nil =>
      rw [List.nil_append, List.nil_append] at h
      injection h with h1 h2
      exact ⟨rfl, h2⟩
    | cons x t =>
      rw [List.nil_append, List.cons_append] at h
      injection h with h1 h2
      exact absurd h1.symm (ha2 x (List.mem_cons_self x t))
  | cons y t ih =>
    intro a2 b b2 ha ha2 h
    cases a2 with
    | nil =>
      rw [List.cons_append, List.nil_append] at h
      injection h with h1 h2
      exact absurd h1 (ha y (List.mem_cons_self y t))
    | cons x t2 =>
      rw [List.cons_append, List.cons_append] at h
      injection h with h1 h2
      obtain ⟨e1, e2⟩ := ih (fun c hc => ha c (List.mem_cons_of_mem y hc))
        (fun c hc => ha2 c (List.mem_cons_of_mem x hc)) h2
      exact ⟨by rw [h1, e1], e2⟩

theorem centroidKey_inj {z1 z2 z3 w1 w2 w3 : ℤ}
    (h1 : 0 ≤ z1) (h2 : 0 ≤ z2) (h3 : 0 ≤ z3)
    (h4 : 0 ≤ w1) (h5 : 0 ≤ w2) (h6 : 0 ≤ w3)
    (h : centroidKey ((z1 : ℚ), (z2 : ℚ), (z3 : ℚ)) =
         centroidKey ((w1 : ℚ), (w2 : ℚ), (w3 : ℚ))) :
    z1 = w1 ∧ z2 = w2 ∧ z3 = w3 := by
  unfold centroidKey at h
  simp only [jsNumToString_intCast] at h
  rw [toString_int_nonneg z1 h1, toString_int_nonneg z2 h2, toString_int_nonneg z3 h3,
    toString_int_nonneg w1 h4, toString_int_nonneg w2 h5, toString_int_nonneg w3 h6] at h
  have hd := congrArg String.data h
  simp only [String.data_append, List.append_assoc] at hd
  simp only [List.singleton_append] at hd
  have hcored := List.append_cancel_left hd
  obtain ⟨e1, erest⟩ := append_dash_inj (natRepr_no_dash _) (natRepr_no_dash _) hcored
  obtain ⟨e2, e3⟩ := append_dash_inj (natRepr_no_dash _) (natRepr_no_dash _) erest
  have g1 : z1.toNat = w1.toNat := natRepr_inj (String.ext e1)
  have g2 : z2.toNat = w2.toNat := natRepr_inj (String.ext e2)
  have g3 : z3.toNat = w3.toNat := natRepr_inj (String.ext e3)
  omega

theorem colorDistanceSq_nonneg (a b : Color) : 0 ≤ colorDistanceSq a b := by
  unfold colorDistanceSq
  positivity

theorem colorDistanceSq_self (a : Color) : colorDistanceSq a a = 0 := by
  unfold colorDistanceSq
  ring

theorem colorDistanceSq_pos_of_ne {a b : Color} (h : a ≠ b) :
    0 < colorDistanceSq a b := by
  obtain ⟨a1, a2, a3⟩ := a
  obtain ⟨b1, b2, b3⟩ := b
  rcases lt_or_eq_of_le (colorDistanceSq_nonneg (a1, a2, a3) (b1, b2, b3)) with hlt | heq
  · exact hlt
  · exfalso
    apply h
    unfold colorDistanceSq at heq
    simp only [Prod.mk.injEq]
    refine ⟨?_, ?_, ?_⟩ <;>
      nlinarith [sq_nonneg (a1 - b1), sq_nonneg (a2 - b2), sq_nonneg (a3 - b3)]

theorem findNearestStep_none (c : Color) (i cnt : ℕ) (cent : Color) :
    findNearestStep c ((none : Option ℚ), i, cnt) cent =
      ((some (colorDistanceSq c cent) : Option ℚ), cnt, cnt + 1) := rfl

theorem findNearest_keep_zero (c : Color) :
    ∀ (l : List Color) (j cnt : ℕ),
      (l.foldl (findNearestStep c) ((some 0 : Option ℚ), j, cnt)).2.1 = j := by
  intro l
  induction l with
  | nil => intro j cnt; rfl
  | cons d rest ih =>
    intro j cnt
    rw [List.foldl_cons, findNearestStep_some]
    rw [if_neg (not_lt.mpr (colorDistanceSq_nonneg c d))]
    exact ih j (cnt + 1)

theorem findNearest_prefix (c : Color) :
    ∀ pre : List Color, (∀ x ∈ pre, x ≠ c) →
      (pre.foldl (findNearestStep c) ((none : Option ℚ), 0, 0)).2.2 = pre.length ∧
      ((pre.foldl (findNearestStep c) ((none : Option ℚ), 0, 0)).1 = none ∨
       ∃ m, (pre.foldl (findNearestStep c) ((none : Option ℚ), 0, 0)).1 = some m ∧
         0 < m) := by
  intro pre
  induction pre using List.reverseRecOn with
  | nil => intro hp; exact ⟨rfl, Or.inl rfl⟩
  | append_singleton l a ih =>
    intro hp
    obtain ⟨hcnt, hst⟩ := ih (fun x hx => hp x (List.mem_append_left _ hx))
    have ha : a ≠ c := hp a (List.mem_append_right _ (List.mem_singleton.mpr rfl))
    have had : 0 < colorDistanceSq c a := by
      have : c ≠ a := fun hc => ha hc.symm
      exact colorDistanceSq_pos_of_ne this
    rw [List.foldl_append, List.foldl_cons, List.foldl_nil]
    rcases hfold : l.foldl (findNearestStep c) ((none : Option ℚ), 0, 0)
      with ⟨st1, st2, st3⟩
    rw [hfold] at hcnt hst
    simp only at hcnt hst
    rcases hst with hnone | ⟨m, hsome, hm⟩
    · rw [hnone, findNearestStep_none]
      rw [List.length_append, List.length_singleton]
      exact ⟨by simpa using hcnt, Or.inr ⟨colorDistanceSq c a, rfl, had⟩⟩
    · rw [hsome, findNearestStep_some]
      rw [List.length_append, List.length_singleton]
      by_cases hlt : colorDistanceSq c a < m
      · rw [if_pos hlt]
        exact ⟨by simpa using hcnt, Or.inr ⟨colorDistanceSq c a, rfl, had⟩⟩
      · rw [if_neg hlt]
        exact ⟨by simpa using hcnt, Or.inr ⟨m, rfl, hm⟩⟩

theorem findNearestCentroidIndex_first (c : Color) (pre post : List Color)
    (hpre : ∀ x ∈ pre, x ≠ c) :
    findNearestCentroidIndex c (pre ++ c :: post) = pre.length := by
  unfold findNearestCentroidIndex
  rw [List.foldl_append, List.foldl_cons]
  obtain ⟨hcnt, hst⟩ := findNearest_prefix c pre hpre
  rcases hfold : pre.foldl (findNearestStep c) ((none : Option ℚ), 0, 0)
    with ⟨st1, st2, st3⟩
  rw [hfold] at hcnt hst
  simp only at hcnt hst
  subst hcnt
  rcases hst with hnone | ⟨m, hsome, hm⟩
  · subst hnone
    rw [findNearestStep_none, colorDistanceSq_self]
    exact findNearest_keep_zero c post pre.length (pre.length + 1)
  · subst hsome
    rw [findNearestStep_some, colorDistanceSq_self, if_pos hm]
    exact findNearest_keep_zero c post pre.length (pre.length + 1)

theorem exists_first_split {α : Type} {l : List α} {a : α} (h : a ∈ l) :
    ∃ pre post, l = pre ++ a :: post ∧ ∀ x ∈ pre, x ≠ a := by
  classical
  induction l with
  | nil => exact absurd h (List.not_mem_nil a)
  | cons b t ih =>
    by_cases hba : b = a
    · exact ⟨[], t, by rw [hba, List.nil_append],
        by intro x hx; exact absurd hx (List.not_mem_nil x)⟩
    · have hat : a ∈ t := by
        rcases List.mem_cons.mp h with h1 | h2
        · exact absurd h1.symm hba
        · exact h2
      obtain ⟨pre, post, heq, hpre⟩ := ih hat
      refine ⟨b :: pre, post, by rw [heq]; rfl, ?_⟩
      intro x hx
      rcases List.mem_cons.mp hx with rfl | hx2
      · exact hba
      · exact hpre x hx2

theorem getElem_append_middle {α : Type} (pre : List α) (a : α) (post : List α)
    (h : pre.length < (pre ++ a :: post).length) :
    (pre ++ a :: post)[pre.length] = a := by
  rw [List.getElem_append_right (le_refl pre.length)]
  simp

theorem findNearestCentroidIndex_getD {x : Color} {cs : List Color}
    (hx : x ∈ cs) :
    findNearestCentroidIndex x cs < cs.length ∧
      cs.getD (findNearestCentroidIndex x cs) (0, 0, 0) = x := by
  obtain ⟨pre, post, heq, hpre⟩ := exists_first_split hx
  subst heq
  rw [findNearestCentroidIndex_first x pre post hpre]
  have hb : pre.length < (pre ++ x :: post).length := by
    rw [List.length_append, List.length_cons]
    omega
  refine ⟨hb, ?_⟩
  rw [List.getD_eq_getElem _ _ hb]
  exact getElem_append_middle pre x post hb

theorem clusterAppend_length (clusters : List (List Color)) (i : ℕ) (c : Color) :
    (clusterAppend clusters i c).length = clusters.length := by
  unfold clusterAppend
  exact List.length_set clusters i _

theorem assignClusters_length (cols : List Color) (k : ℕ) (cents : List Color) :
    (assignClusters cols k cents).length = k := by
  unfold assignClusters
  refine foldl_preserve (fun cl : List (List Color) => cl.length = k) _ ?_ cols _ ?_
  · intro a x ha
    rw [clusterAppend_length]
    exact ha
  · exact List.length_replicate k []

theorem foldl_clusters_getD (cents : List Color) (j : ℕ) :
    ∀ (cols : List Color) (clusters : List (List Color)), j < clusters.length →
      (cols.foldl
        (fun cl c => clusterAppend cl (findNearestCentroidIndex c cents) c)
        clusters).getD j [] =
      clusters.getD j [] ++
        cols.filter (fun c => findNearestCentroidIndex c cents = j) := by
  intro cols
  induction cols with
  | nil =>
    intro clusters hj
    rw [List.foldl_nil, List.filter_nil, List.append_nil]
  | cons c rest ih =>
    intro clusters hj
    rw [List.foldl_cons, List.filter_cons]
    have hlen : j <
        (clusterAppend clusters (findNearestCentroidIndex c cents) c).length := by
      rw [clusterAppend_length]
      exact hj
    rw [ih _ hlen]
    by_cases hij : findNearestCentroidIndex c cents = j
    · rw [if_pos (by simp [hij])]
      rw [hij]
      unfold clusterAppend
      rw [List.getD_eq_getElem _ _ (by rw [List.length_set]; exact hj)]
      rw [List.getElem_set_self (by rw [List.length_set]; exact hj)]
      rw [List.append_assoc, List.singleton_append]
    · rw [if_neg (by simp [hij])]
      unfold clusterAppend
      rw [List.getD_eq_getElem _ _ (by rw [List.length_set]; exact hj)]
      rw [List.getElem_set_ne (fun h => hij h)]
      rw [← List.getD_eq_getElem _ _ hj]

theorem assignClusters_getD (cols : List Color) (k : ℕ) (cents : List Color)
    {j : ℕ} (hj : j < k) :
    (assignClusters cols k cents).getD j [] =
      cols.filter (fun c => findNearestCentroidIndex c cents = j) := by
  unfold assignClusters
  rw [foldl_clusters_getD cents j cols (List.replicate k [])
    (by rw [List.length_replicate]; exact hj)]
  rw [List.getD_eq_getElem _ _ (by rw [List.length_replicate]; exact hj)]
  rw [List.getElem_replicate, List.nil_append]

theorem filter_eq_singleton_of {α : Type} {l : List α} {p : α → Bool} {c : α}
    (hnd : l.Nodup) (hc : c ∈ l) (hpc : p c = true)
    (hall : ∀ x ∈ l, p x = true → x = c) :
    l.filter p = [c] := by
  induction l with
  | nil => exact absurd hc (List.not_mem_nil c)
  | cons a t ih =>
    rw [List.filter_cons]
    rcases List.mem_cons.mp hc with rfl | hct
    · rw [if_pos hpc]
      have hfilt : t.filter p = [] := by
        rw [List.filter_eq_nil_iff]
        intro x hx hpx
        have hxa := hall x (List.mem_cons_of_mem _ hx) hpx
        subst hxa
        exact (List.nodup_cons.mp hnd).1 hx
      rw [hfilt]
    · have hac : a ≠ c := by
        intro heq
        subst heq
        exact (List.nodup_cons.mp hnd).1 hct
      have hpa : ¬(p a = true) := fun hpa => hac (hall a (List.mem_cons_self a t) hpa)
      rw [if_neg hpa]
      exact ih (List.nodup_cons.mp hnd).2 hct
        (fun x hx hpx => hall x (List.mem_cons_of_mem a hx) hpx)

theorem averageColor_singleton (c : Color) : averageColor [c] = c := by
  obtain ⟨c1, c2, c3⟩ := c
  unfold averageColor
  simp

theorem updateCentroids_eq_self {uc init2 : List Color} {k : ℕ}
    (hnd : uc.Nodup) (hlen : init2.length = k)
    (hsub : ∀ c ∈ uc, c ∈ init2) :
    updateCentroids uc k init2 = init2 := by
  have hkl : (assignClusters uc k init2).length = k := assignClusters_length uc k init2
  apply List.ext_getElem
  · unfold updateCentroids
    rw [List.length_map, List.enum_length, hkl, hlen]
  · intro j hj1 hj2
    have hjk : j < k := by rw [hlen] at hj2; exact hj2
    unfold updateCentroids
    rw [List.getElem_map, List.getElem_enum]
    have hja : j < (assignClusters uc k init2).length := by rw [hkl]; exact hjk
    have hgetd : (assignClusters uc k init2)[j] =
        (assignClusters uc k init2).getD j [] := by
      rw [List.getD_eq_getElem _ _ hja]
    simp only [hgetd, assignClusters_getD uc k init2 hjk]
    by_cases hemp : uc.filter (fun c => findNearestCentroidIndex c init2 = j) = []
    · rw [if_pos hemp, List.getD_eq_getElem _ _ hj2]
    · rw [if_neg hemp]
      obtain ⟨c, hcmem⟩ := List.exists_mem_of_ne_nil _ hemp
      obtain ⟨hcuc, hcp⟩ := List.mem_filter.mp hcmem
      have hcj : findNearestCentroidIndex c init2 = j := of_decide_eq_true hcp
      have hsingle :
          uc.filter (fun c => findNearestCentroidIndex c init2 = j) = [c] := by
        refine filter_eq_singleton_of hnd hcuc hcp ?_
        intro x hx hpx
        have hxj : findNearestCentroidIndex x init2 = j := of_decide_eq_true hpx
        obtain ⟨hbx, hgx⟩ := findNearestCentroidIndex_getD (hsub x hx)
        obtain ⟨hbc, hgc⟩ := findNearestCentroidIndex_getD (hsub c hcuc)
        rw [hxj] at hgx
        rw [hcj] at hgc
        rw [← hgx, ← hgc]
      rw [hsingle, averageColor_singleton]
      obtain ⟨hbc, hgc⟩ := findNearestCentroidIndex_getD (hsub c hcuc)
      rw [hcj] at hgc
      rw [List.getD_eq_getElem _ _ hj2] at hgc
      exact hgc.symm

theorem zip_self {α : Type} : ∀ l : List α, List.zip l l = l.map fun x => (x, x) := by
  intro l
  induction l with
  | nil => rfl
  | cons a t ih => rw [List.zip_cons_cons, ih, List.map_cons]

theorem centroidsEqualQ_self (l : List Color) : centroidsEqualQ l l = true := by
  unfold centroidsEqualQ
  rw [Bool.and_eq_true]
  refine ⟨by simp, ?_⟩
  rw [List.all_eq_true]
  intro p hp
  rw [zip_self] at hp
  obtain ⟨x, _, rfl⟩ := List.mem_map.mp hp
  norm_num

theorem kMeansLoop_fixed {cols init2 : List Color} {k : ℕ}
    (hne0 : init2 ≠ [])
    (hupd : updateCentroids cols k init2 = init2) :
    kMeansLoop cols k 10 init2 [] = init2 := by
  have h0 : init2.length ≠ 0 := by
    intro hc
    exact hne0 (List.length_eq_zero.mp hc)
  have hneq : centroidsEqualQ init2 [] = false := by
    unfold centroidsEqualQ
    simp [h0]
  show kMeansLoop cols k (9 + 1) init2 [] = init2
  unfold kMeansLoop
  simp only [hneq, Bool.false_eq_true, if_false]
  rw [hupd]
  show kMeansLoop cols k (8 + 1) init2 init2 = init2
  unfold kMeansLoop
  rw [if_pos (centroidsEqualQ_self init2)]

theorem sampleColors_eq_self {colors : List Color} (h : colors.length ≤ 10000) :
    sampleColors colors = colors := by
  unfold sampleColors
  rw [if_neg (not_lt.mpr h)]

theorem pickLoop_length (rand : ℕ → ℕ) :
    ∀ (fuel i : ℕ) (copy : List Color),
      (pickLoop rand i fuel copy).length = min fuel copy.length := by
  intro fuel
  induction fuel with
  | zero => intro i copy; simp [pickLoop]
  | succ f ih =>
    intro i copy
    unfold pickLoop
    by_cases hemp : copy.isEmpty
    · rw [if_pos hemp]
      rw [List.isEmpty_iff.mp hemp]
      simp
    · rw [if_neg hemp]
      have hlen : 0 < copy.length := by
        rcases copy with _ | ⟨x, t⟩
        · simp at hemp
        · simp
      have hidx : rand i % copy.length < copy.length := Nat.mod_lt _ hlen
      rw [List.length_cons, ih]
      have := List.length_eraseIdx_add_one hidx
      omega

theorem pickLoop_perm (rand : ℕ → ℕ) :
    ∀ (fuel : ℕ) (copy : List Color) (i : ℕ), copy.length ≤ fuel →
      (pickLoop rand i fuel copy).Perm copy := by
  intro fuel
  induction fuel with
  | zero =>
    intro copy i h
    have hc : copy = [] := List.length_eq_zero.mp (Nat.le_zero.mp h)
    subst hc
    exact List.Perm.refl _
  | succ f ih =>
    intro copy i h
    unfold pickLoop
    by_cases hemp : copy.isEmpty
    · rw [if_pos hemp]
      rw [List.isEmpty_iff.mp hemp]
    · rw [if_neg hemp]
      have hlen : 0 < copy.length := by
        rcases copy with _ | ⟨x, t⟩
        · simp at hemp
        · simp
      have hidx : rand i % copy.length < copy.length := Nat.mod_lt _ hlen
      have hrec := ih (copy.eraseIdx (rand i % copy.length)) (i + 1) (by
        have := List.length_eraseIdx_add_one hidx
        omega)
      have hgd : copy.getD (rand i % copy.length) (0, 0, 0) =
          copy[rand i % copy.length] := List.getD_eq_getElem _ _ hidx
      show (copy.getD (rand i % copy.length) (0, 0, 0) ::
        pickLoop rand (i + 1) f (copy.eraseIdx (rand i % copy.length))).Perm copy
      rw [hgd]
      refine List.Perm.trans (List.Perm.cons _ hrec) ?_
      refine List.Perm.trans (List.Perm.cons _ (List.erase_getElem hidx).symm) ?_
      exact (List.perm_cons_erase (List.getElem_mem hidx)).symm

theorem padCentroids_of_le {k : ℕ} {c : List Color} (hne : c ≠ [])
    (hle : c.length ≤ k) :
    padCentroids k c =
      some (c ++ List.replicate (k - c.length) (c.getLast hne)) := by
  unfold padCentroids
  by_cases hk : k ≤ c.length
  · rw [if_pos hk]
    have : k - c.length = 0 := by omega
    rw [this, List.replicate_zero, List.append_nil]
  · rw [if_neg hk]
    rw [List.getLast?_eq_getLast c hne]

theorem padCentroids_length {k : ℕ} {c res : List Color}
    (h : padCentroids k c = some res) (hle : c.length ≤ k) :
    res.length = k := by
  unfold padCentroids at h
  by_cases hk : k ≤ c.length
  · rw [if_pos hk] at h
    rw [← Option.some.inj h]
    omega
  · rw [if_neg hk] at h
    rcases hl : c.getLast? with _ | last
    · rw [hl] at h
      exact Option.noConfusion h
    · rw [hl] at h
      rw [← Option.some.inj h]
      rw [List.length_append, List.length_replicate]
      omega

theorem uniqueColors_nodup (pixels : List PixelData) (w h : ℕ) :
    (uniqueColors pixels w h).Nodup := by
  unfold uniqueColors
  refine foldl_preserve (fun acc : List Color => acc.Nodup) _ ?_
    (cellsRowMajor w h) [] List.nodup_nil
  intro acc yx hacc
  rcases hpx : pixelAt pixels yx.2 yx.1 with _ | p
  · simpa only [hpx] using hacc
  · simp only [hpx]
    split
    · exact hacc
    · next hmem =>
      rw [List.nodup_append]
      refine ⟨hacc, List.nodup_singleton _, ?_⟩
      intro a ha hb
      have heq := List.mem_singleton.mp hb
      subst heq
      exact hmem ha

theorem jsObjectKeys_foldl_of_mem (ks : List String) :
    ∀ acc : List String, (∀ x ∈ ks, x ∈ acc) →
      ks.foldl (fun acc k => if k ∈ acc then acc else acc ++ [k]) acc = acc := by
  induction ks with
  | nil => intro acc h; rfl
  | cons x t ih =>
    intro acc h
    rw [List.foldl_cons, if_pos (h x (List.mem_cons_self x t))]
    exact ih acc (fun y hy => h y (List.mem_cons_of_mem x hy))

theorem jsObjectKeys_foldl_nodup (ks : List String) :
    ∀ acc : List String, ks.Nodup → (∀ x ∈ ks, x ∉ acc) →
      ks.foldl (fun acc k => if k ∈ acc then acc else acc ++ [k]) acc =
        acc ++ ks := by
  induction ks with
  | nil => intro acc _ _; rw [List.foldl_nil, List.append_nil]
  | cons x t ih =>
    intro acc hnd hmem
    rw [List.foldl_cons, if_neg (hmem x (List.mem_cons_self x t))]
    rw [ih (acc ++ [x]) (List.nodup_cons.mp hnd).2 ?_]
    · rw [List.append_assoc, List.singleton_append]
    · intro y hy hyacc
      rcases List.mem_append.mp hyacc with h1 | h2
      · exact hmem y (List.mem_cons_of_mem x hy) h1
      · rw [List.mem_singleton.mp h2] at hy
        exact (List.nodup_cons.mp hnd).1 hy

theorem jsObjectKeys_nodup_prefix {ks1 ks2 : List String} (hnd : ks1.Nodup)
    (hsub : ∀ x ∈ ks2, x ∈ ks1) :
    jsObjectKeys (ks1 ++ ks2) = ks1 := by
  unfold jsObjectKeys
  rw [List.foldl_append]
  rw [jsObjectKeys_foldl_nodup ks1 [] hnd
    (fun x _ hx => absurd hx (List.not_mem_nil x))]
  rw [List.nil_append]
  exact jsObjectKeys_foldl_of_mem ks2 ks1 hsub

theorem jsObjectKeys_length_le (ks : List String) :
    (jsObjectKeys ks).length ≤ ks.length := by
  unfold jsObjectKeys
  suffices h : ∀ acc : List String,
      (ks.foldl (fun acc k => if k ∈ acc then acc else acc ++ [k]) acc).length ≤
        acc.length + ks.length by
    simpa using h []
  induction ks with
  | nil => intro acc; simp
  | cons x t ih =>
    intro acc
    rw [List.foldl_cons]
    by_cases hx : x ∈ acc
    · rw [if_pos hx]
      have := ih acc
      rw [List.length_cons]
      omega
    · rw [if_neg hx]
      have := ih (acc ++ [x])
      rw [List.length_append, List.length_singleton] at this
      rw [List.length_cons]
      omega

theorem filterMap_get?_range {α : Type} (l : List α) :
    (List.range l.length).filterMap l.get? = l := by
  induction l using List.reverseRecOn with
  | nil => rfl
  | append_singleton t a ih =>
    rw [List.length_append, List.length_singleton, List.range_succ,
      List.filterMap_append]
    have h1 : (List.range t.length).filterMap (t ++ [a]).get? =
        (List.range t.length).filterMap t.get? := by
      refine List.filterMap_congr ?_
      intro j hj
      rw [List.mem_range] at hj
      exact List.get?_append hj
    have h2 : (t ++ [a]).get? t.length = some a := by
      rw [List.get?_append_right (le_refl _)]
      simp
    rw [h1, ih]
    simp [h2]

theorem sampleColors_nodup {l : List Color} (h : l.Nodup) :
    (sampleColors l).Nodup := by
  unfold sampleColors
  by_cases hlen : 10000 < l.length
  · rw [if_pos hlen]
    refine List.Nodup.filterMap ?_ (List.nodup_range _)
    intro a a' b hb hb'
    have hsome : l.get? (a * (l.length / 10000)) = some b := hb
    have hsome2 : l.get? (a' * (l.length / 10000)) = some b := hb'
    have hlt : a * (l.length / 10000) < l.length := by
      obtain ⟨hh, _⟩ := List.get?_eq_some.mp hsome
      exact hh
    have hij := List.get?_inj hlt h (hsome.trans hsome2.symm)
    have hstep : 1 ≤ l.length / 10000 :=
      (Nat.one_le_div_iff (by norm_num)).mpr (by omega)
    exact Nat.eq_of_mul_eq_mul_right (by omega) hij
  · rw [if_neg hlen]
    exact h

theorem sampleColors_ne_nil {l : List Color} (h : l ≠ []) :
    sampleColors l ≠ [] := by
  unfold sampleColors
  by_cases hlen : 10000 < l.length
  · rw [if_pos hlen]
    have hlpos : 0 < l.length := List.length_pos.mpr h
    have hstep : 1 ≤ l.length / 10000 :=
      (Nat.one_le_div_iff (by norm_num)).mpr (by omega)
    have hm : 0 < (l.length + l.length / 10000 - 1) / (l.length / 10000) :=
      Nat.div_pos (by omega) (by omega)
    intro hc
    have h0 : (0 : ℕ) ∈ List.range
        ((l.length + l.length / 10000 - 1) / (l.length / 10000)) :=
      List.mem_range.mpr hm
    have hf : l.get? (0 * (l.length / 10000)) = some (l.get ⟨0, hlpos⟩) := by
      rw [Nat.zero_mul]
      exact List.get?_eq_get hlpos
    have hmem : l.get ⟨0, hlpos⟩ ∈ (List.range
        ((l.length + l.length / 10000 - 1) / (l.length / 10000))).filterMap
          (fun j => l.get? (j * (l.length / 10000))) :=
      List.mem_filterMap.mpr ⟨0, h0, hf⟩
    rw [hc] at hmem
    exact absurd hmem (List.not_mem_nil _)
  · rw [if_neg hlen]
    exact h

theorem sampleColors_length_le (l : List Color) :
    (sampleColors l).length ≤ l.length := by
  unfold sampleColors
  by_cases hlen : 10000 < l.length
  · rw [if_pos hlen]
    have hstep : 1 ≤ l.length / 10000 :=
      (Nat.one_le_div_iff (by norm_num)).mpr (by omega)
    have h1 : ((List.range ((l.length + l.length / 10000 - 1) /
        (l.length / 10000))).filterMap
          (fun j => l.get? (j * (l.length / 10000)))).length ≤
        (List.range ((l.length + l.length / 10000 - 1) /
          (l.length / 10000))).length := List.length_filterMap_le _ _
    rw [List.length_range] at h1
    have h2 : (l.length + l.length / 10000 - 1) / (l.length / 10000) ≤
        l.length := by
      have hmul : l.length + l.length / 10000 - 1 <
          (l.length + 1) * (l.length / 10000) := by
        have h3 : l.length ≤ l.length * (l.length / 10000) :=
          Nat.le_mul_of_pos_right l.length (by omega)
        have h4 : (l.length + 1) * (l.length / 10000) =
            l.length * (l.length / 10000) + l.length / 10000 := by ring
        omega
      have := (Nat.div_lt_iff_lt_mul (by omega : 0 < l.length / 10000)).mpr hmul
      omega
    show (List.filterMap (fun j => l.get? (j * (l.length / 10000)))
      (List.range ((l.length + l.length / 10000 - 1) /
        (l.length / 10000)))).length ≤ l.length
    omega
  · rw [if_neg hlen]

theorem sampleColors_eq_self_of_lt {l : List Color} (h : l.length < 20000) :
    sampleColors l = l := by
  by_cases h1 : l.length ≤ 10000
  · exact sampleColors_eq_self h1
  · unfold sampleColors
    rw [if_pos (by omega)]
    have hstep : l.length / 10000 = 1 := by omega
    rw [hstep]
    simp only [Nat.mul_one, Nat.add_sub_cancel, Nat.div_one]
    exact filterMap_get?_range l

theorem kMeansClustering_some {colors : List Color} {k : ℕ} (rand : ℕ → ℕ)
    (hk : 0 < k) (hne : sampleColors colors ≠ []) :
    ∃ cents, kMeansClustering colors k rand = some cents ∧ cents.length = k := by
  have hlen : 0 < (sampleColors colors).length := List.length_pos.mpr hne
  have hplen : (pickLoop rand 0 k (sampleColors colors)).length =
      min k (sampleColors colors).length := pickLoop_length rand k 0 _
  have hp0 : pickLoop rand 0 k (sampleColors colors) ≠ [] := by
    intro hc
    rw [hc] at hplen
    simp at hplen
    omega
  have hle : (pickLoop rand 0 k (sampleColors colors)).length ≤ k := by omega
  have hpad := padCentroids_of_le hp0 hle
  refine ⟨(kMeansLoop (sampleColors colors) k 10
      (pickLoop rand 0 k (sampleColors colors) ++
        List.replicate (k - (pickLoop rand 0 k (sampleColors colors)).length)
          ((pickLoop rand 0 k (sampleColors colors)).getLast hp0)) []).map
      (fun c => ((jsRound c.1 : ℚ), (jsRound c.2.1 : ℚ), (jsRound c.2.2 : ℚ))),
    ?_, ?_⟩
  · unfold kMeansClustering
    simp only [hpad, Option.map_some']
  · rw [List.length_map]
    refine kMeansLoop_length _ k 10 _ [] ?_
    rw [List.length_append, List.length_replicate]
    omega

theorem kMeansClustering_sampled {uc : List Color} {k : ℕ} (rand : ℕ → ℕ)
    (hnd : (sampleColors uc).Nodup) (hne : sampleColors uc ≠ [])
    (hm : (sampleColors uc).length ≤ k)
    (hint : ∀ c ∈ sampleColors uc,
      (∃ z : ℤ, c.1 = (z : ℚ)) ∧ (∃ z : ℤ, c.2.1 = (z : ℚ)) ∧
      (∃ z : ℤ, c.2.2 = (z : ℚ))) :
    ∃ (init0 : List Color) (h0 : init0 ≠ []),
      init0.Perm (sampleColors uc) ∧
      kMeansClustering uc k rand =
        some (init0 ++ List.replicate (k - (sampleColors uc).length)
          (init0.getLast h0)) := by
  have hperm : (pickLoop rand 0 k (sampleColors uc)).Perm (sampleColors uc) :=
    pickLoop_perm rand k (sampleColors uc) 0 hm
  have hlen0 : (pickLoop rand 0 k (sampleColors uc)).length =
      (sampleColors uc).length := hperm.length_eq
  have hucpos : 0 < (sampleColors uc).length := List.length_pos.mpr hne
  have h0 : pickLoop rand 0 k (sampleColors uc) ≠ [] := by
    intro hc
    rw [hc] at hlen0
    simp at hlen0
    omega
  refine ⟨pickLoop rand 0 k (sampleColors uc), h0, hperm, ?_⟩
  have hpad : padCentroids k (pickLoop rand 0 k (sampleColors uc)) =
      some (pickLoop rand 0 k (sampleColors uc) ++
        List.replicate (k - (sampleColors uc).length)
          ((pickLoop rand 0 k (sampleColors uc)).getLast h0)) := by
    rw [padCentroids_of_le h0 (by rw [hlen0]; exact hm), hlen0]
  have hsub2 : ∀ c ∈ pickLoop rand 0 k (sampleColors uc) ++
      List.replicate (k - (sampleColors uc).length)
        ((pickLoop rand 0 k (sampleColors uc)).getLast h0),
      c ∈ sampleColors uc := by
    intro c hc
    rcases List.mem_append.mp hc with h1 | h2
    · exact hperm.mem_iff.mp h1
    · rw [List.eq_of_mem_replicate h2]
      exact hperm.mem_iff.mp (List.getLast_mem h0)
  have hlen2 : (pickLoop rand 0 k (sampleColors uc) ++
      List.replicate (k - (sampleColors uc).length)
        ((pickLoop rand 0 k (sampleColors uc)).getLast h0)).length = k := by
    rw [List.length_append, List.length_replicate, hlen0]
    omega
  have hupd := updateCentroids_eq_self hnd hlen2
    (fun c hc => List.mem_append_left _ (hperm.mem_iff.mpr hc))
  have hne2 : pickLoop rand 0 k (sampleColors uc) ++
      List.replicate (k - (sampleColors uc).length)
        ((pickLoop rand 0 k (sampleColors uc)).getLast h0) ≠ [] := by
    intro hc
    rw [hc] at hlen2
    simp at hlen2
    omega
  have hloop := kMeansLoop_fixed hne2 hupd
  have hmap : (pickLoop rand 0 k (sampleColors uc) ++
      List.replicate (k - (sampleColors uc).length)
        ((pickLoop rand 0 k (sampleColors uc)).getLast h0)).map
        (fun c => ((jsRound c.1 : ℚ), (jsRound c.2.1 : ℚ), (jsRound c.2.2 : ℚ))) =
      pickLoop rand 0 k (sampleColors uc) ++
        List.replicate (k - (sampleColors uc).length)
          ((pickLoop rand 0 k (sampleColors uc)).getLast h0) := by
    have hcongr := List.map_congr_left (l := pickLoop rand 0 k (sampleColors uc) ++
      List.replicate (k - (sampleColors uc).length)
        ((pickLoop rand 0 k (sampleColors uc)).getLast h0))
      (f := fun c : Color =>
        ((jsRound c.1 : ℚ), (jsRound c.2.1 : ℚ), (jsRound c.2.2 : ℚ)))
      (g := id) ?_
    · rw [hcongr, List.map_id]
    · intro c hc
      obtain ⟨⟨z1, hz1⟩, ⟨z2, hz2⟩, ⟨z3, hz3⟩⟩ := hint c (hsub2 c hc)
      obtain ⟨c1, c2, c3⟩ := c
      simp only at hz1 hz2 hz3
      show ((jsRound c1 : ℚ), (jsRound c2 : ℚ), (jsRound c3 : ℚ)) = (c1, c2, c3)
      rw [hz1, hz2, hz3, jsRound_intCast, jsRound_intCast, jsRound_intCast]
  unfold kMeansClustering
  simp only [hpad, Option.map_some', hloop, hmap]

theorem centroidKey_inj_on {uc : List Color}
    (hcomp : ∀ c ∈ uc,
      (∃ z : ℤ, 0 ≤ z ∧ c.1 = (z : ℚ)) ∧ (∃ z : ℤ, 0 ≤ z ∧ c.2.1 = (z : ℚ)) ∧
      (∃ z : ℤ, 0 ≤ z ∧ c.2.2 = (z : ℚ)))
    {x y : Color} (hx : x ∈ uc) (hy : y ∈ uc)
    (h : centroidKey x = centroidKey y) : x = y := by
  obtain ⟨⟨z1, hz1n, hz1⟩, ⟨z2, hz2n, hz2⟩, ⟨z3, hz3n, hz3⟩⟩ := hcomp x hx
  obtain ⟨⟨w1, hw1n, hw1⟩, ⟨w2, hw2n, hw2⟩, ⟨w3, hw3n, hw3⟩⟩ := hcomp y hy
  obtain ⟨x1, x2, x3⟩ := x
  obtain ⟨y1, y2, y3⟩ := y
  simp only at hz1 hz2 hz3 hw1 hw2 hw3
  subst hz1
  subst hz2
  subst hz3
  subst hw1
  subst hw2
  subst hw3
  obtain ⟨e1, e2, e3⟩ := centroidKey_inj hz1n hz2n hz3n hw1n hw2n hw3n h
  rw [e1, e2, e3]

/-- Claim C8 (amended): for a grid holding at least one sampled pixel, with
integer byte-range channels and `1 ≤ colorsAmt`, `processPosterize` returns a
record whose group count is at most `colorsAmt`, and equals the number of
distinct colors kept by the performance subsampling whenever the distinct
count is at most `colorsAmt`; below 20000 distinct colors the subsampling
keeps everything, giving exactly the number of distinct sampled colors.  (The
original claim fails on empty input, where the code throws instead of
returning zero groups, and its exact count `= colorsAmt` fails when rounded
final centroids collide.) -/
theorem c8_posterize_group_count
    (imageData : ImageDataM) (settings : Settings) (rand : ℕ → ℕ)
    (hk : 1 ≤ settings.colorsAmt)
    (hx : ∃ (x y : ℕ) (p : PixelData), x < imageData.width ∧ y < imageData.height ∧
      pixelAt imageData.pixels x y = some p)
    (hint : ∀ p ∈ imageData.pixels,
      (∃ z : ℤ, 0 ≤ z ∧ p.r = (z : ℚ)) ∧ (∃ z : ℤ, 0 ≤ z ∧ p.g = (z : ℚ)) ∧
      (∃ z : ℤ, 0 ≤ z ∧ p.b = (z : ℚ))) :
    ∃ gs, processPosterize imageData settings rand = some gs ∧
      gs.length ≤ settings.colorsAmt ∧
      ((uniqueColors imageData.pixels imageData.width imageData.height).length ≤
          settings.colorsAmt →
        gs.length =
          (sampleColors
            (uniqueColors imageData.pixels imageData.width imageData.height)).length) ∧
      ((uniqueColors imageData.pixels imageData.width imageData.height).length <
          20000 →
        sampleColors (uniqueColors imageData.pixels imageData.width imageData.height) =
          uniqueColors imageData.pixels imageData.width imageData.height) := by
  obtain ⟨x, y, p, hxw, hyh, hpx⟩ := hx
  have hucne : uniqueColors imageData.pixels imageData.width imageData.height ≠ [] :=
    uniqueColors_ne_nil hxw hyh hpx
  have hnd := uniqueColors_nodup imageData.pixels imageData.width imageData.height
  have hcomp : ∀ c ∈ uniqueColors imageData.pixels imageData.width imageData.height,
      (∃ z : ℤ, 0 ≤ z ∧ c.1 = (z : ℚ)) ∧ (∃ z : ℤ, 0 ≤ z ∧ c.2.1 = (z : ℚ)) ∧
      (∃ z : ℤ, 0 ≤ z ∧ c.2.2 = (z : ℚ)) := by
    intro c hc
    obtain ⟨q, hq, rfl⟩ := uniqueColors_subset_pixels imageData.pixels
      imageData.width imageData.height c hc
    exact hint q hq
  have hsnd : (sampleColors
      (uniqueColors imageData.pixels imageData.width imageData.height)).Nodup :=
    sampleColors_nodup hnd
  have hsne : sampleColors
      (uniqueColors imageData.pixels imageData.width imageData.height) ≠ [] :=
    sampleColors_ne_nil hucne
  have hscomp : ∀ c ∈ sampleColors
      (uniqueColors imageData.pixels imageData.width imageData.height),
      (∃ z : ℤ, 0 ≤ z ∧ c.1 = (z : ℚ)) ∧ (∃ z : ℤ, 0 ≤ z ∧ c.2.1 = (z : ℚ)) ∧
      (∃ z : ℤ, 0 ≤ z ∧ c.2.2 = (z : ℚ)) :=
    fun c hc => hcomp c (sampleColors_subset _ c hc)
  by_cases hm : (uniqueColors imageData.pixels imageData.width imageData.height).length ≤
      settings.colorsAmt
  · have hsm : (sampleColors
        (uniqueColors imageData.pixels imageData.width imageData.height)).length ≤
        settings.colorsAmt :=
      le_trans (sampleColors_length_le _) hm
    have hint3 : ∀ c ∈ sampleColors
        (uniqueColors imageData.pixels imageData.width imageData.height),
        (∃ z : ℤ, c.1 = (z : ℚ)) ∧ (∃ z : ℤ, c.2.1 = (z : ℚ)) ∧
        (∃ z : ℤ, c.2.2 = (z : ℚ)) := by
      intro c hc
      obtain ⟨⟨z1, _, h1⟩, ⟨z2, _, h2⟩, ⟨z3, _, h3⟩⟩ := hscomp c hc
      exact ⟨⟨z1, h1⟩, ⟨z2, h2⟩, ⟨z3, h3⟩⟩
    obtain ⟨init0, h0, hperm, hkm⟩ :=
      kMeansClustering_sampled rand hsnd hsne hsm hint3
    have hknodup : (init0.map centroidKey).Nodup := by
      refine List.Nodup.map_on ?_ (hperm.nodup_iff.mpr hsnd)
      intro x1 hx1 y1 hy1 hk1
      exact centroidKey_inj_on hscomp (hperm.mem_iff.mp hx1)
        (hperm.mem_iff.mp hy1) hk1
    have hkeys : jsObjectKeys ((init0 ++ List.replicate
        (settings.colorsAmt - (sampleColors (uniqueColors imageData.pixels
          imageData.width imageData.height)).length)
        (init0.getLast h0)).map centroidKey) = init0.map centroidKey := by
      rw [List.map_append, List.map_replicate]
      refine jsObjectKeys_nodup_prefix hknodup ?_
      intro s hs
      rw [List.eq_of_mem_replicate hs]
      exact List.mem_map_of_mem centroidKey (List.getLast_mem h0)
    have hlen2 : (init0 ++ List.replicate
        (settings.colorsAmt - (sampleColors (uniqueColors imageData.pixels
          imageData.width imageData.height)).length)
        (init0.getLast h0)).length = settings.colorsAmt := by
      rw [List.length_append, List.length_replicate, hperm.length_eq]
      omega
    have hne2 : init0 ++ List.replicate
        (settings.colorsAmt - (sampleColors (uniqueColors imageData.pixels
          imageData.width imageData.height)).length)
        (init0.getLast h0) ≠ [] := by
      intro hc
      rw [hc] at hlen2
      simp at hlen2
      omega
    refine ⟨(jsObjectKeys ((init0 ++ List.replicate
        (settings.colorsAmt - (sampleColors (uniqueColors imageData.pixels
          imageData.width imageData.height)).length)
        (init0.getLast h0)).map centroidKey)).map fun key =>
          (key, { color := "", displayName := "",
                  points := posterizePointsFor imageData settings
                    (init0 ++ List.replicate
                      (settings.colorsAmt - (sampleColors (uniqueColors
                        imageData.pixels imageData.width
                        imageData.height)).length)
                      (init0.getLast h0)) key }), ?_, ?_, ?_, ?_⟩
    · unfold processPosterize
      simp only [hkm]
      rw [if_neg (by rintro ⟨h1, _⟩; exact hne2 h1)]
    · rw [List.length_map, hkeys, List.length_map, hperm.length_eq]
      exact hsm
    · intro _
      rw [List.length_map, hkeys, List.length_map, hperm.length_eq]
    · intro h20
      exact sampleColors_eq_self_of_lt h20
  · obtain ⟨cents, hkm, hclen⟩ :=
      kMeansClustering_some (k := settings.colorsAmt) rand (by omega) hsne
    have hcsne : cents ≠ [] := by
      intro hc
      rw [hc] at hclen
      simp at hclen
      omega
    refine ⟨(jsObjectKeys (cents.map centroidKey)).map fun key =>
        (key, { color := "", displayName := "",
                points := posterizePointsFor imageData settings cents key }),
      ?_, ?_, ?_, ?_⟩
    · unfold processPosterize
      simp only [hkm]
      rw [if_neg (by rintro ⟨h1, _⟩; exact hcsne h1)]
    · rw [List.length_map]
      calc (jsObjectKeys (cents.map centroidKey)).length
          ≤ (cents.map centroidKey).length := jsObjectKeys_length_le _
        _ = settings.colorsAmt := by rw [List.length_map, hclen]
    · intro hc
      exact absurd hc hm
    · intro h20
      exact sampleColors_eq_self_of_lt h20

theorem c8cx_pick : pickLoop c8cxRand 0 2 c8cxColors = [(2, 1, 0), (1, 0, 0)] := by
  norm_num [pickLoop, c8cxRand, c8cxColors]

theorem c8cx_pad : padCentroids 2 [((2 : ℚ), (1 : ℚ), (0 : ℚ)), (1, 0, 0)] =
    some [(2, 1, 0), (1, 0, 0)] := by
  norm_num [padCentroids]

theorem c8cx_upd1 : updateCentroids c8cxColors 2 [(2, 1, 0), (1, 0, 0)] =
    [(1, 4 / 3, 0), (1 / 2, 1 / 2, 0)] := by
  norm_num [updateCentroids, assignClusters, clusterAppend,
    findNearestCentroidIndex, findNearestStep, colorDistanceSq, averageColor,
    c8cxColors, List.replicate, List.set, List.enum, List.enumFrom]
  exact ⟨by simp, by simp⟩

theorem c8cx_upd2 : updateCentroids c8cxColors 2
    [((1 : ℚ), (4 / 3 : ℚ), (0 : ℚ)), (1 / 2, 1 / 2, 0)] =
    [(1, 4 / 3, 0), (1 / 2, 1 / 2, 0)] := by
  norm_num [updateCentroids, assignClusters, clusterAppend,
    findNearestCentroidIndex, findNearestStep, colorDistanceSq, averageColor,
    c8cxColors, List.replicate, List.set, List.enum, List.enumFrom]

theorem c8cx_eq1 : centroidsEqualQ [((2 : ℚ), (1 : ℚ), (0 : ℚ)), (1, 0, 0)] []
    = false := by
  norm_num [centroidsEqualQ]

theorem c8cx_eq2 : centroidsEqualQ [((1 : ℚ), (4 / 3 : ℚ), (0 : ℚ)), (1 / 2, 1 / 2, 0)]
    [(2, 1, 0), (1, 0, 0)] = false := by
  norm_num [centroidsEqualQ]

theorem c8cx_eq3 : centroidsEqualQ [((1 : ℚ), (4 / 3 : ℚ), (0 : ℚ)), (1 / 2, 1 / 2, 0)]
    [(1, 4 / 3, 0), (1 / 2, 1 / 2, 0)] = true := by
  norm_num [centroidsEqualQ]

theorem c8cx_loop : kMeansLoop c8cxColors 2 10 [(2, 1, 0), (1, 0, 0)] [] =
    [(1, 4 / 3, 0), (1 / 2, 1 / 2, 0)] := by
  show kMeansLoop c8cxColors 2 (9 + 1) [(2, 1, 0), (1, 0, 0)] [] = _
  unfold kMeansLoop
  rw [if_neg (by rw [c8cx_eq1]; exact Bool.false_ne_true), c8cx_upd1]
  show kMeansLoop c8cxColors 2 (8 + 1) [(1, 4 / 3, 0), (1 / 2, 1 / 2, 0)]
    [(2, 1, 0), (1, 0, 0)] = _
  unfold kMeansLoop
  rw [if_neg (by rw [c8cx_eq2]; exact Bool.false_ne_true), c8cx_upd2]
  show kMeansLoop c8cxColors 2 (7 + 1) [(1, 4 / 3, 0), (1 / 2, 1 / 2, 0)]
    [(1, 4 / 3, 0), (1 / 2, 1 / 2, 0)] = _
  unfold kMeansLoop
  rw [if_pos c8cx_eq3]

theorem c8cx_km : kMeansClustering c8cxColors 2 c8cxRand =
    some [(1, 1, 0), (1, 1, 0)] := by
  unfold kMeansClustering
  have hs : sampleColors c8cxColors = c8cxColors := by
    norm_num [sampleColors, c8cxColors]
  simp only [hs, c8cx_pick, c8cx_pad, Option.map_some', c8cx_loop]
  norm_num [jsRound]

theorem c8cx_uc : uniqueColors c8cxImage.pixels c8cxImage.width c8cxImage.height =
    c8cxColors := by decide

/-- Claim C8, counterexample.  First conjunct: on a grid with no sampled
pixels and `colorsAmt = 1` the claim demands zero color groups (zero distinct
colors is smaller than `colorsAmt`), but `kMeansClustering` spreads
`centroids[centroids.length - 1]`, i.e. `undefined`, and throws a `TypeError`
(modelled as `none`).  Remaining conjuncts: the 5×1 image with the five
distinct colors of `c8cxColors` and `colorsAmt = 2` must, per the claim, give
exactly 2 groups (5 ≥ 2), yet the k-means run converges to centroids
(1, 4/3, 0) and (1/2, 1/2, 0), which both round to (1, 1, 0), so the two
groups share the record key `color-1-1-0` and `processPosterize` returns a
single group. -/
theorem c8_posterize_count_counterexample :
    processPosterize
      { width := 1, height := 1, pixels := [],
        originalWidth := 1, originalHeight := 1, resizedWidth := 1,
        resizedHeight := 1, outputWidth := 560, outputHeight := 560,
        columnsCount := 1, rowsCount := 1, tileWidth := 560, tileHeight := 560,
        colorGroups := [] }
      { gridSize := 10, gridSizeX := 10, gridSizeY := 10,
        brightnessThreshold := 255, minDensity := 2, maxDensity := 5,
        rowsCount := 1, columnsCount := 1, invert := false,
        continuousPaths := true, curvedPaths := false,
        pathDistanceThreshold := 10,
        processingMode := ProcessingMode.posterize, colorsAmt := 1,
        monochromeColor := "#000000", visiblePaths := fun _ => none }
      (fun _ => 0) = none ∧
    (uniqueColors c8cxImage.pixels c8cxImage.width c8cxImage.height).length = 5 ∧
    c8cxSettings.colorsAmt = 2 ∧
    (processPosterize c8cxImage c8cxSettings c8cxRand).map List.length = some 1 := by
  refine ⟨rfl, by rw [c8cx_uc]; rfl, rfl, ?_⟩
  unfold processPosterize
  simp only [c8cx_uc]
  have hamt : c8cxSettings.colorsAmt = 2 := rfl
  simp only [hamt, c8cx_km]
  rw [if_neg (by rintro ⟨h1, _⟩; exact List.noConfusion h1)]
  have hkeys : jsObjectKeys
      (([((1 : ℚ), (1 : ℚ), (0 : ℚ)), (1, 1, 0)]).map centroidKey) =
      ["color-1-1-0"] := by
    rw [show (([((1 : ℚ), (1 : ℚ), (0 : ℚ)), (1, 1, 0)]).map centroidKey) =
      ["color-1-1-0", "color-1-1-0"] from rfl]
    simp [jsObjectKeys]
  rw [Option.map_some', List.length_map, hkeys]
  rfl

/-- Claim C8 witness: the amended count statement applied to a 1×1 image with
one pixel of color (10, 20, 30) and `colorsAmt = 1`. -/
theorem c8_posterize_group_count_witness :
    ∃ gs, processPosterize
      { width := 1, height := 1,
        pixels := [{ x := 0, y := 0, brightness := 18, r := 10, g := 20, b := 30,
                     a := 255 }],
        originalWidth := 1, originalHeight := 1, resizedWidth := 1,
        resizedHeight := 1, outputWidth := 560, outputHeight := 560,
        columnsCount := 1, rowsCount := 1, tileWidth := 560, tileHeight := 560,
        colorGroups := [] }
      { gridSize := 10, gridSizeX := 10, gridSizeY := 10,
        brightnessThreshold := 255, minDensity := 2, maxDensity := 5,
        rowsCount := 1, columnsCount := 1, invert := false,
        continuousPaths := true, curvedPaths := false,
        pathDistanceThreshold := 10,
        processingMode := ProcessingMode.posterize, colorsAmt := 1,
        monochromeColor := "#000000", visiblePaths := fun _ => none }
      (fun _ => 0) = some gs ∧
    gs.length ≤ 1 ∧
    ((uniqueColors
        [{ x := 0, y := 0, brightness := 18, r := 10, g := 20, b := 30,
           a := 255 }] 1 1).length ≤ 1 →
      gs.length =
        (sampleColors (uniqueColors
          [{ x := 0, y := 0, brightness := 18, r := 10, g := 20, b := 30,
             a := 255 }] 1 1)).length) ∧
    ((uniqueColors
        [{ x := 0, y := 0, brightness := 18, r := 10, g := 20, b := 30,
           a := 255 }] 1 1).length < 20000 →
      sampleColors (uniqueColors
        [{ x := 0, y := 0, brightness := 18, r := 10, g := 20, b := 30,
           a := 255 }] 1 1) =
        uniqueColors
          [{ x := 0, y := 0, brightness := 18, r := 10, g := 20, b := 30,
             a := 255 }] 1 1) :=
  c8_posterize_group_count
    { width := 1, height := 1,
      pixels := [{ x := 0, y := 0, brightness := 18, r := 10, g := 20, b := 30,
                   a := 255 }],
      originalWidth := 1, originalHeight := 1, resizedWidth := 1,
      resizedHeight := 1, outputWidth := 560, outputHeight := 560,
      columnsCount := 1, rowsCount := 1, tileWidth := 560, tileHeight := 560,
      colorGroups := [] }
    { gridSize := 10, gridSizeX := 10, gridSizeY := 10,
      brightnessThreshold := 255, minDensity := 2, maxDensity := 5,
      rowsCount := 1, columnsCount := 1, invert := false,
      continuousPaths := true, curvedPaths := false,
      pathDistanceThreshold := 10,
      processingMode := ProcessingMode.posterize, colorsAmt := 1,
      monochromeColor := "#000000", visiblePaths := fun _ => none }
    (fun _ => 0)
    (by norm_num)
    ⟨0, 0, { x := 0, y := 0, brightness := 18, r := 10, g := 20, b := 30,
             a := 255 }, by norm_num, by norm_num, rfl⟩
    (by
      intro p hp
      rcases List.mem_cons.mp hp with rfl | hp2
      · exact ⟨⟨10, by norm_num, by norm_num⟩, ⟨20, by norm_num, by norm_num⟩,
          ⟨30, by norm_num, by norm_num⟩⟩
      · exact absurd hp2 (List.not_mem_nil p))

end Doodle
